import Mathlib

/-!
# Software assignment engine

A shallow embedding of `utils/software_assignment.go` (the auto-assignment,
synchronisation and revocation engine) together with the rows of
`models/*.go` it reads and writes.

Conventions of the embedding:

* Go `uint` identifiers and `time.Time` instants are natural numbers; the
  engine does no arithmetic on either.
* The process-wide `config.DB` handle becomes an explicit `Store` value that
  every operation takes and returns.  A table is the list of its rows in
  insertion order.
* Every call to the store may fail.  Which calls fail is fixed by a `Faults`
  predicate on the call; `noFaults` is the run in which every store operation
  succeeds.
* `time.Now()` is an input: `now` is the instant at which the operation runs.
-/

namespace SoftwareManagement

/-! ## Rows (package `models`) -/

/-- Row of `assigned_software` (`models.AssignedSoftware`). -/
structure AssignedSoftware where
  ID : Nat
  StaffID : Nat
  SoftwareID : Nat
  Source : String
  AssignedAt : Nat
  UpdatedAt : Nat
deriving DecidableEq, Repr

/-- Row of `software_department_matches` (`models.SoftwareDepartmentMatch`). -/
structure SoftwareDepartmentMatch where
  ID : Nat
  SoftwareID : Nat
  DepartmentID : Nat
  CreatedAt : Nat := 0
  UpdatedAt : Nat := 0
deriving DecidableEq, Repr

/-- Row of `software_team_matches` (`models.SoftwareTeamMatch`); the preloaded
`Software` and `Team` associations are not columns. -/
structure SoftwareTeamMatch where
  ID : Nat
  SoftwareID : Nat
  TeamID : Nat
  CreatedAt : Nat := 0
  UpdatedAt : Nat := 0
deriving DecidableEq, Repr

/-- Row of `models.SoftwareOrganizationMatch`. -/
structure SoftwareOrganizationMatch where
  ID : Nat
  SoftwareID : Nat
  CreatedAt : Nat := 0
  UpdatedAt : Nat := 0
deriving DecidableEq, Repr

/-- Row of `software_assignment_logs` (`models.SoftwareAssignmentLog`). -/
structure SoftwareAssignmentLog where
  ID : Nat
  StaffID : Nat
  SoftwareID : Nat
  Action : String
  ChangedBy : Nat
  ChangedAt : Nat
  UpdatedAt : Nat
deriving DecidableEq, Repr

/-- Row of `staff` (`models.Staff`); the preloaded `Department` and `Team`
associations are not columns. -/
structure Staff where
  ID : Nat
  FirstName : String := ""
  LastName : String := ""
  Email : String := ""
  DepartmentID : Nat := 0
  TeamID : Nat := 0
  Status : String := ""
  CreatedAt : Nat := 0
  UpdatedAt : Nat := 0
deriving DecidableEq, Repr

/-- Row of `software` (`models.Software`); `Name` carries a unique index, and
`SoftwareType` is the Go field `Type`. -/
structure Software where
  ID : Nat
  Name : String := ""
  Description : String := ""
  SoftwareType : String := ""
  CreatedAt : Nat := 0
  UpdatedAt : Nat := 0
deriving DecidableEq, Repr

/-- Row of `software_assignments` (`models.SoftwareAssignment`): a scoped
assignment rule. -/
structure SoftwareAssignment where
  ID : Nat
  SoftwareID : Nat := 0
  ScopeType : String := ""
  ScopeID : Nat := 0
  CreatedAt : Nat := 0
  UpdatedAt : Nat := 0
deriving DecidableEq, Repr

/-! ## The store (`config.DB`) -/

/-- The tables the engine and the controllers touch. -/
structure Store where
  assigned : List AssignedSoftware := []
  logs : List SoftwareAssignmentLog := []
  deptMatches : List SoftwareDepartmentMatch := []
  teamMatches : List SoftwareTeamMatch := []
  orgMatches : List SoftwareOrganizationMatch := []
  staff : List Staff := []
  software : List Software := []
  softwareAssignments : List SoftwareAssignment := []
deriving DecidableEq, Repr

/-- The store calls the engine makes, each with the values it binds. -/
inductive DBOp where
  /-- `Model(&AssignedSoftware{}).Where("staff_id = ?").Pluck("software_id")` -/
  | pluckAssignedSoftwareIDs (staffID : Nat)
  /-- `Where("staff_id = ?").Find(&assignments)` -/
  | findAssigned (staffID : Nat)
  /-- `Where("staff_id = ? AND software_id = ?").First(&existing)` -/
  | firstAssigned (staffID softwareID : Nat)
  /-- `Where("department_id = ?").Find(&deptMatches)` -/
  | findDepartmentMatches (departmentID : Nat)
  /-- `Where("team_id = ?").Find(&teamMatches)` -/
  | findTeamMatches (teamID : Nat)
  /-- `Find(&orgMatches)` -/
  | findOrganizationMatches
  /-- `Model(&SoftwareDepartmentMatch{}).Where("department_id = ?").Pluck("software_id")` -/
  | pluckDepartmentSoftwareIDs (departmentID : Nat)
  /-- `Model(&SoftwareTeamMatch{}).Where("team_id = ?").Pluck("software_id")` -/
  | pluckTeamSoftwareIDs (teamID : Nat)
  /-- `Create(&AssignedSoftware{...})` -/
  | createAssigned (staffID softwareID : Nat) (source : String)
  /-- `Where("staff_id = ? AND software_id = ? AND source = ?").Delete(&AssignedSoftware{})` -/
  | deleteAssignedWhere (staffID softwareID : Nat) (source : String)
  /-- `Delete(&assignment)`: delete by primary key -/
  | deleteAssignedByID (id : Nat)
  /-- `Create(&SoftwareAssignmentLog{...})` -/
  | createLog (staffID softwareID : Nat) (action : String)
  /-- `First(&software, id)` -/
  | firstSoftware (id : Nat)
  /-- `Where("name = ?").First(&existing)` on `software` -/
  | firstSoftwareByName (name : String)
  /-- `Where("name = ? AND id != ?").First(&duplicate)` on `software` -/
  | firstSoftwareByNameExcept (name : String) (id : Nat)
  /-- `Create(&software)` -/
  | createSoftware (name : String)
  /-- `Save(&software)` -/
  | saveSoftware (id : Nat)
  /-- `Delete(&software)` -/
  | deleteSoftware (id : Nat)
  /-- `Where("software_id = ?").Find(&assignments)` on `assigned_software` -/
  | findAssignedBySoftware (softwareID : Nat)
  /-- `First(&match, id)` on `software_department_matches` -/
  | firstDepartmentMatch (id : Nat)
  /-- `Where("software_id = ? AND department_id = ?").First(&existing)` -/
  | firstDepartmentMatchByPair (softwareID departmentID : Nat)
  /-- `Create(&match)` on `software_department_matches` -/
  | createDepartmentMatch (softwareID departmentID : Nat)
  /-- `Save(&match)` on `software_department_matches` -/
  | saveDepartmentMatch (id : Nat)
  /-- `Delete(&match)` and `Delete(&SoftwareDepartmentMatch{}, id)` -/
  | deleteDepartmentMatch (id : Nat)
  /-- `Where("software_id = ? AND team_id = ?").First(&existing)` -/
  | firstTeamMatchByPair (softwareID teamID : Nat)
  /-- `Create(&match)` on `software_team_matches` -/
  | createTeamMatch (softwareID teamID : Nat)
  /-- `Where("software_id = ?").First(&existing)` on the organization matches -/
  | firstOrganizationMatchBySoftware (softwareID : Nat)
  /-- `Create(&input)` on the organization matches -/
  | createOrganizationMatch (softwareID : Nat)
  /-- `Where("department_id = ?").Find(&staffList)` -/
  | findStaffByDepartment (departmentID : Nat)
  /-- `Where("team_id = ?").Find(&staffList)` -/
  | findStaffByTeam (teamID : Nat)
  /-- `Find(&staffList)` -/
  | findStaff
  /-- `First(&existing, id)` on `staff` -/
  | firstStaff (id : Nat)
  /-- `Where("email = ? AND id != ?").First(&duplicate)` on `staff` -/
  | firstStaffByEmailExcept (email : String) (id : Nat)
  /-- `Save(&existing)` on `staff` -/
  | saveStaff (id : Nat)
  /-- `First(&assignment, id)` on `assigned_software` -/
  | firstAssignedByID (id : Nat)
  /-- `First(&assignment, id)` on `software_assignments` -/
  | firstSoftwareAssignment (id : Nat)
  /-- `Delete(&assignment)` on `software_assignments` -/
  | deleteSoftwareAssignment (id : Nat)
  /-- `Create(&assignment)` on `software_assignments` -/
  | createSoftwareAssignment (softwareID : Nat)
  /-- `Delete(&staff)` -/
  | deleteStaff (id : Nat)
deriving DecidableEq, Repr

/-- Which store calls fail. -/
abbrev Faults := DBOp → Bool

/-- Every store operation succeeds. -/
def noFaults : Faults := fun _ => false

/-- The primary key an auto-increment column gives to the next row: one more
than the largest key in the table. -/
def nextID (ids : List Nat) : Nat := ids.foldr max 0 + 1

/-- The value stored for a column tagged `default:'manual'`: the ORM replaces a
zero-valued (empty) field by the default when it inserts the row. -/
def sourceOrDefault (source : String) : String :=
  if source = "" then "manual" else source

/-- `config.DB.Create(&models.AssignedSoftware{StaffID, SoftwareID, AssignedAt, Source})`.
The error is dropped by every caller, so only the store is returned. -/
def createAssignedSoftware (f : Faults) (now : Nat) (st : Store)
    (staffID softwareID : Nat) (source : String) : Store :=
  if f (.createAssigned staffID softwareID source) then st
  else
    { st with
      assigned := st.assigned ++
        [{ ID := nextID (st.assigned.map (·.ID)), StaffID := staffID,
           SoftwareID := softwareID, Source := sourceOrDefault source,
           AssignedAt := now, UpdatedAt := now }] }

/-- `config.DB.Where("staff_id = ? AND software_id = ? AND source = ?", ...).Delete(&models.AssignedSoftware{})`:
the store afterwards and `RowsAffected`. -/
def deleteAssignedWhere (f : Faults) (st : Store)
    (staffID softwareID : Nat) (source : String) : Store × Nat :=
  if f (.deleteAssignedWhere staffID softwareID source) then (st, 0)
  else
    ({ st with
       assigned := st.assigned.filter fun e =>
         !(e.StaffID == staffID && e.SoftwareID == softwareID && e.Source == source) },
     st.assigned.countP fun e =>
       e.StaffID == staffID && e.SoftwareID == softwareID && e.Source == source)

/-- `config.DB.Delete(&assignment)`: the row is deleted by its primary key; with
a zero key the ORM has no condition to delete by and refuses. -/
def deleteAssignedByID (f : Faults) (st : Store) (a : AssignedSoftware) : Store :=
  if f (.deleteAssignedByID a.ID) then st
  else if a.ID = 0 then st
  else { st with assigned := st.assigned.filter fun e => !(e.ID == a.ID) }

/-! ## The engine (package `utils`) -/

def SourceDepartment : String := "department"
def SourceTeam : String := "team"
def SourceOrganization : String := "organization"

/-- `isAutoAssigned`: is the source one of the match-based sources. -/
def isAutoAssigned (source : String) : Bool :=
  source == SourceDepartment || source == SourceTeam || source == SourceOrganization

/-- `logAssignmentChange`: writes an assignment or unassignment log row. -/
def logAssignmentChange (f : Faults) (now : Nat) (st : Store)
    (staffID softwareID : Nat) (action : String) : Store :=
  if f (.createLog staffID softwareID action) then st
  else
    { st with
      logs := st.logs ++
        [{ ID := nextID (st.logs.map (·.ID)), StaffID := staffID,
           SoftwareID := softwareID, Action := action, ChangedBy := 0,
           ChangedAt := now, UpdatedAt := now }] }

/-- The closure `assignIfNotExists` of `AutoAssignSoftwareToStaff`; `existing`
is the map built before the loops, which the closure reads and never writes. -/
def assignIfNotExists (f : Faults) (now : Nat) (staffID : Nat) (existing : List Nat)
    (st : Store) (softwareID : Nat) (source : String) : Store :=
  if softwareID ∈ existing then st
  else
    logAssignmentChange f now
      (createAssignedSoftware f now st staffID softwareID source)
      staffID softwareID "Assigned"

/-- `AutoAssignSoftwareToStaff`: the store afterwards and the returned error
(`none` for `nil`, otherwise the read that failed). -/
def AutoAssignSoftwareToStaff (f : Faults) (now : Nat) (st : Store)
    (staffID departmentID teamID : Nat) : Store × Option DBOp :=
  if f (.pluckAssignedSoftwareIDs staffID) then
    (st, some (.pluckAssignedSoftwareIDs staffID))
  else
    let existing := (st.assigned.filter fun e => e.StaffID == staffID).map (·.SoftwareID)
    if f (.findDepartmentMatches departmentID) then
      (st, some (.findDepartmentMatches departmentID))
    else
      let deptMatches := st.deptMatches.filter fun m => m.DepartmentID == departmentID
      let st1 := deptMatches.foldl
        (fun s m => assignIfNotExists f now staffID existing s m.SoftwareID SourceDepartment) st
      if f (.findTeamMatches teamID) then
        (st1, some (.findTeamMatches teamID))
      else
        let teamMatches := st1.teamMatches.filter fun m => m.TeamID == teamID
        let st2 := teamMatches.foldl
          (fun s m => assignIfNotExists f now staffID existing s m.SoftwareID SourceTeam) st1
        if f .findOrganizationMatches then
          (st2, some .findOrganizationMatches)
        else
          let st3 := st2.orgMatches.foldl
            (fun s m => assignIfNotExists f now staffID existing s m.SoftwareID SourceOrganization)
            st2
          (st3, none)

/-- `revokeSoftwareFromSource`: the errors of the pluck and of the deletes are
dropped; a failed pluck leaves `softwareIDs` empty. -/
def revokeSoftwareFromSource (f : Faults) (now : Nat) (st : Store)
    (staffID id : Nat) (source : String) : Store :=
  let softwareIDs : List Nat :=
    if source = SourceDepartment then
      if f (.pluckDepartmentSoftwareIDs id) then []
      else (st.deptMatches.filter fun m => m.DepartmentID == id).map (·.SoftwareID)
    else if source = SourceTeam then
      if f (.pluckTeamSoftwareIDs id) then []
      else (st.teamMatches.filter fun m => m.TeamID == id).map (·.SoftwareID)
    else []
  softwareIDs.foldl
    (fun s sid =>
      let result := deleteAssignedWhere f s staffID sid source
      if result.2 > 0 then logAssignmentChange f now result.1 staffID sid "Unassigned"
      else result.1)
    st

/-- `SyncSoftwareAssignmentsForStaff`: called when staff changes team or department. -/
def SyncSoftwareAssignmentsForStaff (f : Faults) (now : Nat) (st : Store)
    (staffID oldDeptID oldTeamID newDeptID newTeamID : Nat) : Store × Option DBOp :=
  let st1 := revokeSoftwareFromSource f now st staffID oldDeptID SourceDepartment
  let st2 := revokeSoftwareFromSource f now st1 staffID oldTeamID SourceTeam
  AutoAssignSoftwareToStaff f now st2 staffID newDeptID newTeamID

/-- `RevokeSoftwareAssignmentsForStaff`: called during offboarding. -/
def RevokeSoftwareAssignmentsForStaff (f : Faults) (now : Nat) (st : Store)
    (staffID : Nat) : Store × Option DBOp :=
  if f (.findAssigned staffID) then (st, some (.findAssigned staffID))
  else
    let assignments := st.assigned.filter fun e => e.StaffID == staffID
    (assignments.foldl
      (fun s assignment =>
        if isAutoAssigned assignment.Source then
          logAssignmentChange f now (deleteAssignedByID f s assignment)
            assignment.StaffID assignment.SoftwareID "Unassigned"
        else s)
      st, none)

/-- `Where("staff_id = ? AND software_id = ?", ...).First(&existing).Error != nil`:
the lookup reports an error when the read fails and when no row matches. -/
def firstAssignedErr (f : Faults) (st : Store) (staffID softwareID : Nat) : Bool :=
  if f (.firstAssigned staffID softwareID) then true
  else !(st.assigned.any fun e => e.StaffID == staffID && e.SoftwareID == softwareID)

/-- `AutoAssignSoftwareToStaffByUnit`: assigns a single software to a list of staff. -/
def AutoAssignSoftwareToStaffByUnit (f : Faults) (now : Nat) (st : Store)
    (softwareID : Nat) (staffList : List Staff) (source : String) : Store :=
  staffList.foldl
    (fun s staff =>
      if firstAssignedErr f s staff.ID softwareID then
        logAssignmentChange f now
          (createAssignedSoftware f now s staff.ID softwareID source)
          staff.ID softwareID "Assigned"
      else s)
    st

/-- `AutoRevokeSoftwareFromStaff`: revokes software from a list of staff. -/
def AutoRevokeSoftwareFromStaff (f : Faults) (now : Nat) (st : Store)
    (softwareID : Nat) (staffList : List Staff) (source : String) : Store :=
  staffList.foldl
    (fun s staff =>
      let result := deleteAssignedWhere f s staff.ID softwareID source
      if result.2 > 0 then logAssignmentChange f now result.1 staff.ID softwareID "Unassigned"
      else result.1)
    st

/-! ## Vocabulary of the statements -/

/-- What an edge says: staff, software and source tag. -/
def edgeKey (e : AssignedSoftware) : Nat × Nat × String :=
  (e.StaffID, e.SoftwareID, e.Source)

/-- What a log row says: staff, software and action label. -/
def logKey (l : SoftwareAssignmentLog) : Nat × Nat × String :=
  (l.StaffID, l.SoftwareID, l.Action)

/-- The software ids held by a staff member, whatever the source: the result of
the pluck that opens `AutoAssignSoftwareToStaff`. -/
def heldBy (st : Store) (staffID : Nat) : List Nat :=
  (st.assigned.filter fun e => e.StaffID == staffID).map (·.SoftwareID)

/-- The candidates `AutoAssignSoftwareToStaff` walks through, in its order:
department rules, team rules, organization rules, each with its source tag. -/
def candidateList (st : Store) (departmentID teamID : Nat) : List (Nat × String) :=
  ((st.deptMatches.filter fun m => m.DepartmentID == departmentID).map
      fun m => (m.SoftwareID, SourceDepartment)) ++
  ((st.teamMatches.filter fun m => m.TeamID == teamID).map
      fun m => (m.SoftwareID, SourceTeam)) ++
  (st.orgMatches.map fun m => (m.SoftwareID, SourceOrganization))

/-- The store `st2` is `st1` with the rows `created` appended to
`assigned_software` and the rows `newLogs` appended to the log, the rule tables
being the same. -/
def Appends (st1 st2 : Store) (created : List AssignedSoftware)
    (newLogs : List SoftwareAssignmentLog) : Prop :=
  st2.assigned = st1.assigned ++ created ∧ st2.logs = st1.logs ++ newLogs ∧
  st2.deptMatches = st1.deptMatches ∧ st2.teamMatches = st1.teamMatches ∧
  st2.orgMatches = st1.orgMatches

/-- No two edges of the table join the same staff member and software. -/
def OneEdgePerPair (st : Store) : Prop :=
  ∀ staffID softwareID,
    (st.assigned.countP fun e => e.StaffID == staffID && e.SoftwareID == softwareID) ≤ 1

instance (st : Store) (staffID softwareID : Nat) :
    Decidable ((st.assigned.countP fun e =>
      e.StaffID == staffID && e.SoftwareID == softwareID) ≤ 1) :=
  inferInstance

/-! ## Loop bodies, predicates and concrete stores used by the theorems -/

/-- A store with one department rule and one team rule for software 7 and no
edge at all. -/
def overlapStore : Store :=
  { deptMatches := [{ ID := 1, SoftwareID := 7, DepartmentID := 3 }],
    teamMatches := [{ ID := 1, SoftwareID := 7, TeamID := 4 }] }

/-- A store with one department rule and one organization rule for software 9,
in which staff member 2 holds software 5 by a manual grant. -/
def overlapOrgStore : Store :=
  { assigned := [{ ID := 1, StaffID := 2, SoftwareID := 5, Source := "manual",
                   AssignedAt := 10, UpdatedAt := 10 }],
    deptMatches := [{ ID := 1, SoftwareID := 9, DepartmentID := 6 }],
    orgMatches := [{ ID := 1, SoftwareID := 9 }] }

/-- The body of the two revoking loops: delete the edges of the staff member
for the software with the source tag, and log when a row was deleted. -/
def revokeStep (f : Faults) (now : Nat) (source : String) (s : Store)
    (staffID softwareID : Nat) : Store :=
  let result := deleteAssignedWhere f s staffID softwareID source
  if result.2 > 0 then logAssignmentChange f now result.1 staffID softwareID "Unassigned"
  else result.1

/-- Does the table hold an edge of the staff member for the software with the
source tag. -/
def hasEdge (tbl : List AssignedSoftware) (staffID softwareID : Nat) (source : String) :
    Bool :=
  tbl.any fun e => e.StaffID == staffID && e.SoftwareID == softwareID && e.Source == source

/-- The slice `softwareIDs` of `revokeSoftwareFromSource` when the pluck succeeds. -/
def revokedSoftwareIDs (st : Store) (id : Nat) (source : String) : List Nat :=
  if source = SourceDepartment then
    (st.deptMatches.filter fun m => m.DepartmentID == id).map (·.SoftwareID)
  else if source = SourceTeam then
    (st.teamMatches.filter fun m => m.TeamID == id).map (·.SoftwareID)
  else []

/-- Staff member 1 holds software 7 by the department rule of department 3 and
software 8 by a manual grant; department 4 has no rule, the organization has a
rule for software 7. -/
def movedStaffStore : Store :=
  { assigned := [{ ID := 1, StaffID := 1, SoftwareID := 7, Source := "department",
                   AssignedAt := 10, UpdatedAt := 10 },
                 { ID := 2, StaffID := 1, SoftwareID := 8, Source := "manual",
                   AssignedAt := 11, UpdatedAt := 11 }],
    deptMatches := [{ ID := 1, SoftwareID := 7, DepartmentID := 3 }],
    orgMatches := [{ ID := 1, SoftwareID := 7 }] }

/-- Staff member 1 holds software 7 by the department rule of department 3. -/
def sameUnitStore : Store :=
  { assigned := [{ ID := 1, StaffID := 1, SoftwareID := 7, Source := "department",
                   AssignedAt := 10, UpdatedAt := 10 }],
    deptMatches := [{ ID := 1, SoftwareID := 7, DepartmentID := 3 }] }

/-- Staff member 1 holds software 7 by a manual grant, and department 3 has a
rule for software 7. -/
def settledStore : Store :=
  { assigned := [{ ID := 1, StaffID := 1, SoftwareID := 7, Source := "manual",
                   AssignedAt := 10, UpdatedAt := 10 }],
    deptMatches := [{ ID := 1, SoftwareID := 7, DepartmentID := 3 }] }

/-- The primary key of `assigned_software`: keys are pairwise distinct, and
none is zero (an auto-increment key starts at one). -/
def PrimaryKeyValid (tbl : List AssignedSoftware) : Prop :=
  (tbl.map (·.ID)).Nodup ∧ ∀ e ∈ tbl, e.ID ≠ 0

instance (tbl : List AssignedSoftware) : Decidable (PrimaryKeyValid tbl) := by
  unfold PrimaryKeyValid
  infer_instance

/-- The body of the loop of `RevokeSoftwareAssignmentsForStaff`. -/
def offboardStep (f : Faults) (now : Nat) (s : Store) (assignment : AssignedSoftware) :
    Store :=
  if isAutoAssigned assignment.Source then
    logAssignmentChange f now (deleteAssignedByID f s assignment)
      assignment.StaffID assignment.SoftwareID "Unassigned"
  else s

/-- Staff member 1 holds software 7 by a department rule and software 8 by a
manual grant; staff member 2 holds software 7 by a department rule. -/
def offboardStore : Store :=
  { assigned := [{ ID := 1, StaffID := 1, SoftwareID := 7, Source := "department",
                   AssignedAt := 10, UpdatedAt := 10 },
                 { ID := 2, StaffID := 1, SoftwareID := 8, Source := "manual",
                   AssignedAt := 11, UpdatedAt := 11 },
                 { ID := 3, StaffID := 2, SoftwareID := 7, Source := "department",
                   AssignedAt := 12, UpdatedAt := 12 }] }

/-- The body of the loop of `AutoAssignSoftwareToStaffByUnit`. -/
def assignUnitStep (f : Faults) (now : Nat) (softwareID : Nat) (source : String)
    (s : Store) (staff : Staff) : Store :=
  if firstAssignedErr f s staff.ID softwareID then
    logAssignmentChange f now
      (createAssignedSoftware f now s staff.ID softwareID source)
      staff.ID softwareID "Assigned"
  else s

/-- Staff member 1 holds software 7 by a manual grant; staff member 2 holds
nothing. -/
def ruleCreatedStore : Store :=
  { assigned := [{ ID := 1, StaffID := 1, SoftwareID := 7, Source := "manual",
                   AssignedAt := 10, UpdatedAt := 10 }] }

/-- Staff member 1 holds software 7 by the department rule of department 3 and
software 8 by a manual grant; staff member 2 holds software 7 by the same
rule. -/
def scopedRevokeStore : Store :=
  { assigned := [{ ID := 1, StaffID := 1, SoftwareID := 7, Source := "department",
                   AssignedAt := 10, UpdatedAt := 10 },
                 { ID := 2, StaffID := 1, SoftwareID := 8, Source := "manual",
                   AssignedAt := 11, UpdatedAt := 11 },
                 { ID := 3, StaffID := 2, SoftwareID := 7, Source := "department",
                   AssignedAt := 12, UpdatedAt := 12 }],
    deptMatches := [{ ID := 1, SoftwareID := 7, DepartmentID := 3 }] }

/-- The edge of `scopedRevokeStore` that joins staff member 1 and software 7. -/
def scopedRevokeEdge : AssignedSoftware :=
  { ID := 1, StaffID := 1, SoftwareID := 7, Source := "department",
    AssignedAt := 10, UpdatedAt := 10 }

/-- Staff members 1 and 2 hold software 7 by a department rule, staff member 3
holds it by a manual grant, and staff member 1 also holds software 8 by a
department rule. -/
def ruleDeletedStore : Store :=
  { assigned := [{ ID := 1, StaffID := 1, SoftwareID := 7, Source := "department",
                   AssignedAt := 10, UpdatedAt := 10 },
                 { ID := 2, StaffID := 2, SoftwareID := 7, Source := "department",
                   AssignedAt := 11, UpdatedAt := 11 },
                 { ID := 3, StaffID := 3, SoftwareID := 7, Source := "manual",
                   AssignedAt := 12, UpdatedAt := 12 },
                 { ID := 4, StaffID := 1, SoftwareID := 8, Source := "department",
                   AssignedAt := 13, UpdatedAt := 13 }] }

/-- A store in which only the read of the team rules of team 4 fails. -/
def teamReadFails : Faults := fun op => op == DBOp.findTeamMatches 4

/-- Department 3 has a rule for software 7; nobody holds anything. -/
def partialWriteStore : Store :=
  { deptMatches := [{ ID := 1, SoftwareID := 7, DepartmentID := 3 }] }

/-- The edges of one staff member, as (staff, software, source), in table
order. -/
def edgesOf (st : Store) (staffID : Nat) : List (Nat × Nat × String) :=
  (st.assigned.filter fun e => e.StaffID == staffID).map edgeKey

/-- The faults `f`, except that the store call `op` succeeds. -/
def withSuccess (f : Faults) (op : DBOp) : Faults :=
  fun o => if o = op then false else f o

/-- A store in which the insert of the edge (1, 7, department) fails. -/
def createForOneFails : Faults := fun op => op == DBOp.createAssigned 1 7 "department"

/-- The (staff, software) pair of an edge. -/
def pairOf (e : AssignedSoftware) : Nat × Nat := (e.StaffID, e.SoftwareID)

/-- The (staff, software) pair of a log row. -/
def logPair (l : SoftwareAssignmentLog) : Nat × Nat := (l.StaffID, l.SoftwareID)

/-- No two edges of the table have the same staff, software and source. -/
def OneEdgePerTriple (tbl : List AssignedSoftware) : Prop := (tbl.map edgeKey).Nodup

instance (tbl : List AssignedSoftware) : Decidable (OneEdgePerTriple tbl) := by
  unfold OneEdgePerTriple
  infer_instance

/-- The store `st2` is `st1` after the edges `deleted` were removed, with one
`Unassigned` log row appended per removed edge, for the same staff and
software. -/
def DeletePaired (st1 st2 : Store) : Prop :=
  ∃ (deleted : List AssignedSoftware) (newLogs : List SoftwareAssignmentLog),
    st1.assigned.Perm (st2.assigned ++ deleted) ∧
    st2.logs = st1.logs ++ newLogs ∧
    (∀ l ∈ newLogs, l.Action = "Unassigned") ∧
    (newLogs.map logPair).Perm (deleted.map pairOf)

/-- The store `st2` is `st1` with the edges `created` appended, and one
`Assigned` log row appended per created edge, for the same staff and
software. -/
def CreatePaired (st1 st2 : Store) : Prop :=
  ∃ (created : List AssignedSoftware) (newLogs : List SoftwareAssignmentLog),
    st2.assigned = st1.assigned ++ created ∧
    st2.logs = st1.logs ++ newLogs ∧
    (∀ l ∈ newLogs, l.Action = "Assigned") ∧
    (newLogs.map logPair).Perm (created.map pairOf)

/-- The audit pairing of an operation that took the store from `st1` to `st2`:
the operation kept the edges `kept`, deleted the edges `deleted` and created the
edges `created`; the log rows it appended are `Unassigned` rows whose (staff,
software) pairs are, as a multiset, those of the deleted edges, followed by
`Assigned` rows whose pairs are those of the created edges. -/
def AuditPaired (st1 st2 : Store) : Prop :=
  ∃ (kept deleted created : List AssignedSoftware)
    (unassignedLogs assignedLogs : List SoftwareAssignmentLog),
    st1.assigned.Perm (kept ++ deleted) ∧
    st2.assigned = kept ++ created ∧
    st2.logs = st1.logs ++ unassignedLogs ++ assignedLogs ∧
    (∀ l ∈ unassignedLogs, l.Action = "Unassigned") ∧
    (∀ l ∈ assignedLogs, l.Action = "Assigned") ∧
    (unassignedLogs.map logPair).Perm (deleted.map pairOf) ∧
    (assignedLogs.map logPair).Perm (created.map pairOf)

/-- Staff member 1 holds software 7 twice with the tag `department`. -/
def doubleEdgeStore : Store :=
  { assigned := [{ ID := 1, StaffID := 1, SoftwareID := 7, Source := "department",
                   AssignedAt := 10, UpdatedAt := 10 },
                 { ID := 2, StaffID := 1, SoftwareID := 7, Source := "department",
                   AssignedAt := 11, UpdatedAt := 11 }] }

/-! ## The controllers (package `controllers`)

A handler takes the store, the path parameter and the bound request body, and
returns the store afterwards and the HTTP status it answers with. The body is
`none` when `ShouldBindJSON` rejects it. A numeric path parameter `id` is a
natural number. -/

/-- `config.DB.Create(&log)` for a log row written by a controller: the row gets
the next key, and a zero `UpdatedAt` is filled in with the current time. The
error is dropped by every caller. -/
def createLog (f : Faults) (now : Nat) (st : Store) (staffID softwareID : Nat)
    (action : String) (changedBy changedAt updatedAt : Nat) : Store :=
  if f (.createLog staffID softwareID action) then st
  else
    { st with
      logs := st.logs ++
        [{ ID := nextID (st.logs.map (·.ID)), StaffID := staffID,
           SoftwareID := softwareID, Action := action, ChangedBy := changedBy,
           ChangedAt := changedAt,
           UpdatedAt := if updatedAt = 0 then now else updatedAt }] }

/-- `config.DB.Delete(&assignment).Error != nil`: the delete by primary key
fails when the store fails and when the key is zero. -/
def deleteAssignedByIDErr (f : Faults) (a : AssignedSoftware) : Bool :=
  f (.deleteAssignedByID a.ID) || a.ID == 0

/-- `config.DB.First(&software, id)`: the row with the key, `none` when the
lookup reports an error (read failure or no such row). -/
def firstSoftware (f : Faults) (st : Store) (id : Nat) : Option Software :=
  if f (.firstSoftware id) then none else st.software.find? fun r => r.ID == id

/-- `config.DB.Create(&software)`: `none` when the insert fails, which it does
when the store fails, when the name is taken (unique index) and when the body
carries a key that is taken. -/
def createSoftwareRow (f : Faults) (now : Nat) (st : Store) (software : Software) :
    Option Store :=
  if f (.createSoftware software.Name) then none
  else if st.software.any fun r => r.Name == software.Name then none
  else if software.ID != 0 && st.software.any fun r => r.ID == software.ID then none
  else
    some { st with
      software := st.software ++
        [{ software with
           ID := if software.ID = 0 then nextID (st.software.map (·.ID)) else software.ID,
           CreatedAt := if software.CreatedAt = 0 then now else software.CreatedAt,
           UpdatedAt := if software.UpdatedAt = 0 then now else software.UpdatedAt }] }

/-- `config.DB.Save(&software)`: an insert when the key is zero; otherwise an
update of every column of the row with the key, or an insert when there is no
such row. It fails when the store fails and when another row has the name
(unique index). -/
def saveSoftware (f : Faults) (now : Nat) (st : Store) (software : Software) :
    Option Store :=
  if f (.saveSoftware software.ID) then none
  else if software.ID = 0 then createSoftwareRow f now st software
  else if st.software.any fun r => r.Name == software.Name && r.ID != software.ID then none
  else if st.software.any fun r => r.ID == software.ID then
    some { st with
      software := st.software.map fun r =>
        if r.ID == software.ID then { software with UpdatedAt := now } else r }
  else
    some { st with software := st.software ++ [{ software with UpdatedAt := now }] }

/-- `CreateSoftware`. -/
def CreateSoftware (f : Faults) (now : Nat) (st : Store) (body : Option Software) :
    Store × Nat :=
  match body with
  | none => (st, 400)
  | some software =>
    if !f (.firstSoftwareByName software.Name) &&
        st.software.any (fun r => r.Name == software.Name) then (st, 400)
    else
      match createSoftwareRow f now st software with
      | none => (st, 500)
      | some st1 => (st1, 201)

/-- `UpdateSoftware`. -/
def UpdateSoftware (f : Faults) (now : Nat) (st : Store) (id : Nat)
    (body : Option Software) : Store × Nat :=
  match firstSoftware f st id with
  | none => (st, 404)
  | some software =>
    match body with
    | none => (st, 400)
    | some input =>
      if !f (.firstSoftwareByNameExcept input.Name id) &&
          st.software.any (fun r => r.Name == input.Name && r.ID != id) then (st, 400)
      else
        match saveSoftware f now st
            { software with Name := input.Name, Description := input.Description } with
        | none => (st, 500)
        | some st1 => (st1, 200)

/-- The loop of `DeleteSoftware` over the assignments of the software: the
store afterwards, and whether the loop ran to its end (it returns from the
handler at the first delete that fails). -/
def deleteSoftwareLoop (f : Faults) (now : Nat) :
    Store → List AssignedSoftware → Store × Bool
  | st, [] => (st, true)
  | st, assignment :: rest =>
    if deleteAssignedByIDErr f assignment then (st, false)
    else
      deleteSoftwareLoop f now
        (createLog f now (deleteAssignedByID f st assignment)
          assignment.StaffID assignment.SoftwareID "Unassigned" 0 now now)
        rest

/-- `DeleteSoftware`; `idParam` is `none` when `strconv.Atoi` rejects the path
parameter. -/
def DeleteSoftware (f : Faults) (now : Nat) (st : Store) (idParam : Option Nat) :
    Store × Nat :=
  match idParam with
  | none => (st, 400)
  | some softwareID =>
    match firstSoftware f st softwareID with
    | none => (st, 404)
    | some software =>
      if f (.findAssignedBySoftware softwareID) then (st, 500)
      else
        match deleteSoftwareLoop f now st
            (st.assigned.filter fun e => e.SoftwareID == softwareID) with
        | (st1, false) => (st1, 500)
        | (st1, true) =>
          if f (.deleteSoftware software.ID) || software.ID == 0 then (st1, 500)
          else
            ({ st1 with software := st1.software.filter fun r => !(r.ID == software.ID) },
             200)

/-- No two rows of the `software` table have the same name. -/
def NameUnique (tbl : List Software) : Prop := (tbl.map (·.Name)).Nodup

instance (tbl : List Software) : Decidable (NameUnique tbl) := by
  unfold NameUnique
  infer_instance

/-- A catalogue with the two software records ClickUp (1) and Slack (2). -/
def catalogueStore : Store :=
  { software := [{ ID := 1, Name := "ClickUp" }, { ID := 2, Name := "Slack" }] }

/-- `config.DB.Create(&match)` on `software_department_matches`: `none` when the
insert fails, which it does when the store fails and when the body carries a
key that is taken. -/
def createDepartmentMatchRow (f : Faults) (now : Nat) (st : Store)
    (m : SoftwareDepartmentMatch) : Option Store :=
  if f (.createDepartmentMatch m.SoftwareID m.DepartmentID) then none
  else if m.ID != 0 && st.deptMatches.any fun r => r.ID == m.ID then none
  else
    some { st with
      deptMatches := st.deptMatches ++
        [{ m with
           ID := if m.ID = 0 then nextID (st.deptMatches.map (·.ID)) else m.ID,
           CreatedAt := if m.CreatedAt = 0 then now else m.CreatedAt,
           UpdatedAt := if m.UpdatedAt = 0 then now else m.UpdatedAt }] }

/-- `Where("software_id = ? AND department_id = ?", ...).First(&existing).Error == nil`:
the lookup found a rule for the pair. -/
def departmentMatchExists (f : Faults) (st : Store) (softwareID departmentID : Nat) : Bool :=
  !f (.firstDepartmentMatchByPair softwareID departmentID) &&
    st.deptMatches.any fun r => r.SoftwareID == softwareID && r.DepartmentID == departmentID

/-- `CreateSoftwareDepartmentMatch`. -/
def CreateSoftwareDepartmentMatch (f : Faults) (now : Nat) (st : Store)
    (body : Option SoftwareDepartmentMatch) : Store × Nat :=
  match body with
  | none => (st, 400)
  | some input =>
    if departmentMatchExists f st input.SoftwareID input.DepartmentID then (st, 400)
    else
      match createDepartmentMatchRow f now st input with
      | none => (st, 500)
      | some st1 => (st1, 201)

/-- `CreateSoftwareDepartmentMatchWithAutoAssignment`. -/
def CreateSoftwareDepartmentMatchWithAutoAssignment (f : Faults) (now : Nat) (st : Store)
    (body : Option SoftwareDepartmentMatch) : Store × Nat :=
  match body with
  | none => (st, 400)
  | some m =>
    if departmentMatchExists f st m.SoftwareID m.DepartmentID then (st, 409)
    else
      match createDepartmentMatchRow f now st m with
      | none => (st, 500)
      | some st1 =>
        if f (.findStaffByDepartment m.DepartmentID) then (st1, 201)
        else
          (AutoAssignSoftwareToStaffByUnit f now st1 m.SoftwareID
            (st1.staff.filter fun p => p.DepartmentID == m.DepartmentID) SourceDepartment,
           201)

/-- The fields a JSON body sets when it is bound onto a department match that
was read from the store: a field the body does not name keeps its value. -/
structure DepartmentMatchPatch where
  ID : Option Nat := none
  SoftwareID : Option Nat := none
  DepartmentID : Option Nat := none
  CreatedAt : Option Nat := none
  UpdatedAt : Option Nat := none
deriving DecidableEq, Repr

/-- `c.ShouldBindJSON(&match)` on a match read from the store. -/
def DepartmentMatchPatch.apply (p : DepartmentMatchPatch) (m : SoftwareDepartmentMatch) :
    SoftwareDepartmentMatch :=
  { ID := p.ID.getD m.ID, SoftwareID := p.SoftwareID.getD m.SoftwareID,
    DepartmentID := p.DepartmentID.getD m.DepartmentID,
    CreatedAt := p.CreatedAt.getD m.CreatedAt, UpdatedAt := p.UpdatedAt.getD m.UpdatedAt }

/-- `config.DB.Save(&match)` on `software_department_matches`: an insert when
the key is zero; otherwise an update of every column of the row with the key,
or an insert when there is no such row. -/
def saveDepartmentMatch (f : Faults) (now : Nat) (st : Store)
    (m : SoftwareDepartmentMatch) : Option Store :=
  if f (.saveDepartmentMatch m.ID) then none
  else if m.ID = 0 then createDepartmentMatchRow f now st m
  else if st.deptMatches.any fun r => r.ID == m.ID then
    some { st with
      deptMatches := st.deptMatches.map fun r =>
        if r.ID == m.ID then { m with UpdatedAt := now } else r }
  else
    some { st with deptMatches := st.deptMatches ++ [{ m with UpdatedAt := now }] }

/-- `config.DB.First(&match, id)` on `software_department_matches`. -/
def firstDepartmentMatch (f : Faults) (st : Store) (id : Nat) :
    Option SoftwareDepartmentMatch :=
  if f (.firstDepartmentMatch id) then none else st.deptMatches.find? fun r => r.ID == id

/-- `UpdateSoftwareDepartmentMatch`. -/
def UpdateSoftwareDepartmentMatch (f : Faults) (now : Nat) (st : Store) (id : Nat)
    (body : Option DepartmentMatchPatch) : Store × Nat :=
  match firstDepartmentMatch f st id with
  | none => (st, 404)
  | some m =>
    match body with
    | none => (st, 400)
    | some patch =>
      match saveDepartmentMatch f now st (patch.apply m) with
      | none => (st, 500)
      | some st1 => (st1, 200)

/-- `DeleteSoftwareDepartmentMatch`: `Delete(&models.SoftwareDepartmentMatch{}, id)`. -/
def DeleteSoftwareDepartmentMatch (f : Faults) (st : Store) (id : Nat) : Store × Nat :=
  if f (.deleteDepartmentMatch id) then (st, 500)
  else ({ st with deptMatches := st.deptMatches.filter fun r => !(r.ID == id) }, 200)

/-- `DeleteSoftwareDepartmentMatchAndRevokeAssignment`. -/
def DeleteSoftwareDepartmentMatchAndRevokeAssignment (f : Faults) (now : Nat) (st : Store)
    (id : Nat) : Store × Nat :=
  match firstDepartmentMatch f st id with
  | none => (st, 404)
  | some m =>
    if f (.deleteDepartmentMatch m.ID) || m.ID == 0 then (st, 500)
    else
      let st1 := { st with deptMatches := st.deptMatches.filter fun r => !(r.ID == m.ID) }
      if f (.findStaffByDepartment m.DepartmentID) then (st1, 200)
      else
        (AutoRevokeSoftwareFromStaff f now st1 m.SoftwareID
          (st1.staff.filter fun p => p.DepartmentID == m.DepartmentID) SourceDepartment,
         200)

/-- `config.DB.Create(&match)` on `software_team_matches`. -/
def createTeamMatchRow (f : Faults) (now : Nat) (st : Store) (m : SoftwareTeamMatch) :
    Option Store :=
  if f (.createTeamMatch m.SoftwareID m.TeamID) then none
  else if m.ID != 0 && st.teamMatches.any fun r => r.ID == m.ID then none
  else
    some { st with
      teamMatches := st.teamMatches ++
        [{ m with
           ID := if m.ID = 0 then nextID (st.teamMatches.map (·.ID)) else m.ID,
           CreatedAt := if m.CreatedAt = 0 then now else m.CreatedAt,
           UpdatedAt := if m.UpdatedAt = 0 then now else m.UpdatedAt }] }

/-- `Where("software_id = ? AND team_id = ?", ...).First(&existing).Error == nil`. -/
def teamMatchExists (f : Faults) (st : Store) (softwareID teamID : Nat) : Bool :=
  !f (.firstTeamMatchByPair softwareID teamID) &&
    st.teamMatches.any fun r => r.SoftwareID == softwareID && r.TeamID == teamID

/-- `CreateSoftwareTeamMatch`. -/
def CreateSoftwareTeamMatch (f : Faults) (now : Nat) (st : Store)
    (body : Option SoftwareTeamMatch) : Store × Nat :=
  match body with
  | none => (st, 400)
  | some input =>
    if teamMatchExists f st input.SoftwareID input.TeamID then (st, 400)
    else
      match createTeamMatchRow f now st input with
      | none => (st, 500)
      | some st1 => (st1, 201)

/-- `CreateSoftwareTeamMatchWithAutoAssignment`. -/
def CreateSoftwareTeamMatchWithAutoAssignment (f : Faults) (now : Nat) (st : Store)
    (body : Option SoftwareTeamMatch) : Store × Nat :=
  match body with
  | none => (st, 400)
  | some m =>
    if teamMatchExists f st m.SoftwareID m.TeamID then (st, 409)
    else
      match createTeamMatchRow f now st m with
      | none => (st, 500)
      | some st1 =>
        if f (.findStaffByTeam m.TeamID) then (st1, 201)
        else
          (AutoAssignSoftwareToStaffByUnit f now st1 m.SoftwareID
            (st1.staff.filter fun p => p.TeamID == m.TeamID) SourceTeam,
           201)

/-- `config.DB.Create(&input)` on the organization matches. -/
def createOrganizationMatchRow (f : Faults) (now : Nat) (st : Store)
    (m : SoftwareOrganizationMatch) : Option Store :=
  if f (.createOrganizationMatch m.SoftwareID) then none
  else if m.ID != 0 && st.orgMatches.any fun r => r.ID == m.ID then none
  else
    some { st with
      orgMatches := st.orgMatches ++
        [{ m with
           ID := if m.ID = 0 then nextID (st.orgMatches.map (·.ID)) else m.ID,
           CreatedAt := if m.CreatedAt = 0 then now else m.CreatedAt,
           UpdatedAt := if m.UpdatedAt = 0 then now else m.UpdatedAt }] }

/-- `Where("software_id = ?", ...).First(&existing).Error == nil` on the
organization matches. -/
def organizationMatchExists (f : Faults) (st : Store) (softwareID : Nat) : Bool :=
  !f (.firstOrganizationMatchBySoftware softwareID) &&
    st.orgMatches.any fun r => r.SoftwareID == softwareID

/-- `CreateSoftwareOrganizationMatch`. -/
def CreateSoftwareOrganizationMatch (f : Faults) (now : Nat) (st : Store)
    (body : Option SoftwareOrganizationMatch) : Store × Nat :=
  match body with
  | none => (st, 400)
  | some input =>
    if organizationMatchExists f st input.SoftwareID then (st, 400)
    else
      match createOrganizationMatchRow f now st input with
      | none => (st, 500)
      | some st1 => (st1, 201)

/-- `CreateSoftwareOrganizationMatchWithAutoAssignment`. -/
def CreateSoftwareOrganizationMatchWithAutoAssignment (f : Faults) (now : Nat) (st : Store)
    (body : Option SoftwareOrganizationMatch) : Store × Nat :=
  match body with
  | none => (st, 400)
  | some input =>
    if organizationMatchExists f st input.SoftwareID then (st, 409)
    else
      match createOrganizationMatchRow f now st input with
      | none => (st, 500)
      | some st1 =>
        if f .findStaff then (st1, 201)
        else
          (AutoAssignSoftwareToStaffByUnit f now st1 input.SoftwareID st1.staff
            SourceOrganization,
           201)

/-- No two department rules have the same software and department. -/
def DepartmentMatchesUnique (tbl : List SoftwareDepartmentMatch) : Prop :=
  (tbl.map fun m => (m.SoftwareID, m.DepartmentID)).Nodup

instance (tbl : List SoftwareDepartmentMatch) : Decidable (DepartmentMatchesUnique tbl) := by
  unfold DepartmentMatchesUnique
  infer_instance

/-- Software 7 has a rule for department 3 and a rule for department 4. -/
def twoRulesStore : Store :=
  { deptMatches := [{ ID := 1, SoftwareID := 7, DepartmentID := 3 },
                    { ID := 2, SoftwareID := 7, DepartmentID := 4 }],
    teamMatches := [{ ID := 1, SoftwareID := 7, TeamID := 5 }],
    orgMatches := [{ ID := 1, SoftwareID := 9 }],
    staff := [{ ID := 1, DepartmentID := 3, TeamID := 5 }] }

/-- `config.DB.First(&existing, id)` on `staff`. -/
def firstStaff (f : Faults) (st : Store) (id : Nat) : Option Staff :=
  if f (.firstStaff id) then none else st.staff.find? fun r => r.ID == id

/-- `config.DB.Save(&existing)` on `staff`: an insert when the key is zero;
otherwise an update of every column of the row with the key, or an insert when
there is no such row. It fails when the store fails and when another row has
the email (unique index). -/
def saveStaff (f : Faults) (now : Nat) (st : Store) (p : Staff) : Option Store :=
  if f (.saveStaff p.ID) then none
  else if st.staff.any fun r => r.Email == p.Email && r.ID != p.ID then none
  else if p.ID = 0 then
    some { st with
      staff := st.staff ++
        [{ p with ID := nextID (st.staff.map (·.ID)), UpdatedAt := now }] }
  else if st.staff.any fun r => r.ID == p.ID then
    some { st with
      staff := st.staff.map fun r => if r.ID == p.ID then { p with UpdatedAt := now } else r }
  else
    some { st with staff := st.staff ++ [{ p with UpdatedAt := now }] }

/-- `UpdateStaffWithSoftwareMatch`; the errors of the revocation and of the sync
are only written to the process log. -/
def UpdateStaffWithSoftwareMatch (f : Faults) (now : Nat) (st : Store) (id : Nat)
    (body : Option Staff) : Store × Nat :=
  match firstStaff f st id with
  | none => (st, 404)
  | some existing =>
    match body with
    | none => (st, 400)
    | some input =>
      if !f (.firstStaffByEmailExcept input.Email id) &&
          st.staff.any (fun r => r.Email == input.Email && r.ID != id) then (st, 400)
      else
        let oldDeptID := existing.DepartmentID
        let oldTeamID := existing.TeamID
        let deptChanged := input.DepartmentID != oldDeptID
        let teamChanged := input.TeamID != oldTeamID
        let statusChanged := input.Status != existing.Status
        let updated : Staff :=
          { existing with
            FirstName := input.FirstName, LastName := input.LastName, Email := input.Email,
            DepartmentID := input.DepartmentID, TeamID := input.TeamID,
            Status := input.Status }
        match saveStaff f now st updated with
        | none => (st, 500)
        | some st1 =>
          let st2 :=
            if statusChanged && input.Status == "inactive" then
              (RevokeSoftwareAssignmentsForStaff f now st1 updated.ID).1
            else st1
          let st3 :=
            if deptChanged || teamChanged then
              (SyncSoftwareAssignmentsForStaff f now st2 updated.ID oldDeptID oldTeamID
                input.DepartmentID input.TeamID).1
            else st2
          (st3, 200)

/-- `config.DB.First(&assignment, id)` on `assigned_software`. -/
def firstAssignedByID (f : Faults) (st : Store) (id : Nat) : Option AssignedSoftware :=
  if f (.firstAssignedByID id) then none else st.assigned.find? fun r => r.ID == id

/-- `DeleteAssignedSoftwareWithLogging`. -/
def DeleteAssignedSoftwareWithLogging (f : Faults) (now : Nat) (st : Store) (id : Nat) :
    Store × Nat :=
  match firstAssignedByID f st id with
  | none => (st, 404)
  | some assignment =>
    if deleteAssignedByIDErr f assignment then (st, 500)
    else
      (createLog f now (deleteAssignedByID f st assignment)
        assignment.StaffID assignment.SoftwareID "Unassigned" 0 now 0,
       200)

/-- `config.DB.First(&assignment, id)` on `software_assignments`. -/
def firstSoftwareAssignment (f : Faults) (st : Store) (id : Nat) :
    Option SoftwareAssignment :=
  if f (.firstSoftwareAssignment id) then none
  else st.softwareAssignments.find? fun r => r.ID == id

/-- `DeleteSoftwareAssignment`: every edge of the rule's software is logged and
deleted, the errors of both being dropped, then the rule is deleted. -/
def DeleteSoftwareAssignment (f : Faults) (now : Nat) (st : Store) (id : Nat) :
    Store × Nat :=
  match firstSoftwareAssignment f st id with
  | none => (st, 404)
  | some assignment =>
    if f (.findAssignedBySoftware assignment.SoftwareID) then (st, 500)
    else
      let st1 :=
        (st.assigned.filter fun e => e.SoftwareID == assignment.SoftwareID).foldl
          (fun s a =>
            deleteAssignedByID f
              (createLog f now s a.StaffID a.SoftwareID "Unassigned (Rule Deleted)" 0 now 0)
              a)
          st
      if f (.deleteSoftwareAssignment assignment.ID) || assignment.ID == 0 then (st1, 500)
      else
        ({ st1 with
           softwareAssignments :=
             st1.softwareAssignments.filter fun r => !(r.ID == assignment.ID) },
         200)

/-- Staff member 1 is active in department 3 and team 5 and holds software 7 by
the organization rule. -/
def deactivationStore : Store :=
  { assigned := [{ ID := 1, StaffID := 1, SoftwareID := 7, Source := "organization",
                   AssignedAt := 10, UpdatedAt := 10 }],
    orgMatches := [{ ID := 1, SoftwareID := 7 }],
    staff := [{ ID := 1, Email := "john.doe@shuttlers.co", DepartmentID := 3, TeamID := 5,
                Status := "active" }] }

/-- The body that deactivates staff member 1 and moves them to department 4. -/
def deactivateAndMove : Staff :=
  { ID := 0, Email := "john.doe@shuttlers.co", DepartmentID := 4, TeamID := 5,
    Status := "inactive" }

/-- A scoped rule for software 7, which staff member 1 holds by a manual
grant. -/
def scopedRuleStore : Store :=
  { assigned := [{ ID := 1, StaffID := 1, SoftwareID := 7, Source := "manual",
                   AssignedAt := 10, UpdatedAt := 10 }],
    softwareAssignments := [{ ID := 1, SoftwareID := 7, ScopeType := "Team", ScopeID := 5 }] }

/-- The log of `st2` is the log of `st1` followed by rows written by the system
(`ChangedBy` 0) whose action is `Assigned` or `Unassigned`. -/
def SystemRowsLabelled (st1 st2 : Store) : Prop :=
  ∃ newLogs : List SoftwareAssignmentLog, st2.logs = st1.logs ++ newLogs ∧
    ∀ l ∈ newLogs, l.ChangedBy = 0 ∧ (l.Action = "Assigned" ∨ l.Action = "Unassigned")

/-- `DeleteStaff`: the software is revoked before the record is deleted; the
error of the revocation is only written to the process log. -/
def DeleteStaff (f : Faults) (now : Nat) (st : Store) (id : Nat) : Store × Nat :=
  match firstStaff f st id with
  | none => (st, 404)
  | some staff =>
    let st1 := (RevokeSoftwareAssignmentsForStaff f now st staff.ID).1
    if f (.deleteStaff staff.ID) || staff.ID == 0 then (st1, 500)
    else ({ st1 with staff := st1.staff.filter fun r => !(r.ID == staff.ID) }, 200)

/-- `config.DB.Create(&assignment)` on `software_assignments`: `none` when the
insert fails, which it does when the store fails and when the body carries a
key that is taken. -/
def createSoftwareAssignmentRow (f : Faults) (now : Nat) (st : Store)
    (assignment : SoftwareAssignment) : Option Store :=
  if f (.createSoftwareAssignment assignment.SoftwareID) then none
  else if assignment.ID != 0 && st.softwareAssignments.any fun r => r.ID == assignment.ID then
    none
  else
    some { st with
      softwareAssignments := st.softwareAssignments ++
        [{ assignment with
           ID := if assignment.ID = 0 then nextID (st.softwareAssignments.map (·.ID))
                 else assignment.ID,
           CreatedAt := if assignment.CreatedAt = 0 then now else assignment.CreatedAt,
           UpdatedAt := if assignment.UpdatedAt = 0 then now else assignment.UpdatedAt }] }

/-- `CreateSoftwareAssignment`: the body is bound and inserted; the answer is
201 with the created record. -/
def CreateSoftwareAssignment (f : Faults) (now : Nat) (st : Store)
    (body : Option SoftwareAssignment) : Store × Nat :=
  match body with
  | none => (st, 400)
  | some assignment =>
    match createSoftwareAssignmentRow f now st assignment with
    | none => (st, 500)
    | some st1 => (st1, 201)

/-- A store in which only the lookup of the edge of staff member 1 for
software 7 fails. -/
def lookupFails : Faults := fun op => op == DBOp.firstAssigned 1 7

/-- A store in which every insert of an edge fails and every other call
succeeds. -/
def createsFail : Faults := fun op =>
  match op with
  | .createAssigned _ _ _ => true
  | _ => false

/-- Software 7 has a record and a rule for department 3. -/
def orphanRuleStore : Store :=
  { software := [{ ID := 7, Name := "ClickUp" }],
    deptMatches := [{ ID := 1, SoftwareID := 7, DepartmentID := 3 }] }

/-- The store `st2` is `st1` with edges of the staff member appended to
`assigned_software` and rows appended to the log; every other table is the
same. -/
def OnlyAdds (staffID : Nat) (st1 st2 : Store) : Prop :=
  ∃ (created : List AssignedSoftware) (newLogs : List SoftwareAssignmentLog),
    st2.assigned = st1.assigned ++ created ∧
    (∀ e ∈ created, e.StaffID = staffID) ∧
    st2.logs = st1.logs ++ newLogs ∧
    st2.deptMatches = st1.deptMatches ∧ st2.teamMatches = st1.teamMatches ∧
    st2.orgMatches = st1.orgMatches ∧ st2.staff = st1.staff ∧
    st2.software = st1.software ∧ st2.softwareAssignments = st1.softwareAssignments

/-- The body the test `TestSoftwareAssignment` posts: `software_id` 1; its
`staff_id` and `note` are not fields of `models.SoftwareAssignment` and are
dropped by the binding. -/
def testAssignmentPayload : SoftwareAssignment := { ID := 0, SoftwareID := 1 }

/-- The store `offboardStore` with the record of staff member 1. -/
def deleteStaffStore : Store :=
  { offboardStore with
    staff := [{ ID := 1, Email := "john.doe@shuttlers.co", DepartmentID := 3, TeamID := 5,
                Status := "active" }] }

/-- The body of the loop of `DeleteSoftwareAssignment`: the log row is written,
then the edge is deleted by its key; both errors are dropped. -/
def ruleDeletedStep (f : Faults) (now : Nat) (s : Store) (a : AssignedSoftware) : Store :=
  deleteAssignedByID f
    (createLog f now s a.StaffID a.SoftwareID "Unassigned (Rule Deleted)" 0 now 0) a

/-- A department rule and a team rule whose unit id is zero. -/
def zeroUnitStore : Store :=
  { deptMatches := [{ ID := 1, SoftwareID := 7, DepartmentID := 0 }],
    teamMatches := [{ ID := 1, SoftwareID := 8, TeamID := 0 }],
    orgMatches := [{ ID := 1, SoftwareID := 9 }] }

/-- The store with its `staff` table replaced. -/
def withStaff (st : Store) (tbl : List Staff) : Store := { st with staff := tbl }

/-- Staff member 1 of department 3 and team 5; department 3 has a rule for
software 7 and department 4 a rule for software 8. -/
def unitChangeStore : Store :=
  { assigned := [{ ID := 1, StaffID := 1, SoftwareID := 7, Source := "department",
                   AssignedAt := 10, UpdatedAt := 10 }],
    deptMatches := [{ ID := 1, SoftwareID := 7, DepartmentID := 3 },
                    { ID := 2, SoftwareID := 8, DepartmentID := 4 }],
    staff := [{ ID := 1, Email := "john.doe@shuttlers.co", DepartmentID := 3, TeamID := 5,
                Status := "active" }] }

/-- The body that moves staff member 1 of `unitChangeStore` to department 4. -/
def moveToDepartment4 : Staff :=
  { ID := 0, Email := "john.doe@shuttlers.co", DepartmentID := 4, TeamID := 5,
    Status := "active" }

/-! ## Basic facts -/

theorem Appends.refl (st : Store) : Appends st st [] [] := by
  simp [Appends]

theorem Appends.trans {st1 st2 st3 : Store} {c1 c2 : List AssignedSoftware}
    {l1 l2 : List SoftwareAssignmentLog}
    (h1 : Appends st1 st2 c1 l1) (h2 : Appends st2 st3 c2 l2) :
    Appends st1 st3 (c1 ++ c2) (l1 ++ l2) := by
  obtain ⟨a1, b1, d1, t1, o1⟩ := h1
  obtain ⟨a2, b2, d2, t2, o2⟩ := h2
  refine ⟨?_, ?_, ?_, ?_, ?_⟩
  · rw [a2, a1, List.append_assoc]
  · rw [b2, b1, List.append_assoc]
  · rw [d2, d1]
  · rw [t2, t1]
  · rw [o2, o1]

theorem sourceOrDefault_of_ne {source : String} (h : source ≠ "") :
    sourceOrDefault source = source := by
  simp [sourceOrDefault, h]

theorem sourceOrDefault_department : sourceOrDefault SourceDepartment = SourceDepartment := by
  decide

theorem sourceOrDefault_team : sourceOrDefault SourceTeam = SourceTeam := by
  decide

theorem sourceOrDefault_organization :
    sourceOrDefault SourceOrganization = SourceOrganization := by
  decide

theorem assignIfNotExists_of_mem (f : Faults) (now staffID : Nat) (existing : List Nat)
    (st : Store) (softwareID : Nat) (source : String) (h : softwareID ∈ existing) :
    assignIfNotExists f now staffID existing st softwareID source = st := by
  simp [assignIfNotExists, h]

/-- One step of the closure when the software is not in the map and the store
does not fail: one edge and one log row are appended. -/
theorem assignIfNotExists_appends (now staffID : Nat) (existing : List Nat)
    (st : Store) (softwareID : Nat) (source : String) (h : softwareID ∉ existing) :
    ∃ e l, Appends st (assignIfNotExists noFaults now staffID existing st softwareID source)
        [e] [l] ∧
      edgeKey e = (staffID, softwareID, sourceOrDefault source) ∧
      logKey l = (staffID, softwareID, "Assigned") := by
  refine ⟨{ ID := nextID (st.assigned.map (·.ID)), StaffID := staffID,
             SoftwareID := softwareID, Source := sourceOrDefault source,
             AssignedAt := now, UpdatedAt := now },
          { ID := nextID (st.logs.map (·.ID)), StaffID := staffID,
            SoftwareID := softwareID, Action := "Assigned", ChangedBy := 0,
            ChangedAt := now, UpdatedAt := now }, ?_, rfl, rfl⟩
  simp [assignIfNotExists, h, logAssignmentChange, createAssignedSoftware, noFaults, Appends]

/-- A loop of the closure over a list of software ids, the store not failing:
one edge and one log row per id that is not in the map, in order. -/
theorem assignLoop_appends (now staffID : Nat) (existing : List Nat) (source : String)
    (cs : List Nat) (st : Store) :
    ∃ created newLogs,
      Appends st
        (cs.foldl (fun s c => assignIfNotExists noFaults now staffID existing s c source) st)
        created newLogs ∧
      created.map edgeKey =
        (cs.filter fun c => decide (c ∉ existing)).map
          (fun c => (staffID, c, sourceOrDefault source)) ∧
      newLogs.map logKey =
        (cs.filter fun c => decide (c ∉ existing)).map
          (fun c => (staffID, c, "Assigned")) := by
  induction cs generalizing st with
  | nil => exact ⟨[], [], Appends.refl st, rfl, rfl⟩
  | cons c cs ih =>
    simp only [List.foldl_cons]
    by_cases h : c ∈ existing
    · rw [assignIfNotExists_of_mem _ _ _ _ _ _ _ h]
      obtain ⟨created, newLogs, ha, hc, hl⟩ := ih st
      refine ⟨created, newLogs, ha, ?_, ?_⟩
      · simpa [List.filter_cons, h] using hc
      · simpa [List.filter_cons, h] using hl
    · obtain ⟨e, l, ha0, he, hl0⟩ :=
        assignIfNotExists_appends now staffID existing st c source h
      obtain ⟨created, newLogs, ha, hc, hl⟩ :=
        ih (assignIfNotExists noFaults now staffID existing st c source)
      refine ⟨[e] ++ created, [l] ++ newLogs, ha0.trans ha, ?_, ?_⟩
      · simp [List.filter_cons, h, he, hc]
      · simp [List.filter_cons, h, hl0, hl]

/-- A loop of the closure over ids that are all in the map changes nothing. -/
theorem assignLoop_of_all_mem (f : Faults) (now staffID : Nat) (existing : List Nat)
    (source : String) (cs : List Nat) (st : Store) (h : ∀ c ∈ cs, c ∈ existing) :
    cs.foldl (fun s c => assignIfNotExists f now staffID existing s c source) st = st := by
  induction cs generalizing st with
  | nil => rfl
  | cons c cs ih =>
    simp only [List.foldl_cons]
    rw [assignIfNotExists_of_mem _ _ _ _ _ _ _ (h c (List.mem_cons_self _ _))]
    exact ih st fun x hx => h x (List.mem_cons_of_mem _ hx)

/-- `AutoAssignSoftwareToStaff` with a store that does not fail is the three
loops one after the other, and it returns `nil`. -/
theorem autoAssign_noFaults (now : Nat) (st : Store) (staffID departmentID teamID : Nat) :
    AutoAssignSoftwareToStaff noFaults now st staffID departmentID teamID =
      (let existing := heldBy st staffID
       let st1 := ((st.deptMatches.filter fun m => m.DepartmentID == departmentID).map
          (·.SoftwareID)).foldl
          (fun s c => assignIfNotExists noFaults now staffID existing s c SourceDepartment) st
       let st2 := ((st1.teamMatches.filter fun m => m.TeamID == teamID).map
          (·.SoftwareID)).foldl
          (fun s c => assignIfNotExists noFaults now staffID existing s c SourceTeam) st1
       let st3 := (st2.orgMatches.map (·.SoftwareID)).foldl
          (fun s c => assignIfNotExists noFaults now staffID existing s c SourceOrganization) st2
       (st3, none)) := by
  simp [AutoAssignSoftwareToStaff, noFaults, heldBy, List.foldl_map]

/-- The effect of `AutoAssignSoftwareToStaff` when the store does not fail: it
returns `nil`, and it appends one edge and one `Assigned` log row for each
candidate whose software the staff member did not hold before the call. -/
theorem autoAssign_appends (now : Nat) (st : Store) (staffID departmentID teamID : Nat) :
    (AutoAssignSoftwareToStaff noFaults now st staffID departmentID teamID).2 = none ∧
    ∃ created newLogs,
      Appends st (AutoAssignSoftwareToStaff noFaults now st staffID departmentID teamID).1
        created newLogs ∧
      created.map edgeKey =
        ((candidateList st departmentID teamID).filter
          fun c => decide (c.1 ∉ heldBy st staffID)).map (fun c => (staffID, c.1, c.2)) ∧
      newLogs.map logKey =
        ((candidateList st departmentID teamID).filter
          fun c => decide (c.1 ∉ heldBy st staffID)).map
            (fun c => (staffID, c.1, "Assigned")) := by
  rw [autoAssign_noFaults]
  refine ⟨rfl, ?_⟩
  dsimp only
  obtain ⟨c1, l1, ha1, hc1, hl1⟩ := assignLoop_appends now staffID (heldBy st staffID)
    SourceDepartment
    ((st.deptMatches.filter fun m => m.DepartmentID == departmentID).map (·.SoftwareID)) st
  generalize ((st.deptMatches.filter fun m => m.DepartmentID == departmentID).map
    (·.SoftwareID)).foldl
    (fun s c => assignIfNotExists noFaults now staffID (heldBy st staffID) s c SourceDepartment)
    st = st1 at ha1 ⊢
  obtain ⟨c2, l2, ha2, hc2, hl2⟩ := assignLoop_appends now staffID (heldBy st staffID)
    SourceTeam
    ((st1.teamMatches.filter fun m => m.TeamID == teamID).map (·.SoftwareID)) st1
  generalize ((st1.teamMatches.filter fun m => m.TeamID == teamID).map
    (·.SoftwareID)).foldl
    (fun s c => assignIfNotExists noFaults now staffID (heldBy st staffID) s c SourceTeam)
    st1 = st2 at ha2 ⊢
  obtain ⟨c3, l3, ha3, hc3, hl3⟩ := assignLoop_appends now staffID (heldBy st staffID)
    SourceOrganization (st2.orgMatches.map (·.SoftwareID)) st2
  refine ⟨c1 ++ c2 ++ c3, l1 ++ l2 ++ l3, (ha1.trans ha2).trans ha3, ?_, ?_⟩
  · rw [List.map_append, List.map_append, hc1, hc2, hc3, ha1.2.2.2.1, ha2.2.2.2.2,
      ha1.2.2.2.2, sourceOrDefault_department, sourceOrDefault_team,
      sourceOrDefault_organization]
    simp [candidateList, List.filter_map, Function.comp_def]
  · rw [List.map_append, List.map_append, hl1, hl2, hl3, ha1.2.2.2.1, ha2.2.2.2.2,
      ha1.2.2.2.2]
    simp [candidateList, List.filter_map, Function.comp_def]

theorem mem_heldBy {st : Store} {staffID softwareID : Nat} :
    softwareID ∈ heldBy st staffID ↔
      ∃ e ∈ st.assigned, e.StaffID = staffID ∧ e.SoftwareID = softwareID := by
  simp [heldBy, and_assoc]

theorem mem_candidateList {st : Store} {departmentID teamID : Nat} {c : Nat × String} :
    c ∈ candidateList st departmentID teamID ↔
      (∃ m ∈ st.deptMatches, m.DepartmentID = departmentID ∧
          c = (m.SoftwareID, SourceDepartment)) ∨
      (∃ m ∈ st.teamMatches, m.TeamID = teamID ∧ c = (m.SoftwareID, SourceTeam)) ∨
      (∃ m ∈ st.orgMatches, c = (m.SoftwareID, SourceOrganization)) := by
  simp only [candidateList, List.mem_append, List.mem_map, List.mem_filter, beq_iff_eq,
    or_assoc]
  constructor
  · rintro (⟨m, ⟨hm, hd⟩, rfl⟩ | ⟨m, ⟨hm, hd⟩, rfl⟩ | ⟨m, hm, rfl⟩)
    · exact Or.inl ⟨m, hm, hd, rfl⟩
    · exact Or.inr (Or.inl ⟨m, hm, hd, rfl⟩)
    · exact Or.inr (Or.inr ⟨m, hm, rfl⟩)
  · rintro (⟨m, hm, hd, rfl⟩ | ⟨m, hm, hd, rfl⟩ | ⟨m, hm, rfl⟩)
    · exact Or.inl ⟨m, ⟨hm, hd⟩, rfl⟩
    · exact Or.inr (Or.inl ⟨m, ⟨hm, hd⟩, rfl⟩)
    · exact Or.inr (Or.inr ⟨m, hm, rfl⟩)

/-- Appending rows keeps what was held. -/
theorem heldBy_mono {st1 st2 : Store} {created : List AssignedSoftware}
    {newLogs : List SoftwareAssignmentLog} (h : Appends st1 st2 created newLogs)
    {staffID softwareID : Nat} (hx : softwareID ∈ heldBy st1 staffID) :
    softwareID ∈ heldBy st2 staffID := by
  rw [mem_heldBy] at hx ⊢
  obtain ⟨e, he, h1, h2⟩ := hx
  exact ⟨e, by rw [h.1]; exact List.mem_append_left _ he, h1, h2⟩

/-- After `AutoAssignSoftwareToStaff` with a store that does not fail, the
staff member holds the software of every candidate. -/
theorem autoAssign_holds_candidates (now : Nat) (st : Store)
    (staffID departmentID teamID : Nat) (c : Nat × String)
    (hc : c ∈ candidateList st departmentID teamID) :
    c.1 ∈ heldBy (AutoAssignSoftwareToStaff noFaults now st staffID departmentID teamID).1
      staffID := by
  obtain ⟨-, created, newLogs, ha, hk, -⟩ :=
    autoAssign_appends now st staffID departmentID teamID
  by_cases hx : c.1 ∈ heldBy st staffID
  · exact heldBy_mono ha hx
  · have hmem : (staffID, c.1, c.2) ∈ created.map edgeKey := by
      rw [hk]
      exact List.mem_map.2 ⟨c, List.mem_filter.2 ⟨hc, by simpa using hx⟩, rfl⟩
    obtain ⟨e, he, hek⟩ := List.mem_map.1 hmem
    simp only [edgeKey, Prod.mk.injEq] at hek
    rw [mem_heldBy]
    exact ⟨e, by rw [ha.1]; exact List.mem_append_right _ he, hek.1, hek.2.1⟩

/-! ## C1: idempotence of `AutoAssignSoftwareToStaff` -/

/-- C1: when every store operation succeeds, a second run of
`AutoAssignSoftwareToStaff` with the same arguments right after a first one
returns `nil` and leaves the store as the first run left it: no edge is created
and no log row is appended, so the `assigned_software` and log tables after the
second run equal those after the first. -/
theorem C1_autoAssign_idempotent (now1 now2 : Nat) (st : Store)
    (staffID departmentID teamID : Nat) :
    AutoAssignSoftwareToStaff noFaults now2
        (AutoAssignSoftwareToStaff noFaults now1 st staffID departmentID teamID).1
        staffID departmentID teamID =
      ((AutoAssignSoftwareToStaff noFaults now1 st staffID departmentID teamID).1, none) ∧
    (AutoAssignSoftwareToStaff noFaults now2
        (AutoAssignSoftwareToStaff noFaults now1 st staffID departmentID teamID).1
        staffID departmentID teamID).1.assigned =
      (AutoAssignSoftwareToStaff noFaults now1 st staffID departmentID teamID).1.assigned ∧
    (AutoAssignSoftwareToStaff noFaults now2
        (AutoAssignSoftwareToStaff noFaults now1 st staffID departmentID teamID).1
        staffID departmentID teamID).1.logs =
      (AutoAssignSoftwareToStaff noFaults now1 st staffID departmentID teamID).1.logs := by
  have hheld := autoAssign_holds_candidates now1 st staffID departmentID teamID
  obtain ⟨-, created, newLogs, ha, -, -⟩ :=
    autoAssign_appends now1 st staffID departmentID teamID
  generalize (AutoAssignSoftwareToStaff noFaults now1 st staffID departmentID teamID).1 = st1
    at hheld ha
  have key : AutoAssignSoftwareToStaff noFaults now2 st1 staffID departmentID teamID =
      (st1, none) := by
    rw [autoAssign_noFaults]
    dsimp only
    have h1 : ((st1.deptMatches.filter fun m => m.DepartmentID == departmentID).map
        (·.SoftwareID)).foldl (fun s c => assignIfNotExists noFaults now2 staffID
          (heldBy st1 staffID) s c SourceDepartment) st1 = st1 := by
      apply assignLoop_of_all_mem
      intro c hc
      obtain ⟨m, hm, rfl⟩ := List.mem_map.1 hc
      rw [ha.2.2.1, List.mem_filter, beq_iff_eq] at hm
      exact hheld (m.SoftwareID, SourceDepartment)
        (mem_candidateList.2 (Or.inl ⟨m, hm.1, hm.2, rfl⟩))
    rw [h1]
    have h2 : ((st1.teamMatches.filter fun m => m.TeamID == teamID).map
        (·.SoftwareID)).foldl (fun s c => assignIfNotExists noFaults now2 staffID
          (heldBy st1 staffID) s c SourceTeam) st1 = st1 := by
      apply assignLoop_of_all_mem
      intro c hc
      obtain ⟨m, hm, rfl⟩ := List.mem_map.1 hc
      rw [ha.2.2.2.1, List.mem_filter, beq_iff_eq] at hm
      exact hheld (m.SoftwareID, SourceTeam)
        (mem_candidateList.2 (Or.inr (Or.inl ⟨m, hm.1, hm.2, rfl⟩)))
    rw [h2]
    have h3 : (st1.orgMatches.map (·.SoftwareID)).foldl
        (fun s c => assignIfNotExists noFaults now2 staffID
          (heldBy st1 staffID) s c SourceOrganization) st1 = st1 := by
      apply assignLoop_of_all_mem
      intro c hc
      obtain ⟨m, hm, rfl⟩ := List.mem_map.1 hc
      rw [ha.2.2.2.2] at hm
      exact hheld (m.SoftwareID, SourceOrganization)
        (mem_candidateList.2 (Or.inr (Or.inr ⟨m, hm, rfl⟩)))
    rw [h3]
  rw [key]
  exact ⟨rfl, rfl, rfl⟩

/-! ## C2, C3: a software matched by two rules -/

/-- C2: staff member 1 holds nothing, department 3 and team 4 both have a rule
for software 7. `AutoAssignSoftwareToStaff 1 3 4` returns `nil` and leaves two
edges for (1, 7), tagged `department` and `team`, and two `Assigned` log rows:
the team rule is not skipped, because the closure tests the map built before
the loops and never records what it has just assigned. -/
theorem C2_autoAssign_overlap_creates_two_edges :
    (AutoAssignSoftwareToStaff noFaults 100 overlapStore 1 3 4).2 = none ∧
    (AutoAssignSoftwareToStaff noFaults 100 overlapStore 1 3 4).1.assigned.map edgeKey =
      [(1, 7, "department"), (1, 7, "team")] ∧
    (AutoAssignSoftwareToStaff noFaults 100 overlapStore 1 3 4).1.logs.map logKey =
      [(1, 7, "Assigned"), (1, 7, "Assigned")] := by
  decide

/-- C3: the table of `overlapOrgStore` has one edge per (staff, software) pair;
after `AutoAssignSoftwareToStaff 2 6 0`, and also after
`SyncSoftwareAssignmentsForStaff 2 1 0 6 0`, it has two edges for the pair
(2, 9), so neither operation keeps the invariant. -/
theorem C3_autoAssign_breaks_one_edge_per_pair :
    OneEdgePerPair overlapOrgStore ∧
    ¬ OneEdgePerPair (AutoAssignSoftwareToStaff noFaults 100 overlapOrgStore 2 6 0).1 ∧
    ¬ OneEdgePerPair
        (SyncSoftwareAssignmentsForStaff noFaults 100 overlapOrgStore 2 1 0 6 0).1 := by
  refine ⟨?_, ?_, ?_⟩
  · intro staffID softwareID
    simp only [overlapOrgStore, List.countP_cons, List.countP_nil]
    split <;> simp
  · intro h
    exact absurd (h 2 9) (by decide)
  · intro h
    exact absurd (h 2 9) (by decide)

/-! ## C4: what `AutoAssignSoftwareToStaff` creates -/

/-- C4: with `S = heldBy st staffID` the software ids the staff member holds
before the call and every store operation succeeding,
`AutoAssignSoftwareToStaff` returns `nil`, keeps the rows that were there and
appends exactly one edge `(staffID, softwareID, source)` for each candidate of
the department rules of `departmentID`, then the team rules of `teamID`, then
the organization rules, whose software id is not in `S`, in that order and
nothing else; afterwards the staff member holds the software of every one of
those rules. -/
theorem C4_autoAssign_creates_exactly_unheld_candidates (now : Nat) (st : Store)
    (staffID departmentID teamID : Nat) :
    (AutoAssignSoftwareToStaff noFaults now st staffID departmentID teamID).2 = none ∧
    (∃ created,
      (AutoAssignSoftwareToStaff noFaults now st staffID departmentID teamID).1.assigned =
        st.assigned ++ created ∧
      created.map edgeKey =
        ((candidateList st departmentID teamID).filter
          fun c => decide (c.1 ∉ heldBy st staffID)).map (fun c => (staffID, c.1, c.2))) ∧
    (∀ c ∈ candidateList st departmentID teamID,
      c.1 ∈ heldBy (AutoAssignSoftwareToStaff noFaults now st staffID departmentID teamID).1
        staffID) := by
  obtain ⟨herr, created, newLogs, ha, hk, -⟩ :=
    autoAssign_appends now st staffID departmentID teamID
  exact ⟨herr, ⟨created, ha.1, hk⟩,
    autoAssign_holds_candidates now st staffID departmentID teamID⟩

/-! ## Facts that hold whatever store call fails -/

/-- A property kept by every step of a loop is kept by the loop. -/
theorem foldl_keeps {α : Type} (P : Store → Prop) (g : Store → α → Store)
    (hg : ∀ s x, P s → P (g s x)) (xs : List α) (st : Store) (h : P st) :
    P (xs.foldl g st) := by
  induction xs generalizing st with
  | nil => exact h
  | cons x xs ih => exact ih (g st x) (hg st x h)

theorem logAssignmentChange_assigned (f : Faults) (now : Nat) (st : Store)
    (staffID softwareID : Nat) (action : String) :
    (logAssignmentChange f now st staffID softwareID action).assigned = st.assigned := by
  unfold logAssignmentChange
  split <;> rfl

theorem logAssignmentChange_rules (f : Faults) (now : Nat) (st : Store)
    (staffID softwareID : Nat) (action : String) :
    (logAssignmentChange f now st staffID softwareID action).deptMatches = st.deptMatches ∧
    (logAssignmentChange f now st staffID softwareID action).teamMatches = st.teamMatches ∧
    (logAssignmentChange f now st staffID softwareID action).orgMatches = st.orgMatches := by
  unfold logAssignmentChange
  split <;> exact ⟨rfl, rfl, rfl⟩

theorem createAssignedSoftware_mem (f : Faults) (now : Nat) (st : Store)
    (staffID softwareID : Nat) (source : String) (e : AssignedSoftware)
    (he : e ∈ st.assigned) :
    e ∈ (createAssignedSoftware f now st staffID softwareID source).assigned := by
  unfold createAssignedSoftware
  split
  · exact he
  · exact List.mem_append_left _ he

theorem assignIfNotExists_mem (f : Faults) (now staffID : Nat) (existing : List Nat)
    (st : Store) (softwareID : Nat) (source : String) (e : AssignedSoftware)
    (he : e ∈ st.assigned) :
    e ∈ (assignIfNotExists f now staffID existing st softwareID source).assigned := by
  unfold assignIfNotExists
  split
  · exact he
  · rw [logAssignmentChange_assigned]
    exact createAssignedSoftware_mem f now st staffID softwareID source e he

/-- `AutoAssignSoftwareToStaff` deletes nothing, whatever store call fails. -/
theorem autoAssign_mem (f : Faults) (now : Nat) (st : Store)
    (staffID departmentID teamID : Nat) (e : AssignedSoftware) (he : e ∈ st.assigned) :
    e ∈ (AutoAssignSoftwareToStaff f now st staffID departmentID teamID).1.assigned := by
  have step : ∀ (source : String) (β : Type) (sel : β → Nat) (xs : List β) (s : Store),
      e ∈ s.assigned →
      e ∈ (xs.foldl (fun s m => assignIfNotExists f now staffID
            ((st.assigned.filter fun e => e.StaffID == staffID).map (·.SoftwareID))
            s (sel m) source) s).assigned := by
    intro source β sel xs s hs
    exact foldl_keeps (fun s => e ∈ s.assigned) _
      (fun s m h => assignIfNotExists_mem f now staffID _ s (sel m) source e h) xs s hs
  unfold AutoAssignSoftwareToStaff
  split
  · exact he
  · dsimp only
    split
    · exact he
    · split
      · exact step _ _ _ _ _ he
      · split
        · exact step _ _ _ _ _ (step _ _ _ _ _ he)
        · exact step _ _ _ _ _ (step _ _ _ _ _ (step _ _ _ _ _ he))

theorem deleteAssignedWhere_rules (f : Faults) (st : Store) (staffID softwareID : Nat)
    (source : String) :
    (deleteAssignedWhere f st staffID softwareID source).1.deptMatches = st.deptMatches ∧
    (deleteAssignedWhere f st staffID softwareID source).1.teamMatches = st.teamMatches ∧
    (deleteAssignedWhere f st staffID softwareID source).1.orgMatches = st.orgMatches := by
  unfold deleteAssignedWhere
  split <;> exact ⟨rfl, rfl, rfl⟩

/-- A delete by filter removes only rows that match the filter. -/
theorem deleteAssignedWhere_mem (f : Faults) (st : Store) (staffID softwareID : Nat)
    (source : String) (e : AssignedSoftware) (he : e ∈ st.assigned) :
    e ∈ (deleteAssignedWhere f st staffID softwareID source).1.assigned ∨
      (e.StaffID = staffID ∧ e.SoftwareID = softwareID ∧ e.Source = source) := by
  unfold deleteAssignedWhere
  split
  · exact Or.inl he
  · by_cases h : e.StaffID = staffID ∧ e.SoftwareID = softwareID ∧ e.Source = source
    · exact Or.inr h
    · refine Or.inl (List.mem_filter.2 ⟨he, ?_⟩)
      simp only [Bool.not_eq_true', Bool.and_eq_false_iff, beq_eq_false_iff_ne, ne_eq]
      tauto

/-- A delete by filter creates no row. -/
theorem deleteAssignedWhere_subset (f : Faults) (st : Store) (staffID softwareID : Nat)
    (source : String) (e : AssignedSoftware)
    (he : e ∈ (deleteAssignedWhere f st staffID softwareID source).1.assigned) :
    e ∈ st.assigned := by
  unfold deleteAssignedWhere at he
  split at he
  · exact he
  · exact (List.mem_filter.1 he).1

theorem revokeStep_assigned (f : Faults) (now : Nat) (source : String) (s : Store)
    (staffID softwareID : Nat) :
    (revokeStep f now source s staffID softwareID).assigned =
      (deleteAssignedWhere f s staffID softwareID source).1.assigned := by
  unfold revokeStep
  dsimp only
  split
  · rw [logAssignmentChange_assigned]
  · rfl

theorem revokeStep_rules (f : Faults) (now : Nat) (source : String) (s : Store)
    (staffID softwareID : Nat) :
    (revokeStep f now source s staffID softwareID).deptMatches = s.deptMatches ∧
    (revokeStep f now source s staffID softwareID).teamMatches = s.teamMatches ∧
    (revokeStep f now source s staffID softwareID).orgMatches = s.orgMatches := by
  unfold revokeStep
  dsimp only
  have hd := deleteAssignedWhere_rules f s staffID softwareID source
  split
  · have hl := logAssignmentChange_rules f now
      (deleteAssignedWhere f s staffID softwareID source).1 staffID softwareID "Unassigned"
    exact ⟨hl.1.trans hd.1, hl.2.1.trans hd.2.1, hl.2.2.trans hd.2.2⟩
  · exact hd

/-- A revoking loop over software ids removes only edges of the staff member
with the source tag and one of the ids, and leaves the rule tables alone. -/
theorem revokeLoop_mem (f : Faults) (now : Nat) (source : String) (staffID : Nat)
    (sids : List Nat) (st : Store) :
    (∀ e ∈ st.assigned,
      e ∈ (sids.foldl (fun s sid => revokeStep f now source s staffID sid) st).assigned ∨
        (e.StaffID = staffID ∧ e.Source = source ∧ e.SoftwareID ∈ sids)) ∧
    (sids.foldl (fun s sid => revokeStep f now source s staffID sid) st).deptMatches =
      st.deptMatches ∧
    (sids.foldl (fun s sid => revokeStep f now source s staffID sid) st).teamMatches =
      st.teamMatches ∧
    (sids.foldl (fun s sid => revokeStep f now source s staffID sid) st).orgMatches =
      st.orgMatches := by
  induction sids generalizing st with
  | nil => exact ⟨fun e he => Or.inl he, rfl, rfl, rfl⟩
  | cons sid sids ih =>
    simp only [List.foldl_cons]
    obtain ⟨hm, hd, ht, ho⟩ := ih (revokeStep f now source st staffID sid)
    have hr := revokeStep_rules f now source st staffID sid
    refine ⟨?_, hd.trans hr.1, ht.trans hr.2.1, ho.trans hr.2.2⟩
    intro e he
    rcases deleteAssignedWhere_mem f st staffID sid source e he with h | ⟨h1, h2, h3⟩
    · rw [← revokeStep_assigned f now] at h
      rcases hm e h with h' | ⟨h1, h2, h3⟩
      · exact Or.inl h'
      · exact Or.inr ⟨h1, h2, List.mem_cons_of_mem _ h3⟩
    · exact Or.inr ⟨h1, h3, by rw [h2]; exact List.mem_cons_self _ _⟩

theorem revokeSoftwareFromSource_eq (f : Faults) (now : Nat) (st : Store)
    (staffID id : Nat) (source : String) :
    revokeSoftwareFromSource f now st staffID id source =
      (if source = SourceDepartment then
          if f (.pluckDepartmentSoftwareIDs id) then []
          else (st.deptMatches.filter fun m => m.DepartmentID == id).map (·.SoftwareID)
        else if source = SourceTeam then
          if f (.pluckTeamSoftwareIDs id) then []
          else (st.teamMatches.filter fun m => m.TeamID == id).map (·.SoftwareID)
        else []).foldl (fun s sid => revokeStep f now source s staffID sid) st := rfl

/-- `revokeSoftwareFromSource` with the tag `department` removes only edges of
the staff member tagged `department` whose software a rule of the department
references; the rule tables are untouched. -/
theorem revokeDepartment_mem (f : Faults) (now : Nat) (st : Store) (staffID id : Nat) :
    (∀ e ∈ st.assigned,
      e ∈ (revokeSoftwareFromSource f now st staffID id SourceDepartment).assigned ∨
        (e.StaffID = staffID ∧ e.Source = SourceDepartment ∧
          ∃ m ∈ st.deptMatches, m.DepartmentID = id ∧ m.SoftwareID = e.SoftwareID)) ∧
    (revokeSoftwareFromSource f now st staffID id SourceDepartment).deptMatches =
      st.deptMatches ∧
    (revokeSoftwareFromSource f now st staffID id SourceDepartment).teamMatches =
      st.teamMatches ∧
    (revokeSoftwareFromSource f now st staffID id SourceDepartment).orgMatches =
      st.orgMatches := by
  rw [revokeSoftwareFromSource_eq, if_pos rfl]
  obtain ⟨hm, hrest⟩ := revokeLoop_mem f now SourceDepartment staffID
    (if f (.pluckDepartmentSoftwareIDs id) then []
      else (st.deptMatches.filter fun m => m.DepartmentID == id).map (·.SoftwareID)) st
  refine ⟨?_, hrest⟩
  intro e he
  rcases hm e he with h | ⟨h1, h2, h3⟩
  · exact Or.inl h
  · refine Or.inr ⟨h1, h2, ?_⟩
    split at h3
    · simp at h3
    · obtain ⟨m, hm', hms⟩ := List.mem_map.1 h3
      rw [List.mem_filter, beq_iff_eq] at hm'
      exact ⟨m, hm'.1, hm'.2, hms⟩

/-- `revokeSoftwareFromSource` with the tag `team` removes only edges of the
staff member tagged `team` whose software a rule of the team references; the
rule tables are untouched. -/
theorem revokeTeam_mem (f : Faults) (now : Nat) (st : Store) (staffID id : Nat) :
    (∀ e ∈ st.assigned,
      e ∈ (revokeSoftwareFromSource f now st staffID id SourceTeam).assigned ∨
        (e.StaffID = staffID ∧ e.Source = SourceTeam ∧
          ∃ m ∈ st.teamMatches, m.TeamID = id ∧ m.SoftwareID = e.SoftwareID)) ∧
    (revokeSoftwareFromSource f now st staffID id SourceTeam).deptMatches =
      st.deptMatches ∧
    (revokeSoftwareFromSource f now st staffID id SourceTeam).teamMatches =
      st.teamMatches ∧
    (revokeSoftwareFromSource f now st staffID id SourceTeam).orgMatches =
      st.orgMatches := by
  rw [revokeSoftwareFromSource_eq, if_neg (by decide), if_pos rfl]
  obtain ⟨hm, hrest⟩ := revokeLoop_mem f now SourceTeam staffID
    (if f (.pluckTeamSoftwareIDs id) then []
      else (st.teamMatches.filter fun m => m.TeamID == id).map (·.SoftwareID)) st
  refine ⟨?_, hrest⟩
  intro e he
  rcases hm e he with h | ⟨h1, h2, h3⟩
  · exact Or.inl h
  · refine Or.inr ⟨h1, h2, ?_⟩
    split at h3
    · simp at h3
    · obtain ⟨m, hm', hms⟩ := List.mem_map.1 h3
      rw [List.mem_filter, beq_iff_eq] at hm'
      exact ⟨m, hm'.1, hm'.2, hms⟩

/-- What `SyncSoftwareAssignmentsForStaff` may remove, whatever store call
fails: an edge of the table stays, or it is in the scope of the revoke step. -/
theorem sync_mem (f : Faults) (now : Nat) (st : Store)
    (staffID oldDeptID oldTeamID newDeptID newTeamID : Nat)
    (e : AssignedSoftware) (he : e ∈ st.assigned) :
    e ∈ (SyncSoftwareAssignmentsForStaff f now st staffID oldDeptID oldTeamID
          newDeptID newTeamID).1.assigned ∨
      (e.StaffID = staffID ∧
        ((e.Source = SourceDepartment ∧
            ∃ m ∈ st.deptMatches, m.DepartmentID = oldDeptID ∧ m.SoftwareID = e.SoftwareID) ∨
         (e.Source = SourceTeam ∧
            ∃ m ∈ st.teamMatches, m.TeamID = oldTeamID ∧ m.SoftwareID = e.SoftwareID))) := by
  unfold SyncSoftwareAssignmentsForStaff
  dsimp only
  obtain ⟨hm1, -, ht1, -⟩ := revokeDepartment_mem f now st staffID oldDeptID
  rcases hm1 e he with h1 | ⟨a, b, c⟩
  · obtain ⟨hm2, -, -, -⟩ := revokeTeam_mem f now
      (revokeSoftwareFromSource f now st staffID oldDeptID SourceDepartment) staffID oldTeamID
    rcases hm2 e h1 with h2 | ⟨a, b, c⟩
    · exact Or.inl (autoAssign_mem f now _ staffID newDeptID newTeamID e h2)
    · rw [ht1] at c
      exact Or.inr ⟨a, Or.inr ⟨b, c⟩⟩
  · exact Or.inr ⟨a, Or.inl ⟨b, c⟩⟩

/-! ## C5: the revocation of a sync is scoped to the old unit's source tag -/

/-- C5: for every store state, whatever store call fails, every edge that is in
the table before `SyncSoftwareAssignmentsForStaff s oldDept oldTeam newDept newTeam`
and not after it belongs to staff `s` and either is tagged `department` with a
software id referenced by a department rule of `oldDept`, or is tagged `team`
with a software id referenced by a team rule of `oldTeam`; in particular every
edge tagged `manual` or `organization` and every edge of another staff member
is still in the table, unchanged. -/
theorem C5_sync_revocation_scoped (f : Faults) (now : Nat) (st : Store)
    (staffID oldDeptID oldTeamID newDeptID newTeamID : Nat) :
    (∀ e ∈ st.assigned,
      e ∉ (SyncSoftwareAssignmentsForStaff f now st staffID oldDeptID oldTeamID
            newDeptID newTeamID).1.assigned →
      e.StaffID = staffID ∧
        ((e.Source = "department" ∧
            ∃ m ∈ st.deptMatches, m.DepartmentID = oldDeptID ∧ m.SoftwareID = e.SoftwareID) ∨
         (e.Source = "team" ∧
            ∃ m ∈ st.teamMatches, m.TeamID = oldTeamID ∧ m.SoftwareID = e.SoftwareID))) ∧
    (∀ e ∈ st.assigned,
      e.Source = "manual" ∨ e.Source = "organization" ∨ e.StaffID ≠ staffID →
      e ∈ (SyncSoftwareAssignmentsForStaff f now st staffID oldDeptID oldTeamID
            newDeptID newTeamID).1.assigned) := by
  constructor
  · intro e he hne
    rcases sync_mem f now st staffID oldDeptID oldTeamID newDeptID newTeamID e he with h | h
    · exact absurd h hne
    · exact h
  · intro e he hsrc
    rcases sync_mem f now st staffID oldDeptID oldTeamID newDeptID newTeamID e he with
      h | ⟨hs, hd | ht⟩
    · exact h
    · rcases hsrc with h | h | h
      · rw [h] at hd; exact absurd hd.1 (by decide)
      · rw [h] at hd; exact absurd hd.1 (by decide)
      · exact absurd hs h
    · rcases hsrc with h | h | h
      · rw [h] at ht; exact absurd ht.1 (by decide)
      · rw [h] at ht; exact absurd ht.1 (by decide)
      · exact absurd hs h

/-! ## The revoking loops when the store does not fail -/

theorem hasEdge_iff {tbl : List AssignedSoftware} {staffID softwareID : Nat}
    {source : String} :
    hasEdge tbl staffID softwareID source = true ↔
      ∃ e ∈ tbl, e.StaffID = staffID ∧ e.SoftwareID = softwareID ∧ e.Source = source := by
  simp [hasEdge, and_assoc]

theorem revokeStep_noFaults_assigned (now : Nat) (source : String) (st : Store)
    (staffID softwareID : Nat) :
    (revokeStep noFaults now source st staffID softwareID).assigned =
      st.assigned.filter fun e =>
        !(e.StaffID == staffID && e.SoftwareID == softwareID && e.Source == source) := by
  rw [revokeStep_assigned]
  simp [deleteAssignedWhere, noFaults]

/-- One step of a revoking loop appends one `Unassigned` row when the table
holds a matching edge, and none otherwise. -/
theorem revokeStep_noFaults_logs (now : Nat) (source : String) (st : Store)
    (staffID softwareID : Nat) :
    ∃ newLogs,
      (revokeStep noFaults now source st staffID softwareID).logs = st.logs ++ newLogs ∧
      (∀ l ∈ newLogs, logKey l = (staffID, softwareID, "Unassigned") ∧ l.ChangedBy = 0) ∧
      newLogs.length = if hasEdge st.assigned staffID softwareID source then 1 else 0 := by
  by_cases h : hasEdge st.assigned staffID softwareID source = true
  · have hpos : 0 < st.assigned.countP fun e =>
        e.StaffID == staffID && e.SoftwareID == softwareID && e.Source == source := by
      rw [List.countP_pos_iff]
      simpa [hasEdge] using h
    refine ⟨[{ ID := nextID (st.logs.map (·.ID)), StaffID := staffID,
               SoftwareID := softwareID, Action := "Unassigned", ChangedBy := 0,
               ChangedAt := now, UpdatedAt := now }], ?_, ?_, ?_⟩
    · simp only [revokeStep, deleteAssignedWhere, noFaults, Bool.false_eq_true, if_false]
      rw [if_pos hpos]
      simp [logAssignmentChange, noFaults]
    · intro l hl
      rw [List.mem_singleton] at hl
      subst hl
      exact ⟨rfl, rfl⟩
    · simp [h]
  · have hzero : ¬ 0 < st.assigned.countP fun e =>
        e.StaffID == staffID && e.SoftwareID == softwareID && e.Source == source := by
      rw [List.countP_pos_iff]
      simpa [hasEdge] using h
    refine ⟨[], ?_, ?_, ?_⟩
    · simp only [revokeStep, deleteAssignedWhere, noFaults, Bool.false_eq_true, if_false]
      rw [if_neg hzero]
      simp
    · intro l hl
      cases hl
    · simp [h]

theorem hasEdge_filter_self (tbl : List AssignedSoftware) (staffID softwareID : Nat)
    (source : String) :
    hasEdge (tbl.filter fun e =>
        !(e.StaffID == staffID && e.SoftwareID == softwareID && e.Source == source))
      staffID softwareID source = false := by
  rw [Bool.eq_false_iff]
  intro h
  obtain ⟨e, he, h1, h2, h3⟩ := hasEdge_iff.1 h
  have := (List.mem_filter.1 he).2
  simp [h1, h2, h3] at this

theorem hasEdge_filter_ne (tbl : List AssignedSoftware) (staffID softwareID : Nat)
    (source : String) (a b : Nat) (hne : ¬ (a = staffID ∧ b = softwareID)) :
    hasEdge (tbl.filter fun e =>
        !(e.StaffID == staffID && e.SoftwareID == softwareID && e.Source == source))
      a b source = hasEdge tbl a b source := by
  rw [Bool.eq_iff_iff, hasEdge_iff, hasEdge_iff]
  constructor
  · rintro ⟨e, he, h⟩
    exact ⟨e, (List.mem_filter.1 he).1, h⟩
  · rintro ⟨e, he, h1, h2, h3⟩
    refine ⟨e, List.mem_filter.2 ⟨he, ?_⟩, h1, h2, h3⟩
    simp only [Bool.not_eq_true', Bool.and_eq_false_iff, beq_eq_false_iff_ne, ne_eq]
    rw [h1, h2]
    tauto

/-- A revoking loop over (staff, software) pairs, the store not failing: it
deletes exactly the edges with the source tag and one of the pairs, and it
appends one `Unassigned` row for each pair of the list that had such an edge. -/
theorem revokePairs_noFaults (now : Nat) (source : String) (ps : List (Nat × Nat))
    (st : Store) :
    (ps.foldl (fun s p => revokeStep noFaults now source s p.1 p.2) st).assigned =
      (st.assigned.filter fun e =>
        decide (¬ (e.Source = source ∧ (e.StaffID, e.SoftwareID) ∈ ps))) ∧
    ∃ newLogs,
      (ps.foldl (fun s p => revokeStep noFaults now source s p.1 p.2) st).logs =
        st.logs ++ newLogs ∧
      (∀ l ∈ newLogs, l.Action = "Unassigned" ∧ l.ChangedBy = 0) ∧
      ∀ a b, (newLogs.countP fun l => l.StaffID == a && l.SoftwareID == b) =
        if (a, b) ∈ ps ∧ hasEdge st.assigned a b source = true then 1 else 0 := by
  induction ps generalizing st with
  | nil =>
    refine ⟨by simp, [], by simp, ?_, ?_⟩
    · intro l hl
      cases hl
    · intro a b
      simp
  | cons p ps ih =>
    simp only [List.foldl_cons]
    obtain ⟨ha, newLogs2, hl2, hk2, hc2⟩ := ih (revokeStep noFaults now source st p.1 p.2)
    obtain ⟨newLogs1, hl1, hk1, hlen1⟩ := revokeStep_noFaults_logs now source st p.1 p.2
    refine ⟨?_, newLogs1 ++ newLogs2, ?_, ?_, ?_⟩
    · rw [ha, revokeStep_noFaults_assigned, List.filter_filter]
      apply List.filter_congr
      intro e _
      rw [Bool.eq_iff_iff]
      simp only [Bool.and_eq_true, decide_eq_true_eq, Bool.not_eq_true',
        Bool.and_eq_false_iff, beq_eq_false_iff_ne, ne_eq, List.mem_cons]
      have hp : (e.StaffID, e.SoftwareID) = p ↔ e.StaffID = p.1 ∧ e.SoftwareID = p.2 := by
        rw [Prod.ext_iff]
      rw [hp]
      tauto
    · rw [hl2, hl1, List.append_assoc]
    · intro l hl
      rcases List.mem_append.1 hl with h | h
      · have := (hk1 l h).1
        simp only [logKey, Prod.mk.injEq] at this
        exact ⟨this.2.2, (hk1 l h).2⟩
      · exact hk2 l h
    · intro a b
      rw [List.countP_append, hc2]
      by_cases hab : a = p.1 ∧ b = p.2
      · obtain ⟨rfl, rfl⟩ := hab
        have h1 : (newLogs1.countP fun l => l.StaffID == p.1 && l.SoftwareID == p.2) =
            newLogs1.length := by
          rw [List.countP_eq_length]
          intro l hl
          have := (hk1 l hl).1
          simp only [logKey, Prod.mk.injEq] at this
          simp [this.1, this.2.1]
        rw [h1, hlen1, revokeStep_noFaults_assigned, hasEdge_filter_self]
        simp
      · have h1 : (newLogs1.countP fun l => l.StaffID == a && l.SoftwareID == b) = 0 := by
          rw [List.countP_eq_zero]
          intro l hl
          have := (hk1 l hl).1
          simp only [logKey, Prod.mk.injEq] at this
          simp only [Bool.and_eq_true, beq_iff_eq, this.1, this.2.1]
          intro h
          exact hab ⟨h.1.symm, h.2.symm⟩
        have hne : (a, b) ≠ p := by
          intro h
          exact hab ⟨congrArg Prod.fst h, congrArg Prod.snd h⟩
        rw [h1, revokeStep_noFaults_assigned, hasEdge_filter_ne _ _ _ _ _ _ hab, zero_add]
        simp [hne]

theorem mem_revokedSoftwareIDs_department {st : Store} {id x : Nat} :
    x ∈ revokedSoftwareIDs st id SourceDepartment ↔
      ∃ m ∈ st.deptMatches, m.DepartmentID = id ∧ m.SoftwareID = x := by
  rw [revokedSoftwareIDs, if_pos rfl]
  simp [and_assoc]

theorem mem_revokedSoftwareIDs_team {st : Store} {id x : Nat} :
    x ∈ revokedSoftwareIDs st id SourceTeam ↔
      ∃ m ∈ st.teamMatches, m.TeamID = id ∧ m.SoftwareID = x := by
  rw [revokedSoftwareIDs, if_neg (by decide), if_pos rfl]
  simp [and_assoc]

theorem revokeSoftwareFromSource_noFaults_eq (now : Nat) (st : Store) (staffID id : Nat)
    (source : String) :
    revokeSoftwareFromSource noFaults now st staffID id source =
      ((revokedSoftwareIDs st id source).map fun sid => (staffID, sid)).foldl
        (fun s p => revokeStep noFaults now source s p.1 p.2) st := by
  rw [revokeSoftwareFromSource_eq, List.foldl_map]
  simp [revokedSoftwareIDs, noFaults]

/-- The effect of `revokeSoftwareFromSource` when the store does not fail. -/
theorem revokeSoftwareFromSource_noFaults (now : Nat) (st : Store) (staffID id : Nat)
    (source : String) :
    (revokeSoftwareFromSource noFaults now st staffID id source).assigned =
      (st.assigned.filter fun e =>
        decide (¬ (e.Source = source ∧ e.StaffID = staffID ∧
          e.SoftwareID ∈ revokedSoftwareIDs st id source))) ∧
    ∃ newLogs,
      (revokeSoftwareFromSource noFaults now st staffID id source).logs =
        st.logs ++ newLogs ∧
      (∀ l ∈ newLogs, l.Action = "Unassigned" ∧ l.ChangedBy = 0) ∧
      ∀ a b, (newLogs.countP fun l => l.StaffID == a && l.SoftwareID == b) =
        if a = staffID ∧ b ∈ revokedSoftwareIDs st id source ∧
            hasEdge st.assigned a b source = true then 1 else 0 := by
  rw [revokeSoftwareFromSource_noFaults_eq]
  obtain ⟨ha, newLogs, hl, hk, hc⟩ := revokePairs_noFaults now source
    ((revokedSoftwareIDs st id source).map fun sid => (staffID, sid)) st
  have hmem : ∀ a b : Nat,
      (a, b) ∈ ((revokedSoftwareIDs st id source).map fun sid => (staffID, sid)) ↔
        a = staffID ∧ b ∈ revokedSoftwareIDs st id source := by
    intro a b
    simp only [List.mem_map, Prod.mk.injEq]
    constructor
    · rintro ⟨x, hx, rfl, rfl⟩
      exact ⟨rfl, hx⟩
    · rintro ⟨rfl, hb⟩
      exact ⟨b, hb, rfl, rfl⟩
  refine ⟨?_, newLogs, hl, hk, ?_⟩
  · rw [ha]
    apply List.filter_congr
    intro e _
    simp only [hmem]
  · intro a b
    rw [hc]
    simp only [hmem, and_assoc]

/-- A revoking loop over ids for which the staff member has no edge with the
source tag changes nothing, whatever store call fails. -/
theorem revokeLoop_of_no_edge (f : Faults) (now : Nat) (source : String) (staffID : Nat)
    (sids : List Nat) (st : Store)
    (h : ∀ sid ∈ sids, hasEdge st.assigned staffID sid source = false) :
    sids.foldl (fun s sid => revokeStep f now source s staffID sid) st = st := by
  induction sids with
  | nil => rfl
  | cons sid sids ih =>
    simp only [List.foldl_cons]
    have h0 := h sid (List.mem_cons_self _ _)
    have hstep : revokeStep f now source st staffID sid = st := by
      have hall : ∀ e ∈ st.assigned,
          (!(e.StaffID == staffID && e.SoftwareID == sid && e.Source == source)) = true := by
        intro e he
        rw [Bool.not_eq_true']
        rw [Bool.eq_false_iff] at h0 ⊢
        intro hc
        exact h0 (List.any_eq_true.2 ⟨e, he, hc⟩)
      have hcount : (st.assigned.countP fun e =>
          e.StaffID == staffID && e.SoftwareID == sid && e.Source == source) = 0 := by
        rw [List.countP_eq_zero]
        intro e he
        have := hall e he
        rw [Bool.not_eq_true'] at this
        rw [this]
        decide
      unfold revokeStep deleteAssignedWhere
      split
      · simp
      · simp only [hcount, List.filter_eq_self.2 hall]
        simp
    rw [hstep]
    exact ih fun x hx => h x (List.mem_cons_of_mem _ hx)

theorem candidateList_congr {st1 st2 : Store} (hd : st2.deptMatches = st1.deptMatches)
    (ht : st2.teamMatches = st1.teamMatches) (ho : st2.orgMatches = st1.orgMatches)
    (departmentID teamID : Nat) :
    candidateList st2 departmentID teamID = candidateList st1 departmentID teamID := by
  simp [candidateList, hd, ht, ho]

/-- The two revoke steps of a sync create no edge. -/
theorem revokeSoftwareFromSource_subset (now : Nat) (st : Store) (staffID id : Nat)
    (source : String) (e : AssignedSoftware)
    (he : e ∈ (revokeSoftwareFromSource noFaults now st staffID id source).assigned) :
    e ∈ st.assigned := by
  rw [(revokeSoftwareFromSource_noFaults now st staffID id source).1] at he
  exact (List.mem_filter.1 he).1

/-! ## C6: the sync scenario -/

/-- C6, as stated, fails: in `movedStaffStore` staff member 1 moves from
department 3 to department 4, no department rule of department 4 references
software 7, and yet after the sync the staff member holds software 7 again,
tagged `organization`. -/
theorem C6_sync_readds_by_organization_rule :
    (∀ m ∈ movedStaffStore.deptMatches, m.DepartmentID = 4 → m.SoftwareID ≠ 7) ∧
    hasEdge movedStaffStore.assigned 1 7 "department" = true ∧
    hasEdge movedStaffStore.assigned 1 8 "manual" = true ∧
    7 ∈ heldBy (SyncSoftwareAssignmentsForStaff noFaults 100 movedStaffStore 1 3 0 4 0).1 1 ∧
    (SyncSoftwareAssignmentsForStaff noFaults 100 movedStaffStore 1 3 0 4 0).1.assigned.map
      edgeKey = [(1, 8, "manual"), (1, 7, "organization")] := by
  decide

/-- C6, amended: staff `s` moves from department `A` to department `B`, a
department rule (X, A) exists, `s` holds X tagged `department` and holds the
edge `eY` tagged `manual`. With every store operation succeeding, the revoke
step of `SyncSoftwareAssignmentsForStaff s A oldTeam B newTeam` leaves no edge
(s, X, department), the sync appends an `Unassigned` log row for (s, X) and
keeps `eY` unchanged; and if X is held by `s` only through edges tagged
`department` and no department rule of `B`, no team rule of `newTeam` and no
organization rule references X, then `s` holds no edge for X after the call. -/
theorem C6_sync_scoping_amended (now : Nat) (st : Store)
    (s A oldTeam B newTeam X : Nat) (eY : AssignedSoftware)
    (hrule : ∃ m ∈ st.deptMatches, m.DepartmentID = A ∧ m.SoftwareID = X)
    (hX : hasEdge st.assigned s X "department" = true)
    (hY : eY ∈ st.assigned) (hYsrc : eY.Source = "manual") :
    (∀ e ∈ (revokeSoftwareFromSource noFaults now
          (revokeSoftwareFromSource noFaults now st s A SourceDepartment)
          s oldTeam SourceTeam).assigned,
        ¬ (e.StaffID = s ∧ e.SoftwareID = X ∧ e.Source = "department")) ∧
    (∃ newLogs,
      (SyncSoftwareAssignmentsForStaff noFaults now st s A oldTeam B newTeam).1.logs =
        st.logs ++ newLogs ∧
      (s, X, "Unassigned") ∈ newLogs.map logKey) ∧
    eY ∈ (SyncSoftwareAssignmentsForStaff noFaults now st s A oldTeam B newTeam).1.assigned ∧
    ((∀ e ∈ st.assigned, e.StaffID = s → e.SoftwareID = X → e.Source = "department") →
      (∀ c ∈ candidateList st B newTeam, c.1 ≠ X) →
      X ∉ heldBy (SyncSoftwareAssignmentsForStaff noFaults now st s A oldTeam B newTeam).1 s) := by
  have hXin : X ∈ revokedSoftwareIDs st A SourceDepartment :=
    mem_revokedSoftwareIDs_department.2 hrule
  obtain ⟨ha1, nl1, hl1, hk1, hc1⟩ :=
    revokeSoftwareFromSource_noFaults now st s A SourceDepartment
  obtain ⟨-, hd1, ht1, ho1⟩ := revokeDepartment_mem noFaults now st s A
  have hsub2 := revokeSoftwareFromSource_subset now
    (revokeSoftwareFromSource noFaults now st s A SourceDepartment) s oldTeam SourceTeam
  obtain ⟨-, nl2, hl2, -, -⟩ := revokeSoftwareFromSource_noFaults now
    (revokeSoftwareFromSource noFaults now st s A SourceDepartment) s oldTeam SourceTeam
  obtain ⟨-, hd2, ht2, ho2⟩ := revokeTeam_mem noFaults now
    (revokeSoftwareFromSource noFaults now st s A SourceDepartment) s oldTeam
  have hgone : ∀ e ∈ (revokeSoftwareFromSource noFaults now
        (revokeSoftwareFromSource noFaults now st s A SourceDepartment)
        s oldTeam SourceTeam).assigned,
      ¬ (e.StaffID = s ∧ e.SoftwareID = X ∧ e.Source = "department") := by
    intro e he hcontra
    have h1 := hsub2 e he
    rw [ha1] at h1
    have h2 := (List.mem_filter.1 h1).2
    rw [decide_eq_true_eq] at h2
    exact h2 ⟨hcontra.2.2, hcontra.1, by rw [hcontra.2.1]; exact hXin⟩
  obtain ⟨-, created, nl3, ha3, hk3, -⟩ := autoAssign_appends now
    (revokeSoftwareFromSource noFaults now
      (revokeSoftwareFromSource noFaults now st s A SourceDepartment) s oldTeam SourceTeam)
    s B newTeam
  refine ⟨hgone, ⟨nl1 ++ nl2 ++ nl3, ?_, ?_⟩, ?_, ?_⟩
  · show (AutoAssignSoftwareToStaff noFaults now _ s B newTeam).1.logs = _
    rw [ha3.2.1, hl2, hl1, List.append_assoc, List.append_assoc, List.append_assoc]
  · have hcount := hc1 s X
    rw [if_pos ⟨rfl, hXin, hX⟩] at hcount
    have hpos : 0 < nl1.countP fun l => l.StaffID == s && l.SoftwareID == X := by
      rw [hcount]; exact Nat.one_pos
    obtain ⟨l, hl, hp⟩ := List.countP_pos_iff.1 hpos
    simp only [Bool.and_eq_true, beq_iff_eq] at hp
    refine List.mem_map.2 ⟨l, ?_, ?_⟩
    · exact List.mem_append_left _ (List.mem_append_left _ hl)
    · simp only [logKey, hp.1, hp.2, (hk1 l hl).1]
  · rcases sync_mem noFaults now st s A oldTeam B newTeam eY hY with h | ⟨-, h | h⟩
    · exact h
    · rw [hYsrc] at h; exact absurd h.1 (by decide)
    · rw [hYsrc] at h; exact absurd h.1 (by decide)
  · intro honly hnone hheld
    obtain ⟨e, he, hes, hex⟩ := mem_heldBy.1 hheld
    have he' : e ∈ (AutoAssignSoftwareToStaff noFaults now (revokeSoftwareFromSource noFaults
        now (revokeSoftwareFromSource noFaults now st s A SourceDepartment) s oldTeam
        SourceTeam) s B newTeam).1.assigned := he
    rw [ha3.1] at he'
    rcases List.mem_append.1 he' with h | h
    · have hin : e ∈ st.assigned :=
        revokeSoftwareFromSource_subset now st s A SourceDepartment e (hsub2 e h)
      exact hgone e h ⟨hes, hex, honly e hin hes hex⟩
    · have hkey : edgeKey e ∈ created.map edgeKey := List.mem_map.2 ⟨e, h, rfl⟩
      rw [hk3, candidateList_congr (hd2.trans hd1) (ht2.trans ht1) (ho2.trans ho1)] at hkey
      obtain ⟨c, hc, hce⟩ := List.mem_map.1 hkey
      simp only [edgeKey, Prod.mk.injEq] at hce
      exact hnone c (List.mem_filter.1 hc).1 (hce.2.1.trans hex)

/-- C6, amended, at `movedStaffStore` without its organization rule: every
hypothesis holds there. -/
theorem C6_sync_scoping_amended_witness :
    7 ∉ heldBy (SyncSoftwareAssignmentsForStaff noFaults 100
      { movedStaffStore with orgMatches := [] } 1 3 0 4 0).1 1 :=
  (C6_sync_scoping_amended 100 { movedStaffStore with orgMatches := [] } 1 3 0 4 0 7
    { ID := 2, StaffID := 1, SoftwareID := 8, Source := "manual", AssignedAt := 11,
      UpdatedAt := 11 }
    (by decide) (by decide) (by decide) (by decide)).2.2.2 (by decide) (by decide)

/-! ## C7: a sync with identical old and new units -/

/-- C7, as stated, fails: in `sameUnitStore` the call
`SyncSoftwareAssignmentsForStaff 1 3 4 3 4`, whose old and new units are the
same, deletes the edge (1, 7, department) in its revoke step, creates it again
in its re-assignment step and appends an `Unassigned` and an `Assigned` log
row. -/
theorem C7_sync_same_units_revokes_and_reassigns :
    (revokeSoftwareFromSource noFaults 100 sameUnitStore 1 3 SourceDepartment).assigned = [] ∧
    (SyncSoftwareAssignmentsForStaff noFaults 100 sameUnitStore 1 3 4 3 4).1.assigned =
      [{ ID := 1, StaffID := 1, SoftwareID := 7, Source := "department",
         AssignedAt := 100, UpdatedAt := 100 }] ∧
    (SyncSoftwareAssignmentsForStaff noFaults 100 sameUnitStore 1 3 4 3 4).1.logs.map logKey =
      [(1, 7, "Unassigned"), (1, 7, "Assigned")] := by
  decide

/-- C7, amended: with every store operation succeeding, the revoke step for
department `d` changes nothing when staff `s` holds no edge tagged `department`
for a software referenced by a department rule of `d`, and likewise the revoke
step for team `t` (also when the other unit differs between old and new); when
both hold and `s` already holds every software referenced by the rules of `d`,
of `t` and of the organization, `SyncSoftwareAssignmentsForStaff s d t d t`
returns `nil` and leaves the store as it was: no edge deleted, none created, no
log row. -/
theorem C7_sync_same_units_amended (now : Nat) (st : Store) (s d t : Nat) :
    ((∀ x ∈ revokedSoftwareIDs st d SourceDepartment,
          hasEdge st.assigned s x SourceDepartment = false) →
        revokeSoftwareFromSource noFaults now st s d SourceDepartment = st) ∧
    ((∀ x ∈ revokedSoftwareIDs st t SourceTeam,
          hasEdge st.assigned s x SourceTeam = false) →
        revokeSoftwareFromSource noFaults now st s t SourceTeam = st) ∧
    ((∀ x ∈ revokedSoftwareIDs st d SourceDepartment,
          hasEdge st.assigned s x SourceDepartment = false) →
      (∀ x ∈ revokedSoftwareIDs st t SourceTeam,
          hasEdge st.assigned s x SourceTeam = false) →
      (∀ c ∈ candidateList st d t, c.1 ∈ heldBy st s) →
      SyncSoftwareAssignmentsForStaff noFaults now st s d t d t = (st, none)) := by
  have hdept : (∀ x ∈ revokedSoftwareIDs st d SourceDepartment,
        hasEdge st.assigned s x SourceDepartment = false) →
      revokeSoftwareFromSource noFaults now st s d SourceDepartment = st := by
    intro h
    rw [revokeSoftwareFromSource_noFaults_eq, List.foldl_map]
    exact revokeLoop_of_no_edge noFaults now SourceDepartment s _ st h
  have hteam : (∀ x ∈ revokedSoftwareIDs st t SourceTeam,
        hasEdge st.assigned s x SourceTeam = false) →
      revokeSoftwareFromSource noFaults now st s t SourceTeam = st := by
    intro h
    rw [revokeSoftwareFromSource_noFaults_eq, List.foldl_map]
    exact revokeLoop_of_no_edge noFaults now SourceTeam s _ st h
  refine ⟨hdept, hteam, ?_⟩
  intro h1 h2 h3
  unfold SyncSoftwareAssignmentsForStaff
  dsimp only
  rw [hdept h1, hteam h2, autoAssign_noFaults]
  dsimp only
  have e1 : ((st.deptMatches.filter fun m => m.DepartmentID == d).map
      (·.SoftwareID)).foldl (fun s' c => assignIfNotExists noFaults now s
        (heldBy st s) s' c SourceDepartment) st = st := by
    apply assignLoop_of_all_mem
    intro c hc
    obtain ⟨m, hm, rfl⟩ := List.mem_map.1 hc
    rw [List.mem_filter, beq_iff_eq] at hm
    exact h3 (m.SoftwareID, SourceDepartment)
      (mem_candidateList.2 (Or.inl ⟨m, hm.1, hm.2, rfl⟩))
  rw [e1]
  have e2 : ((st.teamMatches.filter fun m => m.TeamID == t).map
      (·.SoftwareID)).foldl (fun s' c => assignIfNotExists noFaults now s
        (heldBy st s) s' c SourceTeam) st = st := by
    apply assignLoop_of_all_mem
    intro c hc
    obtain ⟨m, hm, rfl⟩ := List.mem_map.1 hc
    rw [List.mem_filter, beq_iff_eq] at hm
    exact h3 (m.SoftwareID, SourceTeam)
      (mem_candidateList.2 (Or.inr (Or.inl ⟨m, hm.1, hm.2, rfl⟩)))
  rw [e2]
  have e3 : (st.orgMatches.map (·.SoftwareID)).foldl
      (fun s' c => assignIfNotExists noFaults now s (heldBy st s) s' c SourceOrganization)
      st = st := by
    apply assignLoop_of_all_mem
    intro c hc
    obtain ⟨m, hm, rfl⟩ := List.mem_map.1 hc
    exact h3 (m.SoftwareID, SourceOrganization)
      (mem_candidateList.2 (Or.inr (Or.inr ⟨m, hm, rfl⟩)))
  rw [e3]

/-- C7, amended, at `settledStore`, where every hypothesis holds. -/
theorem C7_sync_same_units_amended_witness :
    SyncSoftwareAssignmentsForStaff noFaults 100 settledStore 1 3 4 3 4 =
      (settledStore, none) :=
  (C7_sync_same_units_amended 100 settledStore 1 3 4).2.2
    (by decide) (by decide) (by decide)

/-! ## Offboarding -/

theorem isAutoAssigned_iff (source : String) :
    isAutoAssigned source = true ↔
      source = "department" ∨ source = "team" ∨ source = "organization" := by
  simp [isAutoAssigned, SourceDepartment, SourceTeam, SourceOrganization, or_assoc]

theorem revokeAll_noFaults_eq (now : Nat) (st : Store) (staffID : Nat) :
    RevokeSoftwareAssignmentsForStaff noFaults now st staffID =
      ((st.assigned.filter fun e => e.StaffID == staffID).foldl
        (fun s a => offboardStep noFaults now s a) st, none) := by
  simp [RevokeSoftwareAssignmentsForStaff, noFaults, offboardStep]

/-- The offboarding loop over rows with a non-zero key, the store not failing:
it deletes the rows whose key is the key of an auto-assigned row of the list,
and appends one `Unassigned` log row per auto-assigned row of the list. -/
theorem offboardLoop_noFaults (now : Nat) (rows : List AssignedSoftware) (st : Store)
    (hkey : ∀ a ∈ rows, a.ID ≠ 0) :
    (rows.foldl (fun s a => offboardStep noFaults now s a) st).assigned =
      (st.assigned.filter fun e =>
        decide (e.ID ∉ (rows.filter fun a => isAutoAssigned a.Source).map (·.ID))) ∧
    (rows.foldl (fun s a => offboardStep noFaults now s a) st).deptMatches = st.deptMatches ∧
    (rows.foldl (fun s a => offboardStep noFaults now s a) st).teamMatches = st.teamMatches ∧
    (rows.foldl (fun s a => offboardStep noFaults now s a) st).orgMatches = st.orgMatches ∧
    ∃ newLogs,
      (rows.foldl (fun s a => offboardStep noFaults now s a) st).logs = st.logs ++ newLogs ∧
      (∀ l ∈ newLogs, l.ChangedBy = 0) ∧
      newLogs.map logKey =
        (rows.filter fun a => isAutoAssigned a.Source).map
          (fun a => (a.StaffID, a.SoftwareID, "Unassigned")) := by
  induction rows generalizing st with
  | nil => exact ⟨by simp, rfl, rfl, rfl, [], by simp, by simp, rfl⟩
  | cons a rows ih =>
    simp only [List.foldl_cons]
    have ha0 : a.ID ≠ 0 := hkey a (List.mem_cons_self _ _)
    obtain ⟨hA, hD, hT, hO, newLogs, hL, hB, hK⟩ :=
      ih (offboardStep noFaults now st a) fun x hx => hkey x (List.mem_cons_of_mem _ hx)
    by_cases hauto : isAutoAssigned a.Source = true
    · have hstep : offboardStep noFaults now st a =
          { st with
            assigned := st.assigned.filter fun e => !(e.ID == a.ID)
            logs := st.logs ++
              [{ ID := nextID (st.logs.map (·.ID)), StaffID := a.StaffID,
                 SoftwareID := a.SoftwareID, Action := "Unassigned", ChangedBy := 0,
                 ChangedAt := now, UpdatedAt := now }] } := by
        simp [offboardStep, hauto, deleteAssignedByID, logAssignmentChange, noFaults, ha0]
      have sA : (offboardStep noFaults now st a).assigned =
          st.assigned.filter fun e => !(e.ID == a.ID) := by rw [hstep]
      have sL : (offboardStep noFaults now st a).logs = st.logs ++
          [{ ID := nextID (st.logs.map (·.ID)), StaffID := a.StaffID,
             SoftwareID := a.SoftwareID, Action := "Unassigned", ChangedBy := 0,
             ChangedAt := now, UpdatedAt := now }] := by rw [hstep]
      have sD : (offboardStep noFaults now st a).deptMatches = st.deptMatches := by
        rw [hstep]
      have sT : (offboardStep noFaults now st a).teamMatches = st.teamMatches := by
        rw [hstep]
      have sO : (offboardStep noFaults now st a).orgMatches = st.orgMatches := by
        rw [hstep]
      refine ⟨?_, hD.trans sD, hT.trans sT, hO.trans sO,
        ({ ID := nextID (st.logs.map (·.ID)), StaffID := a.StaffID,
           SoftwareID := a.SoftwareID, Action := "Unassigned", ChangedBy := 0,
           ChangedAt := now, UpdatedAt := now } : SoftwareAssignmentLog) :: newLogs,
        ?_, ?_, ?_⟩
      · rw [hA, sA, List.filter_filter]
        apply List.filter_congr
        intro e _
        rw [Bool.eq_iff_iff]
        simp only [List.filter_cons, hauto, if_true, List.map_cons, List.mem_cons,
          Bool.and_eq_true, decide_eq_true_eq, Bool.not_eq_true', beq_eq_false_iff_ne, ne_eq]
        tauto
      · rw [hL, sL]
        simp
      · intro l hl
        rcases List.mem_cons.1 hl with h | h
        · rw [h]
        · exact hB l h
      · simp only [List.map_cons, List.filter_cons, hauto, if_true, hK]
        rfl
    · have hstep : offboardStep noFaults now st a = st := by
        simp [offboardStep, hauto]
      rw [hstep] at hA hD hT hO hL ⊢
      refine ⟨?_, hD, hT, hO, newLogs, hL, hB, ?_⟩
      · rw [hA]
        simp only [List.filter_cons, hauto]
        rfl
      · rw [hK]
        simp only [List.filter_cons, hauto]
        rfl

/-! ## C8: offboarding keeps manual grants -/

/-- C8: for every store state whose `assigned_software` primary key is valid
and with every store operation succeeding, `RevokeSoftwareAssignmentsForStaff s`
returns `nil`, removes exactly the edges of staff `s` tagged `department`,
`team` or `organization`, leaves every edge of `s` tagged `manual` and every
edge of another staff member in the table unchanged, and appends exactly one
`Unassigned` log row, with the staff and software of the edge, per removed
edge. -/
theorem C8_offboarding_preserves_manual (now : Nat) (st : Store) (s : Nat)
    (hpk : PrimaryKeyValid st.assigned) :
    (RevokeSoftwareAssignmentsForStaff noFaults now st s).2 = none ∧
    (RevokeSoftwareAssignmentsForStaff noFaults now st s).1.assigned =
      (st.assigned.filter fun e =>
        decide (¬ (e.StaffID = s ∧
          (e.Source = "department" ∨ e.Source = "team" ∨ e.Source = "organization")))) ∧
    (∀ e ∈ st.assigned, e.StaffID ≠ s ∨ e.Source = "manual" →
      e ∈ (RevokeSoftwareAssignmentsForStaff noFaults now st s).1.assigned) ∧
    ∃ newLogs,
      (RevokeSoftwareAssignmentsForStaff noFaults now st s).1.logs = st.logs ++ newLogs ∧
      newLogs.map logKey =
        (st.assigned.filter fun e =>
          decide (e.StaffID = s ∧
            (e.Source = "department" ∨ e.Source = "team" ∨ e.Source = "organization"))).map
          (fun e => (e.StaffID, e.SoftwareID, "Unassigned")) := by
  rw [revokeAll_noFaults_eq]
  dsimp only
  obtain ⟨hA, -, -, -, newLogs, hL, -, hK⟩ := offboardLoop_noFaults now
    (st.assigned.filter fun e => e.StaffID == s) st
    (fun a ha => hpk.2 a (List.mem_filter.1 ha).1)
  have hinj := List.inj_on_of_nodup_map hpk.1
  have hids : ∀ e ∈ st.assigned,
      (e.ID ∈ ((st.assigned.filter fun e => e.StaffID == s).filter
          fun a => isAutoAssigned a.Source).map (·.ID)) ↔
        (e.StaffID = s ∧
          (e.Source = "department" ∨ e.Source = "team" ∨ e.Source = "organization")) := by
    intro e he
    simp only [List.mem_map, List.mem_filter, beq_iff_eq, isAutoAssigned_iff]
    constructor
    · rintro ⟨a, ⟨⟨ha, has⟩, hauto⟩, haid⟩
      have : a = e := hinj ha he haid
      subst this
      exact ⟨has, hauto⟩
    · rintro ⟨hs, hauto⟩
      exact ⟨e, ⟨⟨he, hs⟩, hauto⟩, rfl⟩
  have hassigned : (List.foldl (fun s a => offboardStep noFaults now s a) st
        (st.assigned.filter fun e => e.StaffID == s)).assigned =
      (st.assigned.filter fun e =>
        decide (¬ (e.StaffID = s ∧
          (e.Source = "department" ∨ e.Source = "team" ∨ e.Source = "organization")))) := by
    rw [hA]
    apply List.filter_congr
    intro e he
    simp only [hids e he]
  refine ⟨rfl, hassigned, ?_, newLogs, hL, ?_⟩
  · intro e he hcase
    rw [hassigned]
    refine List.mem_filter.2 ⟨he, ?_⟩
    rw [decide_eq_true_eq]
    rintro ⟨hs, hsrc⟩
    rcases hcase with h | h
    · exact h hs
    · rw [h] at hsrc
      revert hsrc
      decide
  · rw [hK, List.filter_filter]
    congr 1
    apply List.filter_congr
    intro e _
    rw [Bool.eq_iff_iff]
    simp only [Bool.and_eq_true, beq_iff_eq, isAutoAssigned_iff, decide_eq_true_eq]
    tauto

/-- C8 at `offboardStore`, whose primary key is valid: offboarding staff
member 1 removes the edge for software 7 only. -/
theorem C8_offboarding_preserves_manual_witness :
    PrimaryKeyValid offboardStore.assigned ∧
    (RevokeSoftwareAssignmentsForStaff noFaults 100 offboardStore 1).1.assigned =
      (offboardStore.assigned.filter fun e =>
        decide (¬ (e.StaffID = 1 ∧
          (e.Source = "department" ∨ e.Source = "team" ∨ e.Source = "organization")))) :=
  ⟨by decide, (C8_offboarding_preserves_manual 100 offboardStore 1 (by decide)).2.1⟩

/-! ## Rule deletion: `AutoRevokeSoftwareFromStaff` -/

theorem autoRevoke_eq (f : Faults) (now : Nat) (st : Store) (softwareID : Nat)
    (staffList : List Staff) (source : String) :
    AutoRevokeSoftwareFromStaff f now st softwareID staffList source =
      (staffList.map fun p => (p.ID, softwareID)).foldl
        (fun s p => revokeStep f now source s p.1 p.2) st := by
  rw [List.foldl_map]
  rfl

/-- The effect of `AutoRevokeSoftwareFromStaff` when the store does not fail. -/
theorem autoRevoke_noFaults (now : Nat) (st : Store) (X : Nat) (L : List Staff)
    (σ : String) :
    (AutoRevokeSoftwareFromStaff noFaults now st X L σ).assigned =
      (st.assigned.filter fun e =>
        decide (¬ (e.StaffID ∈ L.map (·.ID) ∧ e.SoftwareID = X ∧ e.Source = σ))) ∧
    ∃ newLogs,
      (AutoRevokeSoftwareFromStaff noFaults now st X L σ).logs = st.logs ++ newLogs ∧
      (∀ l ∈ newLogs, l.Action = "Unassigned" ∧ l.ChangedBy = 0) ∧
      ∀ a b, (newLogs.countP fun l => l.StaffID == a && l.SoftwareID == b) =
        if a ∈ L.map (·.ID) ∧ b = X ∧ hasEdge st.assigned a b σ = true then 1 else 0 := by
  rw [autoRevoke_eq]
  obtain ⟨ha, newLogs, hl, hk, hc⟩ := revokePairs_noFaults now σ
    (L.map fun p => (p.ID, X)) st
  have hmem : ∀ a b : Nat,
      (a, b) ∈ (L.map fun p => (p.ID, X)) ↔ a ∈ L.map (·.ID) ∧ b = X := by
    intro a b
    simp only [List.mem_map, Prod.mk.injEq]
    constructor
    · rintro ⟨p, hp, rfl, rfl⟩
      exact ⟨⟨p, hp, rfl⟩, rfl⟩
    · rintro ⟨⟨p, hp, rfl⟩, rfl⟩
      exact ⟨p, hp, rfl, rfl⟩
  refine ⟨?_, newLogs, hl, hk, ?_⟩
  · rw [ha]
    apply List.filter_congr
    intro e _
    rw [Bool.eq_iff_iff]
    simp only [decide_eq_true_eq, hmem]
    tauto
  · intro a b
    rw [hc]
    simp only [hmem, and_assoc]

/-! ## C10: revocation on rule deletion -/

/-- C10: for every store state, software X, source tag σ and staff list L, with
every store operation succeeding, `AutoRevokeSoftwareFromStaff X L σ` removes
exactly the edges (staff, X, σ) with staff in L; an edge for X with another
source, an edge for another software and an edge of staff outside L stay in the
table unchanged; every appended log row is an `Unassigned` row for software X,
and an `Unassigned` row for (staff, X) is appended, once, if and only if at
least one edge of that staff member was deleted. -/
theorem C10_autoRevoke_removes_exactly_scoped_edges (now : Nat) (st : Store) (X : Nat)
    (L : List Staff) (σ : String) :
    (AutoRevokeSoftwareFromStaff noFaults now st X L σ).assigned =
      (st.assigned.filter fun e =>
        decide (¬ (e.StaffID ∈ L.map (·.ID) ∧ e.SoftwareID = X ∧ e.Source = σ))) ∧
    (∀ e ∈ st.assigned, e.Source ≠ σ ∨ e.SoftwareID ≠ X ∨ e.StaffID ∉ L.map (·.ID) →
      e ∈ (AutoRevokeSoftwareFromStaff noFaults now st X L σ).assigned) ∧
    ∃ newLogs,
      (AutoRevokeSoftwareFromStaff noFaults now st X L σ).logs = st.logs ++ newLogs ∧
      (∀ l ∈ newLogs, l.Action = "Unassigned" ∧ l.SoftwareID = X) ∧
      (∀ a, (a, X, "Unassigned") ∈ newLogs.map logKey ↔
        ∃ e ∈ st.assigned, e.StaffID = a ∧
          e ∉ (AutoRevokeSoftwareFromStaff noFaults now st X L σ).assigned) ∧
      (∀ a, (newLogs.countP fun l => l.StaffID == a) ≤ 1) := by
  obtain ⟨ha, newLogs, hl, hk, hc⟩ := autoRevoke_noFaults now st X L σ
  have hsw : ∀ l ∈ newLogs, l.SoftwareID = X := by
    intro l hl'
    have hpos : 0 < newLogs.countP fun l' =>
        l'.StaffID == l.StaffID && l'.SoftwareID == l.SoftwareID :=
      List.countP_pos_iff.2 ⟨l, hl', by simp⟩
    rw [hc] at hpos
    by_contra hne
    rw [if_neg (fun h => hne h.2.1)] at hpos
    exact Nat.lt_irrefl 0 hpos
  have hdel : ∀ e ∈ st.assigned,
      (e ∉ (AutoRevokeSoftwareFromStaff noFaults now st X L σ).assigned ↔
        (e.StaffID ∈ L.map (·.ID) ∧ e.SoftwareID = X ∧ e.Source = σ)) := by
    intro e he
    rw [ha, List.mem_filter, decide_eq_true_eq]
    constructor
    · intro h
      by_contra hn
      exact h ⟨he, hn⟩
    · intro h hn
      exact hn.2 h
  refine ⟨ha, ?_, newLogs, hl, fun l h => ⟨(hk l h).1, hsw l h⟩, ?_, ?_⟩
  · intro e he hcase
    by_contra hn
    have := (hdel e he).1 hn
    rcases hcase with h | h | h
    · exact h this.2.2
    · exact h this.2.1
    · exact h this.1
  · intro a
    constructor
    · intro hmem
      obtain ⟨l, hl', hkey⟩ := List.mem_map.1 hmem
      simp only [logKey, Prod.mk.injEq] at hkey
      have hpos : 0 < newLogs.countP fun l' => l'.StaffID == a && l'.SoftwareID == X :=
        List.countP_pos_iff.2 ⟨l, hl', by simp [hkey.1, hkey.2.1]⟩
      rw [hc] at hpos
      by_cases hcond : a ∈ L.map (·.ID) ∧ X = X ∧ hasEdge st.assigned a X σ = true
      · obtain ⟨e, he, h1, h2, h3⟩ := hasEdge_iff.1 hcond.2.2
        exact ⟨e, he, h1, (hdel e he).2 ⟨by rw [h1]; exact hcond.1, h2, h3⟩⟩
      · rw [if_neg hcond] at hpos
        exact absurd hpos (Nat.lt_irrefl 0)
    · rintro ⟨e, he, hs, hgone⟩
      obtain ⟨h1, h2, h3⟩ := (hdel e he).1 hgone
      have hcond : a ∈ L.map (·.ID) ∧ X = X ∧ hasEdge st.assigned a X σ = true :=
        ⟨by rw [← hs]; exact h1, rfl, hasEdge_iff.2 ⟨e, he, hs, h2, h3⟩⟩
      have hcount := hc a X
      rw [if_pos hcond] at hcount
      have hpos : 0 < newLogs.countP fun l' => l'.StaffID == a && l'.SoftwareID == X := by
        rw [hcount]; exact Nat.one_pos
      obtain ⟨l, hl', hp⟩ := List.countP_pos_iff.1 hpos
      simp only [Bool.and_eq_true, beq_iff_eq] at hp
      exact List.mem_map.2 ⟨l, hl', by simp only [logKey, hp.1, hp.2, (hk l hl').1]⟩
  · intro a
    have hle : (newLogs.countP fun l => l.StaffID == a) ≤
        newLogs.countP fun l => l.StaffID == a && l.SoftwareID == X := by
      apply le_of_eq
      apply List.countP_congr
      intro l hl'
      simp [hsw l hl']
    refine le_trans hle ?_
    rw [hc]
    split <;> simp

/-! ## Rule creation: `AutoAssignSoftwareToStaffByUnit` -/

theorem firstAssignedErr_noFaults (st : Store) (staffID softwareID : Nat) :
    firstAssignedErr noFaults st staffID softwareID = true ↔
      softwareID ∉ heldBy st staffID := by
  rw [mem_heldBy]
  simp [firstAssignedErr, noFaults]

theorem assignUnitStep_of_held (now X : Nat) (σ : String) (st : Store) (p : Staff)
    (h : X ∈ heldBy st p.ID) : assignUnitStep noFaults now X σ st p = st := by
  have : ¬ firstAssignedErr noFaults st p.ID X = true :=
    fun hc => (firstAssignedErr_noFaults st p.ID X).1 hc h
  simp [assignUnitStep, this]

theorem assignUnitStep_of_not_held (now X : Nat) (σ : String) (st : Store) (p : Staff)
    (h : X ∉ heldBy st p.ID) :
    ∃ e l, Appends st (assignUnitStep noFaults now X σ st p) [e] [l] ∧
      edgeKey e = (p.ID, X, sourceOrDefault σ) ∧ logKey l = (p.ID, X, "Assigned") := by
  have herr : firstAssignedErr noFaults st p.ID X = true :=
    (firstAssignedErr_noFaults st p.ID X).2 h
  have heq : assignUnitStep noFaults now X σ st p =
      assignIfNotExists noFaults now p.ID [] st X σ := by
    simp [assignUnitStep, assignIfNotExists, herr]
  rw [heq]
  exact assignIfNotExists_appends now p.ID [] st X σ (List.not_mem_nil X)

/-- The loop of `AutoAssignSoftwareToStaffByUnit`, the store not failing: one
edge and one `Assigned` log row for each staff member of the list that did not
hold the software, none for the others. -/
theorem assignUnitLoop_noFaults (now X : Nat) (σ : String) (L : List Staff) (st : Store) :
    ∃ created newLogs,
      Appends st (L.foldl (fun s p => assignUnitStep noFaults now X σ s p) st)
        created newLogs ∧
      (∀ e ∈ created, e.SoftwareID = X ∧ e.Source = sourceOrDefault σ) ∧
      (∀ a, (created.countP fun e => e.StaffID == a) =
        if a ∈ L.map (·.ID) ∧ X ∉ heldBy st a then 1 else 0) ∧
      newLogs.map logKey = created.map (fun e => (e.StaffID, X, "Assigned")) := by
  induction L generalizing st with
  | nil =>
    refine ⟨[], [], Appends.refl st, ?_, ?_, rfl⟩
    · intro e he
      cases he
    · intro a
      simp
  | cons p L ih =>
    simp only [List.foldl_cons]
    by_cases hheld : X ∈ heldBy st p.ID
    · rw [assignUnitStep_of_held now X σ st p hheld]
      obtain ⟨created, newLogs, ha, hs, hc, hl⟩ := ih st
      refine ⟨created, newLogs, ha, hs, ?_, hl⟩
      intro a
      rw [hc a]
      by_cases hap : a = p.ID
      · subst hap
        simp [hheld]
      · simp [hap]
    · obtain ⟨e0, l0, ha0, he0, hl0⟩ := assignUnitStep_of_not_held now X σ st p hheld
      obtain ⟨created, newLogs, ha, hs, hc, hl⟩ := ih (assignUnitStep noFaults now X σ st p)
      simp only [edgeKey, Prod.mk.injEq] at he0
      simp only [logKey, Prod.mk.injEq] at hl0
      have hheld1 : ∀ a, X ∈ heldBy (assignUnitStep noFaults now X σ st p) a ↔
          (X ∈ heldBy st a ∨ a = p.ID) := by
        intro a
        rw [mem_heldBy, mem_heldBy, ha0.1]
        constructor
        · rintro ⟨e, he, h1, h2⟩
          rcases List.mem_append.1 he with h | h
          · exact Or.inl ⟨e, h, h1, h2⟩
          · rw [List.mem_singleton] at h
            subst h
            exact Or.inr (h1.symm.trans he0.1)
        · rintro (⟨e, he, h1, h2⟩ | h)
          · exact ⟨e, List.mem_append_left _ he, h1, h2⟩
          · exact ⟨e0, List.mem_append_right _ (List.mem_singleton_self e0),
              he0.1.trans h.symm, he0.2.1⟩
      refine ⟨[e0] ++ created, [l0] ++ newLogs, ha0.trans ha, ?_, ?_, ?_⟩
      · intro e he
        rcases List.mem_append.1 he with h | h
        · rw [List.mem_singleton] at h
          subst h
          exact ⟨he0.2.1, he0.2.2⟩
        · exact hs e h
      · intro a
        rw [List.countP_append, hc a]
        by_cases hap : a = p.ID
        · subst hap
          have hnot : ¬ (p.ID ∈ L.map (·.ID) ∧
              X ∉ heldBy (assignUnitStep noFaults now X σ st p) p.ID) :=
            fun h => h.2 ((hheld1 p.ID).2 (Or.inr rfl))
          rw [if_neg hnot]
          simp [he0.1, hheld]
        · have hiff : (a ∈ L.map (·.ID) ∧
              X ∉ heldBy (assignUnitStep noFaults now X σ st p) a) ↔
              (a ∈ (p :: L).map (·.ID) ∧ X ∉ heldBy st a) := by
            rw [hheld1 a]
            simp only [List.map_cons, List.mem_cons]
            tauto
          have hz : ([e0].countP fun e => e.StaffID == a) = 0 := by
            rw [List.countP_eq_zero]
            intro e he
            rw [List.mem_singleton] at he
            subst he
            simp only [beq_iff_eq, he0.1]
            exact fun h => hap h.symm
          rw [hz, zero_add]
          simp only [hiff]
      · simp [logKey, hl0.1, hl0.2.1, hl0.2.2, he0.1, hl]

theorem byUnit_eq (f : Faults) (now : Nat) (st : Store) (softwareID : Nat)
    (staffList : List Staff) (source : String) :
    AutoAssignSoftwareToStaffByUnit f now st softwareID staffList source =
      staffList.foldl (fun s p => assignUnitStep f now softwareID source s p) st := rfl

/-- Log rows and edges that pair off have the same number of rows per staff
member. -/
theorem countP_staff_of_paired (created : List AssignedSoftware)
    (newLogs : List SoftwareAssignmentLog) (X : Nat) (action : String)
    (h : newLogs.map logKey = created.map (fun e => (e.StaffID, X, action))) (a : Nat) :
    (newLogs.countP fun l => l.StaffID == a) = created.countP fun e => e.StaffID == a := by
  have h1 : (newLogs.countP fun l => l.StaffID == a) =
      (newLogs.map logKey).countP fun k => k.1 == a := by
    rw [List.countP_map]
    rfl
  have h2 : (created.countP fun e => e.StaffID == a) =
      (created.map (fun e => (e.StaffID, X, action))).countP fun k => k.1 == a := by
    rw [List.countP_map]
    rfl
  rw [h1, h2, h]

/-! ## C9: a new rule assigns only where the software is missing -/

/-- C9: for every store state, software X, non-empty source tag σ and staff
list L, with every store operation succeeding,
`AutoAssignSoftwareToStaffByUnit X L σ` keeps every row of the table as it was
and appends edges and log rows such that: afterwards every staff member of L
holds an edge for X; every created edge is (staff, X, σ) with staff in L and
every appended log row is an `Assigned` row for X; for each staff member of L
that held no edge for X exactly one edge is created and one log row appended;
and for each staff member that already held X no edge is created and no log
row appended. -/
theorem C9_ruleCreated_assigns_only_where_missing (now : Nat) (st : Store) (X : Nat)
    (L : List Staff) (σ : String) (hσ : σ ≠ "") :
    ∃ created newLogs,
      (AutoAssignSoftwareToStaffByUnit noFaults now st X L σ).assigned =
        st.assigned ++ created ∧
      (AutoAssignSoftwareToStaffByUnit noFaults now st X L σ).logs = st.logs ++ newLogs ∧
      (∀ p ∈ L, X ∈ heldBy (AutoAssignSoftwareToStaffByUnit noFaults now st X L σ) p.ID) ∧
      (∀ e ∈ created, e.SoftwareID = X ∧ e.Source = σ ∧ e.StaffID ∈ L.map (·.ID)) ∧
      (∀ l ∈ newLogs, l.SoftwareID = X ∧ l.Action = "Assigned") ∧
      (∀ p ∈ L, X ∉ heldBy st p.ID →
        (created.countP fun e => e.StaffID == p.ID) = 1 ∧
        (newLogs.countP fun l => l.StaffID == p.ID) = 1) ∧
      (∀ a, X ∈ heldBy st a →
        (created.countP fun e => e.StaffID == a) = 0 ∧
        (newLogs.countP fun l => l.StaffID == a) = 0) := by
  rw [byUnit_eq]
  obtain ⟨created, newLogs, ha, hs, hc, hl⟩ := assignUnitLoop_noFaults now X σ L st
  rw [sourceOrDefault_of_ne hσ] at hs
  have hlc := countP_staff_of_paired created newLogs X "Assigned" hl
  refine ⟨created, newLogs, ha.1, ha.2.1, ?_, ?_, ?_, ?_, ?_⟩
  · intro p hp
    by_cases hheld : X ∈ heldBy st p.ID
    · exact heldBy_mono ha hheld
    · have hcount := hc p.ID
      rw [if_pos ⟨List.mem_map.2 ⟨p, hp, rfl⟩, hheld⟩] at hcount
      have hpos : 0 < created.countP fun e => e.StaffID == p.ID := by
        rw [hcount]; exact Nat.one_pos
      obtain ⟨e, he, hes⟩ := List.countP_pos_iff.1 hpos
      rw [beq_iff_eq] at hes
      rw [mem_heldBy]
      exact ⟨e, by rw [ha.1]; exact List.mem_append_right _ he, hes, (hs e he).1⟩
  · intro e he
    refine ⟨(hs e he).1, (hs e he).2, ?_⟩
    have hpos : 0 < created.countP fun e' => e'.StaffID == e.StaffID :=
      List.countP_pos_iff.2 ⟨e, he, by simp⟩
    rw [hc] at hpos
    by_contra hn
    rw [if_neg (fun h => hn h.1)] at hpos
    exact Nat.lt_irrefl 0 hpos
  · intro l hl'
    have hmem : logKey l ∈ created.map (fun e => (e.StaffID, X, "Assigned")) := by
      rw [← hl]
      exact List.mem_map.2 ⟨l, hl', rfl⟩
    obtain ⟨e, -, hkey⟩ := List.mem_map.1 hmem
    simp only [logKey, Prod.mk.injEq] at hkey
    exact ⟨hkey.2.1.symm, hkey.2.2.symm⟩
  · intro p hp hheld
    have hcount := hc p.ID
    rw [if_pos ⟨List.mem_map.2 ⟨p, hp, rfl⟩, hheld⟩] at hcount
    exact ⟨hcount, by rw [hlc, hcount]⟩
  · intro a hheld
    have hcount := hc a
    rw [if_neg (fun h => h.2 hheld)] at hcount
    exact ⟨hcount, by rw [hlc, hcount]⟩

/-- C9 at `ruleCreatedStore` for a new department rule on software 7 and the
staff list [1, 2]: the tag `department` is not empty. -/
theorem C9_ruleCreated_assigns_only_where_missing_witness :
    "department" ≠ "" ∧
    ∃ created newLogs,
      (AutoAssignSoftwareToStaffByUnit noFaults 100 ruleCreatedStore 7
          [{ ID := 1 }, { ID := 2 }] "department").assigned =
        ruleCreatedStore.assigned ++ created ∧
      (AutoAssignSoftwareToStaffByUnit noFaults 100 ruleCreatedStore 7
          [{ ID := 1 }, { ID := 2 }] "department").logs = ruleCreatedStore.logs ++ newLogs ∧
      (∀ p ∈ ([{ ID := 1 }, { ID := 2 }] : List Staff),
        7 ∈ heldBy (AutoAssignSoftwareToStaffByUnit noFaults 100 ruleCreatedStore 7
          [{ ID := 1 }, { ID := 2 }] "department") p.ID) ∧
      (∀ e ∈ created, e.SoftwareID = 7 ∧ e.Source = "department" ∧
        e.StaffID ∈ ([{ ID := 1 }, { ID := 2 }] : List Staff).map (·.ID)) ∧
      (∀ l ∈ newLogs, l.SoftwareID = 7 ∧ l.Action = "Assigned") ∧
      (∀ p ∈ ([{ ID := 1 }, { ID := 2 }] : List Staff), 7 ∉ heldBy ruleCreatedStore p.ID →
        (created.countP fun e => e.StaffID == p.ID) = 1 ∧
        (newLogs.countP fun l => l.StaffID == p.ID) = 1) ∧
      (∀ a, 7 ∈ heldBy ruleCreatedStore a →
        (created.countP fun e => e.StaffID == a) = 0 ∧
        (newLogs.countP fun l => l.StaffID == a) = 0) :=
  ⟨by decide,
   C9_ruleCreated_assigns_only_where_missing 100 ruleCreatedStore 7
     [{ ID := 1 }, { ID := 2 }] "department" (by decide)⟩

/-! ## The primary key is kept by the engine -/

theorem lt_nextID (ids : List Nat) : ∀ x ∈ ids, x < nextID ids := by
  induction ids with
  | nil => intro x hx; cases hx
  | cons a l ih =>
    intro x hx
    simp only [nextID, List.foldr_cons] at ih ⊢
    rcases List.mem_cons.1 hx with h | h
    · subst h
      exact Nat.lt_succ_of_le (le_max_left _ _)
    · exact lt_of_lt_of_le (ih x h) (Nat.succ_le_succ (le_max_right _ _))

theorem primaryKeyValid_filter (tbl : List AssignedSoftware) (keep : AssignedSoftware → Bool)
    (h : PrimaryKeyValid tbl) : PrimaryKeyValid (tbl.filter keep) :=
  ⟨h.1.sublist ((List.filter_sublist tbl).map _),
   fun e he => h.2 e (List.mem_filter.1 he).1⟩

theorem createAssignedSoftware_primaryKey (f : Faults) (now : Nat) (st : Store)
    (staffID softwareID : Nat) (source : String) (h : PrimaryKeyValid st.assigned) :
    PrimaryKeyValid (createAssignedSoftware f now st staffID softwareID source).assigned := by
  unfold createAssignedSoftware
  split
  · exact h
  · refine ⟨?_, ?_⟩
    · simp only [List.map_append, List.map_cons, List.map_nil]
      rw [List.nodup_append]
      refine ⟨h.1, List.nodup_singleton _, ?_⟩
      intro x hx hx'
      rw [List.mem_singleton] at hx'
      exact absurd (lt_nextID _ x hx) (by rw [hx']; exact Nat.lt_irrefl _)
    · intro e he
      rcases List.mem_append.1 he with h' | h'
      · exact h.2 e h'
      · rw [List.mem_singleton] at h'
        subst h'
        exact Nat.succ_ne_zero _

theorem assignIfNotExists_primaryKey (f : Faults) (now staffID : Nat) (existing : List Nat)
    (st : Store) (softwareID : Nat) (source : String) (h : PrimaryKeyValid st.assigned) :
    PrimaryKeyValid
      (assignIfNotExists f now staffID existing st softwareID source).assigned := by
  unfold assignIfNotExists
  split
  · exact h
  · rw [logAssignmentChange_assigned]
    exact createAssignedSoftware_primaryKey f now st staffID softwareID source h

theorem revokeStep_primaryKey (f : Faults) (now : Nat) (source : String) (st : Store)
    (staffID softwareID : Nat) (h : PrimaryKeyValid st.assigned) :
    PrimaryKeyValid (revokeStep f now source st staffID softwareID).assigned := by
  rw [revokeStep_assigned]
  unfold deleteAssignedWhere
  split
  · exact h
  · exact primaryKeyValid_filter _ _ h

theorem offboardStep_primaryKey (f : Faults) (now : Nat) (st : Store) (a : AssignedSoftware)
    (h : PrimaryKeyValid st.assigned) :
    PrimaryKeyValid (offboardStep f now st a).assigned := by
  unfold offboardStep
  split
  · rw [logAssignmentChange_assigned]
    unfold deleteAssignedByID
    split
    · exact h
    · split
      · exact h
      · exact primaryKeyValid_filter _ _ h
  · exact h

theorem assignUnitStep_primaryKey (f : Faults) (now X : Nat) (σ : String) (st : Store)
    (p : Staff) (h : PrimaryKeyValid st.assigned) :
    PrimaryKeyValid (assignUnitStep f now X σ st p).assigned := by
  unfold assignUnitStep
  split
  · rw [logAssignmentChange_assigned]
    exact createAssignedSoftware_primaryKey f now st p.ID X σ h
  · exact h

/-- A property of the store kept by every step of the closure is kept by
`AutoAssignSoftwareToStaff`, whatever store call fails. -/
theorem autoAssign_keeps (P : Store → Prop) (f : Faults) (now : Nat) (st : Store)
    (staffID departmentID teamID : Nat)
    (hstep : ∀ (existing : List Nat) (s : Store) (c : Nat) (source : String),
      P s → P (assignIfNotExists f now staffID existing s c source))
    (h : P st) :
    P (AutoAssignSoftwareToStaff f now st staffID departmentID teamID).1 := by
  have step : ∀ (source : String) (β : Type) (sel : β → Nat) (xs : List β) (s : Store),
      P s →
      P (xs.foldl (fun s m => assignIfNotExists f now staffID
            ((st.assigned.filter fun e => e.StaffID == staffID).map (·.SoftwareID))
            s (sel m) source) s) := by
    intro source β sel xs s hs
    exact foldl_keeps P _ (fun s m h => hstep _ s (sel m) source h) xs s hs
  unfold AutoAssignSoftwareToStaff
  split
  · exact h
  · dsimp only
    split
    · exact h
    · split
      · exact step _ _ _ _ _ h
      · split
        · exact step _ _ _ _ _ (step _ _ _ _ _ h)
        · exact step _ _ _ _ _ (step _ _ _ _ _ (step _ _ _ _ _ h))

/-- A property of the store kept by every step of a revoking loop is kept by
`revokeSoftwareFromSource`, whatever store call fails. -/
theorem revokeSoftwareFromSource_keeps (P : Store → Prop) (f : Faults) (now : Nat)
    (st : Store) (staffID id : Nat) (source : String)
    (hstep : ∀ (s : Store) (sid : Nat), P s → P (revokeStep f now source s staffID sid))
    (h : P st) : P (revokeSoftwareFromSource f now st staffID id source) := by
  rw [revokeSoftwareFromSource_eq]
  exact foldl_keeps P _ hstep _ st h

/-- Every operation of the engine keeps the primary key of `assigned_software`
valid, whatever store call fails. -/
theorem engine_keeps_primaryKey (f : Faults) (now : Nat) (st : Store)
    (h : PrimaryKeyValid st.assigned) :
    (∀ staffID departmentID teamID, PrimaryKeyValid
      (AutoAssignSoftwareToStaff f now st staffID departmentID teamID).1.assigned) ∧
    (∀ staffID oldDeptID oldTeamID newDeptID newTeamID, PrimaryKeyValid
      (SyncSoftwareAssignmentsForStaff f now st staffID oldDeptID oldTeamID
        newDeptID newTeamID).1.assigned) ∧
    (∀ staffID, PrimaryKeyValid
      (RevokeSoftwareAssignmentsForStaff f now st staffID).1.assigned) ∧
    (∀ softwareID staffList source, PrimaryKeyValid
      (AutoAssignSoftwareToStaffByUnit f now st softwareID staffList source).assigned) ∧
    (∀ softwareID staffList source, PrimaryKeyValid
      (AutoRevokeSoftwareFromStaff f now st softwareID staffList source).assigned) := by
  refine ⟨?_, ?_, ?_, ?_, ?_⟩
  · intro staffID departmentID teamID
    exact autoAssign_keeps (fun s => PrimaryKeyValid s.assigned) f now st staffID
      departmentID teamID
      (fun existing s c source hs =>
        assignIfNotExists_primaryKey f now staffID existing s c source hs) h
  · intro staffID oldDeptID oldTeamID newDeptID newTeamID
    unfold SyncSoftwareAssignmentsForStaff
    dsimp only
    apply autoAssign_keeps (fun s => PrimaryKeyValid s.assigned)
    · exact fun existing s c source hs =>
        assignIfNotExists_primaryKey f now staffID existing s c source hs
    · apply revokeSoftwareFromSource_keeps (fun s => PrimaryKeyValid s.assigned)
      · exact fun s sid hs => revokeStep_primaryKey f now _ s staffID sid hs
      · apply revokeSoftwareFromSource_keeps (fun s => PrimaryKeyValid s.assigned)
        · exact fun s sid hs => revokeStep_primaryKey f now _ s staffID sid hs
        · exact h
  · intro staffID
    unfold RevokeSoftwareAssignmentsForStaff
    split
    · exact h
    · exact foldl_keeps (fun s => PrimaryKeyValid s.assigned)
        (fun s a => offboardStep f now s a)
        (fun s a hs => offboardStep_primaryKey f now s a hs) _ st h
  · intro softwareID staffList source
    rw [byUnit_eq]
    exact foldl_keeps (fun s => PrimaryKeyValid s.assigned) _
      (fun s p hs => assignUnitStep_primaryKey f now softwareID source s p hs) _ st h
  · intro softwareID staffList source
    rw [autoRevoke_eq]
    exact foldl_keeps (fun s => PrimaryKeyValid s.assigned) _
      (fun s p hs => revokeStep_primaryKey f now source s p.1 p.2 hs) _ st h

/-! ## One edge per pair: the operations that keep it -/

theorem oneEdgePerPair_of_sublist {st1 st2 : Store}
    (hsub : st2.assigned.Sublist st1.assigned) (h : OneEdgePerPair st1) :
    OneEdgePerPair st2 :=
  fun a b => le_trans (hsub.countP_le _) (h a b)

theorem revokeStep_sublist (f : Faults) (now : Nat) (source : String) (st : Store)
    (staffID softwareID : Nat) :
    (revokeStep f now source st staffID softwareID).assigned.Sublist st.assigned := by
  rw [revokeStep_assigned]
  unfold deleteAssignedWhere
  split
  · exact List.Sublist.refl _
  · exact List.filter_sublist _

theorem offboardStep_sublist (f : Faults) (now : Nat) (st : Store) (a : AssignedSoftware) :
    (offboardStep f now st a).assigned.Sublist st.assigned := by
  unfold offboardStep
  split
  · rw [logAssignmentChange_assigned]
    unfold deleteAssignedByID
    split
    · exact List.Sublist.refl _
    · split
      · exact List.Sublist.refl _
      · exact List.filter_sublist _
  · exact List.Sublist.refl _

/-- `AutoRevokeSoftwareFromStaff` and `RevokeSoftwareAssignmentsForStaff` only
delete, so they keep one edge per (staff, software) pair whatever store call
fails; `AutoAssignSoftwareToStaffByUnit` looks the pair up in the store before
each create, so it keeps it when the store does not fail. -/
theorem oneEdgePerPair_kept (f : Faults) (now : Nat) (st : Store)
    (h : OneEdgePerPair st) :
    (∀ softwareID staffList source, OneEdgePerPair
      (AutoRevokeSoftwareFromStaff f now st softwareID staffList source)) ∧
    (∀ staffID, OneEdgePerPair (RevokeSoftwareAssignmentsForStaff f now st staffID).1) ∧
    (∀ softwareID staffList source, OneEdgePerPair
      (AutoAssignSoftwareToStaffByUnit noFaults now st softwareID staffList source)) := by
  refine ⟨?_, ?_, ?_⟩
  · intro softwareID staffList source
    rw [autoRevoke_eq]
    refine oneEdgePerPair_of_sublist ?_ h
    exact foldl_keeps (fun s => s.assigned.Sublist st.assigned) _
      (fun s p hs => (revokeStep_sublist f now source s p.1 p.2).trans hs) _ st
      (List.Sublist.refl _)
  · intro staffID
    refine oneEdgePerPair_of_sublist ?_ h
    unfold RevokeSoftwareAssignmentsForStaff
    split
    · exact List.Sublist.refl _
    · exact foldl_keeps (fun s => s.assigned.Sublist st.assigned)
        (fun s a => offboardStep f now s a)
        (fun s a hs => (offboardStep_sublist f now s a).trans hs) _ st
        (List.Sublist.refl _)
  · intro X L σ a b
    rw [byUnit_eq]
    obtain ⟨created, newLogs, ha, hs, hc, -⟩ := assignUnitLoop_noFaults now X σ L st
    rw [ha.1, List.countP_append]
    by_cases hb : b = X
    · subst hb
      have hcr : (created.countP fun e => e.StaffID == a && e.SoftwareID == b) =
          created.countP fun e => e.StaffID == a := by
        apply List.countP_congr
        intro e he
        simp [(hs e he).1]
      rw [hcr, hc a]
      by_cases hheld : b ∈ heldBy st a
      · rw [if_neg (fun hn => hn.2 hheld), Nat.add_zero]
        exact h a b
      · have hz : (st.assigned.countP fun e => e.StaffID == a && e.SoftwareID == b) = 0 := by
          rw [List.countP_eq_zero]
          intro e he hcond
          simp only [Bool.and_eq_true, beq_iff_eq] at hcond
          exact hheld (mem_heldBy.2 ⟨e, he, hcond.1, hcond.2⟩)
        rw [hz, Nat.zero_add]
        split <;> simp
    · have hz : (created.countP fun e => e.StaffID == a && e.SoftwareID == b) = 0 := by
        rw [List.countP_eq_zero]
        intro e he hcond
        simp only [Bool.and_eq_true, beq_iff_eq] at hcond
        exact hb (hcond.2.symm.trans (hs e he).1)
      rw [hz, Nat.add_zero]
      exact h a b

/-! ## Instances of C5 and C10 -/

/-- C5 at `scopedRevokeStore`: moving staff member 1 from department 3 to
department 4 removes the edge (1, 7, department), which is in the scope the
claim gives. -/
theorem C5_sync_revocation_scoped_witness :
    (scopedRevokeEdge ∈ scopedRevokeStore.assigned ∧
      scopedRevokeEdge ∉
        (SyncSoftwareAssignmentsForStaff noFaults 100 scopedRevokeStore 1 3 0 4 0).1.assigned) ∧
    (SyncSoftwareAssignmentsForStaff noFaults 100 scopedRevokeStore 1 3 0 4 0).1.assigned.map
      edgeKey = [(1, 8, "manual"), (2, 7, "department")] ∧
    ∃ m ∈ scopedRevokeStore.deptMatches, m.DepartmentID = 3 ∧ m.SoftwareID = 7 := by
  refine ⟨⟨by decide, by decide⟩, by decide, ?_⟩
  have h := (C5_sync_revocation_scoped noFaults 100 scopedRevokeStore 1 3 0 4 0).1
    scopedRevokeEdge (by decide) (by decide)
  rcases h.2 with hd | ht
  · exact hd.2
  · exact absurd ht.1 (by decide)

/-- C10 at `ruleDeletedStore` for the staff list [1, 3]: the edge
(1, 7, department) is the only one removed. -/
theorem C10_autoRevoke_removes_exactly_scoped_edges_witness :
    (AutoRevokeSoftwareFromStaff noFaults 100 ruleDeletedStore 7
        [{ ID := 1 }, { ID := 3 }] "department").assigned.map edgeKey =
      [(2, 7, "department"), (3, 7, "manual"), (1, 8, "department")] := by
  rw [(C10_autoRevoke_removes_exactly_scoped_edges 100 ruleDeletedStore 7
    [{ ID := 1 }, { ID := 3 }] "department").1]
  decide

/-! ## C16: the audit logger -/

/-- C16: when its insert succeeds, `logAssignmentChange staffID softwareID action`
appends exactly one log row, whose `StaffID`, `SoftwareID` and `Action` are the
arguments, whose `ChangedBy` is 0 and whose `ChangedAt` equals its `UpdatedAt`;
the rows that were in the log stay as they were, in front of the new one, and
every other table is unchanged. -/
theorem C16_logAssignmentChange_appends_one_system_row (f : Faults) (now : Nat) (st : Store)
    (staffID softwareID : Nat) (action : String)
    (hok : f (.createLog staffID softwareID action) = false) :
    (∃ row : SoftwareAssignmentLog,
      (logAssignmentChange f now st staffID softwareID action).logs = st.logs ++ [row] ∧
      row.StaffID = staffID ∧ row.SoftwareID = softwareID ∧ row.Action = action ∧
      row.ChangedBy = 0 ∧ row.ChangedAt = row.UpdatedAt) ∧
    (logAssignmentChange f now st staffID softwareID action).assigned = st.assigned ∧
    (logAssignmentChange f now st staffID softwareID action).deptMatches = st.deptMatches ∧
    (logAssignmentChange f now st staffID softwareID action).teamMatches = st.teamMatches ∧
    (logAssignmentChange f now st staffID softwareID action).orgMatches = st.orgMatches ∧
    (logAssignmentChange f now st staffID softwareID action).staff = st.staff ∧
    (logAssignmentChange f now st staffID softwareID action).software = st.software ∧
    (logAssignmentChange f now st staffID softwareID action).softwareAssignments =
      st.softwareAssignments := by
  have h : logAssignmentChange f now st staffID softwareID action =
      { st with
        logs := st.logs ++
          [{ ID := nextID (st.logs.map (·.ID)), StaffID := staffID,
             SoftwareID := softwareID, Action := action, ChangedBy := 0,
             ChangedAt := now, UpdatedAt := now }] } := by
    simp [logAssignmentChange, hok]
  rw [h]
  exact ⟨⟨_, rfl, rfl, rfl, rfl, rfl, rfl⟩, rfl, rfl, rfl, rfl, rfl, rfl, rfl⟩

/-- C16 at the empty store, every store operation succeeding. -/
theorem C16_logAssignmentChange_appends_one_system_row_witness :
    noFaults (.createLog 1 7 "Assigned") = false ∧
    ∃ row : SoftwareAssignmentLog,
      (logAssignmentChange noFaults 100 {} 1 7 "Assigned").logs = ({} : Store).logs ++ [row] ∧
      row.StaffID = 1 ∧ row.SoftwareID = 7 ∧ row.Action = "Assigned" ∧
      row.ChangedBy = 0 ∧ row.ChangedAt = row.UpdatedAt :=
  ⟨rfl, (C16_logAssignmentChange_appends_one_system_row noFaults 100 {} 1 7 "Assigned"
    rfl).1⟩

/-! ## C14: reads and writes of `AutoAssignSoftwareToStaff` -/

/-- C14, as stated, fails: in `partialWriteStore`, when the read of the team
rules fails, `AutoAssignSoftwareToStaff 1 3 4` returns that error after it has
created the edge (1, 7, department) and appended its log row. -/
theorem C14_autoAssign_writes_before_failing_read :
    (AutoAssignSoftwareToStaff teamReadFails 100 partialWriteStore 1 3 4).2 =
      some (DBOp.findTeamMatches 4) ∧
    (AutoAssignSoftwareToStaff teamReadFails 100 partialWriteStore 1 3 4).1.assigned.map
      edgeKey = [(1, 7, "department")] ∧
    (AutoAssignSoftwareToStaff teamReadFails 100 partialWriteStore 1 3 4).1.logs.map
      logKey = [(1, 7, "Assigned")] ∧
    partialWriteStore.assigned = [] ∧ partialWriteStore.logs = [] := by
  decide

/-- C14, amended: `AutoAssignSoftwareToStaff` returns an error exactly when one
of its four reads fails. When the read of the current assignments or the read
of the department rules fails, the store is as it was before the call: no edge
and no log row has been created. When the read of the team rules fails, the
store is the one the loop over the department rules left; when the read of the
organization rules fails, the one the loops over the department and team rules
left: those writes are kept. -/
theorem C14_autoAssign_read_failures_amended (f : Faults) (now : Nat) (st : Store)
    (staffID departmentID teamID : Nat) :
    ((AutoAssignSoftwareToStaff f now st staffID departmentID teamID).2 ≠ none ↔
      (f (.pluckAssignedSoftwareIDs staffID) = true ∨
       f (.findDepartmentMatches departmentID) = true ∨
       f (.findTeamMatches teamID) = true ∨ f .findOrganizationMatches = true)) ∧
    (f (.pluckAssignedSoftwareIDs staffID) = true ∨
        f (.findDepartmentMatches departmentID) = true →
      (AutoAssignSoftwareToStaff f now st staffID departmentID teamID).1 = st) ∧
    (f (.pluckAssignedSoftwareIDs staffID) = false →
      f (.findDepartmentMatches departmentID) = false →
      f (.findTeamMatches teamID) = true →
      (AutoAssignSoftwareToStaff f now st staffID departmentID teamID).1 =
        (st.deptMatches.filter fun m => m.DepartmentID == departmentID).foldl
          (fun s m => assignIfNotExists f now staffID (heldBy st staffID) s m.SoftwareID
            SourceDepartment) st) ∧
    (f (.pluckAssignedSoftwareIDs staffID) = false →
      f (.findDepartmentMatches departmentID) = false →
      f (.findTeamMatches teamID) = false →
      f .findOrganizationMatches = true →
      (AutoAssignSoftwareToStaff f now st staffID departmentID teamID).1 =
        (((st.deptMatches.filter fun m => m.DepartmentID == departmentID).foldl
          (fun s m => assignIfNotExists f now staffID (heldBy st staffID) s m.SoftwareID
            SourceDepartment) st).teamMatches.filter fun m => m.TeamID == teamID).foldl
          (fun s m => assignIfNotExists f now staffID (heldBy st staffID) s m.SoftwareID
            SourceTeam)
          ((st.deptMatches.filter fun m => m.DepartmentID == departmentID).foldl
            (fun s m => assignIfNotExists f now staffID (heldBy st staffID) s m.SoftwareID
              SourceDepartment) st)) := by
  refine ⟨?_, ?_, ?_, ?_⟩
  · unfold AutoAssignSoftwareToStaff
    by_cases h1 : f (.pluckAssignedSoftwareIDs staffID) = true
    · simp [h1]
    · by_cases h2 : f (.findDepartmentMatches departmentID) = true
      · simp [h1, h2]
      · by_cases h3 : f (.findTeamMatches teamID) = true
        · simp [h1, h2, h3]
        · by_cases h4 : f .findOrganizationMatches = true
          · simp [h1, h2, h3, h4]
          · simp [h1, h2, h3, h4]
  · intro h
    unfold AutoAssignSoftwareToStaff
    by_cases h1 : f (.pluckAssignedSoftwareIDs staffID) = true
    · simp [h1]
    · rcases h with h | h
      · exact absurd h h1
      · simp [h1, h]
  · intro h1 h2 h3
    simp [AutoAssignSoftwareToStaff, h1, h2, h3, heldBy]
  · intro h1 h2 h3 h4
    simp [AutoAssignSoftwareToStaff, h1, h2, h3, h4, heldBy]

/-- C14, amended, at `partialWriteStore` when the read of the current
assignments fails: nothing is written. -/
theorem C14_autoAssign_read_failures_amended_witness :
    (AutoAssignSoftwareToStaff (fun op => op == DBOp.pluckAssignedSoftwareIDs 1) 100
      partialWriteStore 1 3 4).1 = partialWriteStore :=
  (C14_autoAssign_read_failures_amended (fun op => op == DBOp.pluckAssignedSoftwareIDs 1) 100
    partialWriteStore 1 3 4).2.1 (Or.inl (by decide))

/-! ## The bulk loops, staff member by staff member -/

theorem edgesOf_logAssignmentChange (f : Faults) (now : Nat) (st : Store)
    (staffID softwareID : Nat) (action : String) (a : Nat) :
    edgesOf (logAssignmentChange f now st staffID softwareID action) a = edgesOf st a := by
  simp [edgesOf, logAssignmentChange_assigned]

theorem edgesOf_createAssignedSoftware (f : Faults) (now : Nat) (st : Store)
    (staffID softwareID : Nat) (source : String) (a : Nat) :
    edgesOf (createAssignedSoftware f now st staffID softwareID source) a =
      if f (.createAssigned staffID softwareID source) = true then edgesOf st a
      else if staffID = a then
        edgesOf st a ++ [(staffID, softwareID, sourceOrDefault source)]
      else edgesOf st a := by
  unfold createAssignedSoftware
  by_cases hf : f (.createAssigned staffID softwareID source) = true
  · simp [hf]
  · by_cases ha : staffID = a
    · subst ha
      simp [hf, edgesOf, List.filter_append, edgeKey]
    · simp [hf, ha, edgesOf, List.filter_append]

theorem firstAssignedErr_eq_edgesOf (f : Faults) (st : Store) (a X : Nat) :
    firstAssignedErr f st a X =
      (f (.firstAssigned a X) || !((edgesOf st a).any fun k => k.2.1 == X)) := by
  have hany : (st.assigned.any fun e => e.StaffID == a && e.SoftwareID == X) =
      ((edgesOf st a).any fun k => k.2.1 == X) := by
    rw [Bool.eq_iff_iff, List.any_eq_true, List.any_eq_true]
    constructor
    · rintro ⟨e, he, hc⟩
      simp only [Bool.and_eq_true, beq_iff_eq] at hc
      refine ⟨edgeKey e, List.mem_map.2 ⟨e, List.mem_filter.2 ⟨he, ?_⟩, rfl⟩, ?_⟩
      · simp [hc.1]
      · simp [edgeKey, hc.2]
    · rintro ⟨k, hk, hc⟩
      obtain ⟨e, he, rfl⟩ := List.mem_map.1 hk
      rw [List.mem_filter, beq_iff_eq] at he
      rw [beq_iff_eq] at hc
      refine ⟨e, he.1, ?_⟩
      simp only [Bool.and_eq_true, beq_iff_eq]
      exact ⟨he.2, hc⟩
  unfold firstAssignedErr
  rw [hany]
  by_cases hf : f (.firstAssigned a X) = true
  · simp [hf]
  · simp [hf]

/-- What one step of `AutoAssignSoftwareToStaffByUnit` does to the edges of a
staff member: nothing when the step is for somebody else; otherwise it depends
only on the edges of that staff member and on whether the lookup and the insert
for that staff member fail. -/
theorem edgesOf_assignUnitStep (f : Faults) (now X : Nat) (σ : String) (st : Store)
    (p : Staff) (a : Nat) :
    edgesOf (assignUnitStep f now X σ st p) a =
      if p.ID = a then
        (if (f (.firstAssigned a X) || !((edgesOf st a).any fun k => k.2.1 == X)) = true then
          (if f (.createAssigned a X σ) = true then edgesOf st a
            else edgesOf st a ++ [(a, X, sourceOrDefault σ)])
          else edgesOf st a)
      else edgesOf st a := by
  unfold assignUnitStep
  by_cases hp : p.ID = a
  · subst hp
    rw [firstAssignedErr_eq_edgesOf, if_pos rfl]
    split
    · rw [edgesOf_logAssignmentChange, edgesOf_createAssignedSoftware]
      simp
    · rfl
  · rw [if_neg hp]
    split
    · rw [edgesOf_logAssignmentChange, edgesOf_createAssignedSoftware]
      simp [hp]
    · rfl

/-- Two runs of the loop of `AutoAssignSoftwareToStaffByUnit` that start with
the same edges for a staff member, under faults that agree on the lookup and
the insert for that staff member, end with the same edges for that staff
member. -/
theorem edgesOf_assignUnitLoop_congr (f g : Faults) (now X : Nat) (σ : String) (a : Nat)
    (h1 : f (.firstAssigned a X) = g (.firstAssigned a X))
    (h2 : f (.createAssigned a X σ) = g (.createAssigned a X σ))
    (L : List Staff) (st1 st2 : Store) (h : edgesOf st1 a = edgesOf st2 a) :
    edgesOf (L.foldl (fun s p => assignUnitStep f now X σ s p) st1) a =
      edgesOf (L.foldl (fun s p => assignUnitStep g now X σ s p) st2) a := by
  induction L generalizing st1 st2 with
  | nil => exact h
  | cons p L ih =>
    simp only [List.foldl_cons]
    apply ih
    rw [edgesOf_assignUnitStep, edgesOf_assignUnitStep, h, h1, h2]

theorem edgesOf_revokeStep (f : Faults) (now : Nat) (σ : String) (st : Store)
    (p X a : Nat) :
    edgesOf (revokeStep f now σ st p X) a =
      if p = a then
        (if f (.deleteAssignedWhere a X σ) = true then edgesOf st a
          else (edgesOf st a).filter fun k => !(k.2.1 == X && k.2.2 == σ))
      else edgesOf st a := by
  unfold edgesOf
  rw [revokeStep_assigned]
  unfold deleteAssignedWhere
  by_cases hp : p = a
  · subst hp
    rw [if_pos rfl]
    by_cases hf : f (.deleteAssignedWhere p X σ) = true
    · simp [hf]
    · simp only [hf, Bool.false_eq_true, if_false, List.filter_filter, List.filter_map]
      congr 1
      apply List.filter_congr
      intro e _
      by_cases he : e.StaffID = p
      · simp [he, edgeKey, Function.comp]
      · have hb : (e.StaffID == p) = false := by simpa using he
        simp [hb]
  · rw [if_neg hp]
    by_cases hf : f (.deleteAssignedWhere p X σ) = true
    · simp [hf]
    · simp only [hf, Bool.false_eq_true, if_false, List.filter_filter]
      congr 1
      apply List.filter_congr
      intro e _
      by_cases he : e.StaffID = a
      · have hb1 : (e.StaffID == a) = true := by simpa using he
        have hb2 : (e.StaffID == p) = false := by
          rw [beq_eq_false_iff_ne]
          exact fun h => hp (h.symm.trans he)
        simp [hb1, hb2]
      · have hb : (e.StaffID == a) = false := by simpa using he
        simp [hb]

/-- Two runs of a revoking loop over staff members that start with the same
edges for a staff member, under faults that agree on the delete for that staff
member, end with the same edges for that staff member. -/
theorem edgesOf_revokeLoop_congr (f g : Faults) (now X : Nat) (σ : String) (a : Nat)
    (h1 : f (.deleteAssignedWhere a X σ) = g (.deleteAssignedWhere a X σ))
    (L : List Staff) (st1 st2 : Store) (h : edgesOf st1 a = edgesOf st2 a) :
    edgesOf (L.foldl (fun s p => revokeStep f now σ s p.ID X) st1) a =
      edgesOf (L.foldl (fun s p => revokeStep g now σ s p.ID X) st2) a := by
  induction L generalizing st1 st2 with
  | nil => exact h
  | cons p L ih =>
    simp only [List.foldl_cons]
    apply ih
    rw [edgesOf_revokeStep, edgesOf_revokeStep, h, h1]

theorem withSuccess_of_ne (f : Faults) (op o : DBOp) (h : o ≠ op) :
    withSuccess f op o = f o := by
  simp [withSuccess, h]

/-! ## C20: the bulk paths are not short-circuited -/

/-- C20: for every staff list `L1 ++ s :: L2` and whatever store calls fail (in
particular the insert, respectively the delete, for `s`), the loop of
`AutoAssignSoftwareToStaffByUnit`, respectively of
`AutoRevokeSoftwareFromStaff`, goes on through `L2` from the store the step for
`s` left, and every staff member other than `s` ends up with the same edges as
in the run in which the write for `s` succeeds. -/
theorem C20_bulk_paths_not_short_circuited (f : Faults) (now : Nat) (st : Store) (X : Nat)
    (σ : String) (L1 : List Staff) (s : Staff) (L2 : List Staff) (a : Nat)
    (ha : a ≠ s.ID) :
    AutoAssignSoftwareToStaffByUnit f now st X (L1 ++ s :: L2) σ =
      AutoAssignSoftwareToStaffByUnit f now
        (AutoAssignSoftwareToStaffByUnit f now st X (L1 ++ [s]) σ) X L2 σ ∧
    edgesOf (AutoAssignSoftwareToStaffByUnit f now st X (L1 ++ s :: L2) σ) a =
      edgesOf (AutoAssignSoftwareToStaffByUnit
        (withSuccess f (.createAssigned s.ID X σ)) now st X (L1 ++ s :: L2) σ) a ∧
    AutoRevokeSoftwareFromStaff f now st X (L1 ++ s :: L2) σ =
      AutoRevokeSoftwareFromStaff f now
        (AutoRevokeSoftwareFromStaff f now st X (L1 ++ [s]) σ) X L2 σ ∧
    edgesOf (AutoRevokeSoftwareFromStaff f now st X (L1 ++ s :: L2) σ) a =
      edgesOf (AutoRevokeSoftwareFromStaff
        (withSuccess f (.deleteAssignedWhere s.ID X σ)) now st X (L1 ++ s :: L2) σ) a := by
  refine ⟨?_, ?_, ?_, ?_⟩
  · simp [AutoAssignSoftwareToStaffByUnit, List.foldl_append]
  · rw [byUnit_eq, byUnit_eq]
    apply edgesOf_assignUnitLoop_congr
    · rw [withSuccess_of_ne]
      intro h
      cases h
    · rw [withSuccess_of_ne]
      intro h
      injection h with h1
      exact ha h1
    · rfl
  · simp [AutoRevokeSoftwareFromStaff, List.foldl_append]
  · have e1 : ∀ g : Faults, AutoRevokeSoftwareFromStaff g now st X (L1 ++ s :: L2) σ =
        (L1 ++ s :: L2).foldl (fun s' p => revokeStep g now σ s' p.ID X) st := fun _ => rfl
    rw [e1, e1]
    apply edgesOf_revokeLoop_congr
    · rw [withSuccess_of_ne]
      intro h
      injection h with h1
      exact ha h1
    · rfl

/-- C20 for the staff list [1, 2] when the insert for staff member 1 fails:
staff member 2 gets the edge all the same. -/
theorem C20_bulk_paths_not_short_circuited_witness :
    (2 : Nat) ≠ ({ ID := 1 } : Staff).ID ∧
    edgesOf (AutoAssignSoftwareToStaffByUnit createForOneFails 100 {} 7
      ([] ++ { ID := 1 } :: [{ ID := 2 }]) "department") 2 = [(2, 7, "department")] ∧
    edgesOf (AutoAssignSoftwareToStaffByUnit createForOneFails 100 {} 7
      ([] ++ { ID := 1 } :: [{ ID := 2 }]) "department") 2 =
      edgesOf (AutoAssignSoftwareToStaffByUnit
        (withSuccess createForOneFails (.createAssigned ({ ID := 1 } : Staff).ID 7 "department"))
        100 {} 7 ([] ++ { ID := 1 } :: [{ ID := 2 }]) "department") 2 :=
  ⟨by decide, by decide,
   (C20_bulk_paths_not_short_circuited createForOneFails 100 {} 7 "department" []
     { ID := 1 } [{ ID := 2 }] 2 (by decide)).2.1⟩

/-! ## Audit pairing -/

theorem DeletePaired.of_same (st : Store) : DeletePaired st st :=
  ⟨[], [], by simp, by simp, by simp, List.Perm.refl _⟩

theorem DeletePaired.thenPaired {st1 st2 st3 : Store} (h1 : DeletePaired st1 st2)
    (h2 : DeletePaired st2 st3) : DeletePaired st1 st3 := by
  obtain ⟨d1, l1, hp1, hl1, ha1, hq1⟩ := h1
  obtain ⟨d2, l2, hp2, hl2, ha2, hq2⟩ := h2
  refine ⟨d2 ++ d1, l1 ++ l2, ?_, ?_, ?_, ?_⟩
  · refine hp1.trans ?_
    rw [← List.append_assoc]
    exact List.Perm.append_right d1 hp2
  · rw [hl2, hl1, List.append_assoc]
  · intro l hl
    rcases List.mem_append.1 hl with h | h
    · exact ha1 l h
    · exact ha2 l h
  · rw [List.map_append, List.map_append]
    exact (List.Perm.append hq1 hq2).trans List.perm_append_comm

/-- An operation that first deletes with pairing and then creates with pairing
is audit-paired. -/
theorem AuditPaired.of_delete_create {st1 st2 st3 : Store} (h1 : DeletePaired st1 st2)
    (h2 : CreatePaired st2 st3) : AuditPaired st1 st3 := by
  obtain ⟨deleted, unLogs, hp, hl1, ha1, hq1⟩ := h1
  obtain ⟨created, asLogs, hc, hl2, ha2, hq2⟩ := h2
  exact ⟨st2.assigned, deleted, created, unLogs, asLogs, hp, hc, by rw [hl2, hl1],
    ha1, ha2, hq1, hq2⟩

theorem CreatePaired.of_unchanged (st : Store) : CreatePaired st st :=
  ⟨[], [], by simp, by simp, by simp, List.Perm.refl _⟩

/-- `AutoAssignSoftwareToStaff` creates with pairing when the store does not
fail. -/
theorem autoAssign_createPaired (now : Nat) (st : Store) (staffID departmentID teamID : Nat) :
    CreatePaired st
      (AutoAssignSoftwareToStaff noFaults now st staffID departmentID teamID).1 := by
  obtain ⟨-, created, newLogs, ha, hk, hl⟩ :=
    autoAssign_appends now st staffID departmentID teamID
  refine ⟨created, newLogs, ha.1, ha.2.1, ?_, ?_⟩
  · intro l hmem
    have : logKey l ∈ newLogs.map logKey := List.mem_map.2 ⟨l, hmem, rfl⟩
    rw [hl] at this
    obtain ⟨c, -, hc⟩ := List.mem_map.1 this
    simp only [logKey, Prod.mk.injEq] at hc
    exact hc.2.2.symm
  · have h1 : newLogs.map logPair = (newLogs.map logKey).map fun k => (k.1, k.2.1) := by
      rw [List.map_map]
      rfl
    have h2 : created.map pairOf = (created.map edgeKey).map fun k => (k.1, k.2.1) := by
      rw [List.map_map]
      rfl
    rw [h1, h2, hl, hk, List.map_map, List.map_map]
    exact List.Perm.refl _

/-- `AutoAssignSoftwareToStaffByUnit` creates with pairing when the store does
not fail. -/
theorem byUnit_createPaired (now : Nat) (st : Store) (X : Nat) (L : List Staff)
    (σ : String) :
    CreatePaired st (AutoAssignSoftwareToStaffByUnit noFaults now st X L σ) := by
  rw [byUnit_eq]
  obtain ⟨created, newLogs, ha, hs, -, hl⟩ := assignUnitLoop_noFaults now X σ L st
  refine ⟨created, newLogs, ha.1, ha.2.1, ?_, ?_⟩
  · intro l hmem
    have : logKey l ∈ newLogs.map logKey := List.mem_map.2 ⟨l, hmem, rfl⟩
    rw [hl] at this
    obtain ⟨c, -, hc⟩ := List.mem_map.1 this
    simp only [logKey, Prod.mk.injEq] at hc
    exact hc.2.2.symm
  · have h1 : newLogs.map logPair = (newLogs.map logKey).map fun k => (k.1, k.2.1) := by
      rw [List.map_map]
      rfl
    have h2 : created.map pairOf = created.map fun e => (e.StaffID, X) := by
      apply List.map_congr_left
      intro e he
      simp [pairOf, (hs e he).1]
    rw [h1, h2, hl, List.map_map]
    exact List.Perm.refl _

/-- In a table with one edge per (staff, software, source), at most one edge
has a given triple. -/
theorem countP_triple_le_one (tbl : List AssignedSoftware) (h : OneEdgePerTriple tbl)
    (a b : Nat) (σ : String) :
    (tbl.countP fun e => e.StaffID == a && e.SoftwareID == b && e.Source == σ) ≤ 1 := by
  induction tbl with
  | nil => simp
  | cons e tbl ih =>
    unfold OneEdgePerTriple at h ih
    rw [List.map_cons, List.nodup_cons] at h
    rw [List.countP_cons]
    by_cases he : (e.StaffID == a && e.SoftwareID == b && e.Source == σ) = true
    · have hz : (tbl.countP fun e => e.StaffID == a && e.SoftwareID == b && e.Source == σ) = 0 := by
        rw [List.countP_eq_zero]
        intro e' hmem hc
        apply h.1
        simp only [Bool.and_eq_true, beq_iff_eq] at he hc
        refine List.mem_map.2 ⟨e', hmem, ?_⟩
        simp only [edgeKey, Prod.mk.injEq]
        exact ⟨hc.1.1.trans he.1.1.symm, hc.1.2.trans he.1.2.symm, hc.2.trans he.2.symm⟩
      rw [hz, if_pos he]
    · rw [if_neg he, Nat.add_zero]
      exact ih h.2

/-- In a table with one edge per (staff, software, source), the number of edges
with a given triple is one when there is such an edge and zero otherwise. -/
theorem countP_triple_of_nodup (tbl : List AssignedSoftware) (h : OneEdgePerTriple tbl)
    (a b : Nat) (σ : String) :
    (tbl.countP fun e => e.StaffID == a && e.SoftwareID == b && e.Source == σ) =
      if hasEdge tbl a b σ = true then 1 else 0 := by
  have hle := countP_triple_le_one tbl h a b σ
  by_cases he : hasEdge tbl a b σ = true
  · rw [if_pos he]
    have hpos : 0 < tbl.countP fun e =>
        e.StaffID == a && e.SoftwareID == b && e.Source == σ := by
      rw [List.countP_pos_iff]
      simpa [hasEdge] using he
    omega
  · rw [if_neg he, List.countP_eq_zero]
    intro e hmem hc
    exact he (List.any_eq_true.2 ⟨e, hmem, hc⟩)

theorem oneEdgePerTriple_filter (tbl : List AssignedSoftware) (keep : AssignedSoftware → Bool)
    (h : OneEdgePerTriple tbl) : OneEdgePerTriple (tbl.filter keep) :=
  List.Nodup.sublist ((List.filter_sublist tbl).map _) h

/-- One step of a revoking loop deletes with pairing when the store does not
fail and the table has one edge per (staff, software, source). -/
theorem revokeStep_deletePaired (now : Nat) (σ : String) (st : Store) (a b : Nat)
    (huniq : OneEdgePerTriple st.assigned) :
    DeletePaired st (revokeStep noFaults now σ st a b) ∧
    OneEdgePerTriple (revokeStep noFaults now σ st a b).assigned := by
  obtain ⟨newLogs, hl, hk, hlen⟩ := revokeStep_noFaults_logs now σ st a b
  have hA := revokeStep_noFaults_assigned now σ st a b
  refine ⟨⟨st.assigned.filter fun e =>
      !(!(e.StaffID == a && e.SoftwareID == b && e.Source == σ)), newLogs, ?_, hl, ?_, ?_⟩, ?_⟩
  · rw [hA]
    exact (List.filter_append_perm _ _).symm
  · intro l h
    have := (hk l h).1
    simp only [logKey, Prod.mk.injEq] at this
    exact this.2.2
  · have h1 : newLogs.map logPair = List.replicate newLogs.length (a, b) := by
      rw [List.eq_replicate_iff]
      refine ⟨by simp, ?_⟩
      intro k hk'
      obtain ⟨l, hmem, rfl⟩ := List.mem_map.1 hk'
      have := (hk l hmem).1
      simp only [logKey, Prod.mk.injEq] at this
      simp [logPair, this.1, this.2.1]
    have h2 : (st.assigned.filter fun e =>
        !(!(e.StaffID == a && e.SoftwareID == b && e.Source == σ))).map pairOf =
        List.replicate newLogs.length (a, b) := by
      rw [List.eq_replicate_iff]
      constructor
      · rw [List.length_map, hlen, ← countP_triple_of_nodup _ huniq, List.countP_eq_length_filter]
        congr 1
        apply List.filter_congr
        intro e _
        simp
      · intro k hk'
        obtain ⟨e, hmem, rfl⟩ := List.mem_map.1 hk'
        have := (List.mem_filter.1 hmem).2
        simp only [Bool.not_not, Bool.and_eq_true, beq_iff_eq] at this
        simp [pairOf, this.1.1, this.1.2]
    rw [h1, h2]
  · rw [hA]
    exact oneEdgePerTriple_filter _ _ huniq

/-- A revoking loop over (staff, software) pairs deletes with pairing when the
store does not fail and the table has one edge per (staff, software, source);
the table it leaves has one edge per triple too. -/
theorem revokePairs_deletePaired (now : Nat) (σ : String) (ps : List (Nat × Nat))
    (st : Store) (huniq : OneEdgePerTriple st.assigned) :
    DeletePaired st (ps.foldl (fun s p => revokeStep noFaults now σ s p.1 p.2) st) ∧
    OneEdgePerTriple (ps.foldl (fun s p => revokeStep noFaults now σ s p.1 p.2) st).assigned := by
  induction ps generalizing st with
  | nil => exact ⟨DeletePaired.of_same st, huniq⟩
  | cons p ps ih =>
    simp only [List.foldl_cons]
    obtain ⟨h1, hu1⟩ := revokeStep_deletePaired now σ st p.1 p.2 huniq
    obtain ⟨h2, hu2⟩ := ih (revokeStep noFaults now σ st p.1 p.2) hu1
    exact ⟨h1.thenPaired h2, hu2⟩

/-- `AutoRevokeSoftwareFromStaff` deletes with pairing when the store does not
fail and the table has one edge per (staff, software, source). -/
theorem autoRevoke_deletePaired (now : Nat) (st : Store) (X : Nat) (L : List Staff)
    (σ : String) (huniq : OneEdgePerTriple st.assigned) :
    DeletePaired st (AutoRevokeSoftwareFromStaff noFaults now st X L σ) := by
  rw [autoRevoke_eq]
  exact (revokePairs_deletePaired now σ _ st huniq).1

/-- `revokeSoftwareFromSource` deletes with pairing when the store does not
fail and the table has one edge per (staff, software, source). -/
theorem revokeSoftwareFromSource_deletePaired (now : Nat) (st : Store) (staffID id : Nat)
    (source : String) (huniq : OneEdgePerTriple st.assigned) :
    DeletePaired st (revokeSoftwareFromSource noFaults now st staffID id source) ∧
    OneEdgePerTriple (revokeSoftwareFromSource noFaults now st staffID id source).assigned := by
  rw [revokeSoftwareFromSource_noFaults_eq]
  exact revokePairs_deletePaired now source _ st huniq

/-- `RevokeSoftwareAssignmentsForStaff` deletes with pairing when the store does
not fail and the primary key of `assigned_software` is valid. -/
theorem revokeAll_deletePaired (now : Nat) (st : Store) (s : Nat)
    (hpk : PrimaryKeyValid st.assigned) :
    DeletePaired st (RevokeSoftwareAssignmentsForStaff noFaults now st s).1 := by
  rw [revokeAll_noFaults_eq]
  dsimp only
  obtain ⟨hA, -, -, -, newLogs, hL, -, hK⟩ := offboardLoop_noFaults now
    (st.assigned.filter fun e => e.StaffID == s) st
    (fun a ha => hpk.2 a (List.mem_filter.1 ha).1)
  have hinj := List.inj_on_of_nodup_map hpk.1
  have hids : ∀ e ∈ st.assigned,
      (e.ID ∈ ((st.assigned.filter fun e => e.StaffID == s).filter
          fun a => isAutoAssigned a.Source).map (·.ID)) ↔
        (e.StaffID = s ∧ isAutoAssigned e.Source = true) := by
    intro e he
    simp only [List.mem_map, List.mem_filter, beq_iff_eq]
    constructor
    · rintro ⟨a, ⟨⟨ha, has⟩, hauto⟩, haid⟩
      have : a = e := hinj ha he haid
      subst this
      exact ⟨has, hauto⟩
    · rintro ⟨hs, hauto⟩
      exact ⟨e, ⟨⟨he, hs⟩, hauto⟩, rfl⟩
  refine ⟨st.assigned.filter fun e => !decide (e.ID ∉
      ((st.assigned.filter fun e => e.StaffID == s).filter
        fun a => isAutoAssigned a.Source).map (·.ID)), newLogs, ?_, hL, ?_, ?_⟩
  · rw [hA]
    exact (List.filter_append_perm _ _).symm
  · intro l hmem
    have : logKey l ∈ newLogs.map logKey := List.mem_map.2 ⟨l, hmem, rfl⟩
    rw [hK] at this
    obtain ⟨c, -, hc⟩ := List.mem_map.1 this
    simp only [logKey, Prod.mk.injEq] at hc
    exact hc.2.2.symm
  · have h1 : newLogs.map logPair = (newLogs.map logKey).map fun k => (k.1, k.2.1) := by
      rw [List.map_map]
      rfl
    have h2 : (st.assigned.filter fun e => !decide (e.ID ∉
        ((st.assigned.filter fun e => e.StaffID == s).filter
          fun a => isAutoAssigned a.Source).map (·.ID))) =
        (st.assigned.filter fun e => e.StaffID == s).filter
          fun a => isAutoAssigned a.Source := by
      refine Eq.trans (b := st.assigned.filter fun e =>
        isAutoAssigned e.Source && e.StaffID == s) ?_ (List.filter_filter _ _).symm
      apply List.filter_congr
      intro e he
      rw [Bool.eq_iff_iff]
      simp only [Bool.not_eq_true', decide_eq_false_iff_not, not_not, hids e he,
        Bool.and_eq_true, beq_iff_eq]
      tauto
    rw [h1, hK, h2, List.map_map]
    exact List.Perm.refl _

theorem AuditPaired.of_create {st1 st2 : Store} (h : CreatePaired st1 st2) :
    AuditPaired st1 st2 :=
  AuditPaired.of_delete_create (DeletePaired.of_same st1) h

theorem AuditPaired.of_delete {st1 st2 : Store} (h : DeletePaired st1 st2) :
    AuditPaired st1 st2 :=
  AuditPaired.of_delete_create h (CreatePaired.of_unchanged st2)

/-! ## C12: audit pairing -/

/-- C12, as stated, fails: in `doubleEdgeStore`, where staff member 1 holds
software 7 twice with the tag `department`, `AutoRevokeSoftwareFromStaff 7 [1]
"department"` deletes both edges and appends one `Unassigned` row, so the
appended rows do not pair off with the deleted edges. -/
theorem C12_autoRevoke_two_edges_one_log :
    (AutoRevokeSoftwareFromStaff noFaults 100 doubleEdgeStore 7 [{ ID := 1 }]
      "department").assigned = [] ∧
    (AutoRevokeSoftwareFromStaff noFaults 100 doubleEdgeStore 7 [{ ID := 1 }]
      "department").logs.map logKey = [(1, 7, "Unassigned")] ∧
    ¬ AuditPaired doubleEdgeStore
      (AutoRevokeSoftwareFromStaff noFaults 100 doubleEdgeStore 7 [{ ID := 1 }]
        "department") := by
  have hA : (AutoRevokeSoftwareFromStaff noFaults 100 doubleEdgeStore 7 [{ ID := 1 }]
      "department").assigned = [] := by decide
  have hL : (AutoRevokeSoftwareFromStaff noFaults 100 doubleEdgeStore 7 [{ ID := 1 }]
      "department").logs.map logKey = [(1, 7, "Unassigned")] := by decide
  refine ⟨hA, hL, ?_⟩
  rintro ⟨kept, deleted, created, unLogs, asLogs, hp, hc, hl, -, -, hq1, hq2⟩
  rw [hA] at hc
  have hkept : kept = [] := (List.append_eq_nil.1 hc.symm).1
  have hdel : deleted.length = 2 := by
    have := hp.length_eq
    rw [hkept] at this
    simpa [doubleEdgeStore] using this.symm
  have hun : unLogs.length = 2 := by
    have := hq1.length_eq
    rw [List.length_map, List.length_map, hdel] at this
    exact this
  have hlen := congrArg List.length (congrArg (List.map logKey) hl)
  rw [hL] at hlen
  simp [doubleEdgeStore, hun] at hlen
  omega

/-- C12, amended: with every store operation succeeding,
`AutoAssignSoftwareToStaff` and `AutoAssignSoftwareToStaffByUnit` are
audit-paired for every store state; `RevokeSoftwareAssignmentsForStaff` is
when the primary key of `assigned_software` is valid; and
`AutoRevokeSoftwareFromStaff` and `SyncSoftwareAssignmentsForStaff` are when no
two edges of the table have the same staff, software and source. Audit-paired
means: the appended `Assigned` rows have, as a multiset, the (staff, software)
pairs of the created edges, and the appended `Unassigned` rows those of the
deleted edges. -/
theorem C12_audit_pairing_amended (now : Nat) (st : Store) :
    (∀ staffID departmentID teamID, AuditPaired st
      (AutoAssignSoftwareToStaff noFaults now st staffID departmentID teamID).1) ∧
    (∀ softwareID staffList source, AuditPaired st
      (AutoAssignSoftwareToStaffByUnit noFaults now st softwareID staffList source)) ∧
    (PrimaryKeyValid st.assigned → ∀ staffID, AuditPaired st
      (RevokeSoftwareAssignmentsForStaff noFaults now st staffID).1) ∧
    (OneEdgePerTriple st.assigned → ∀ softwareID staffList source, AuditPaired st
      (AutoRevokeSoftwareFromStaff noFaults now st softwareID staffList source)) ∧
    (OneEdgePerTriple st.assigned →
      ∀ staffID oldDeptID oldTeamID newDeptID newTeamID, AuditPaired st
        (SyncSoftwareAssignmentsForStaff noFaults now st staffID oldDeptID oldTeamID
          newDeptID newTeamID).1) := by
  refine ⟨?_, ?_, ?_, ?_, ?_⟩
  · intro staffID departmentID teamID
    exact AuditPaired.of_create (autoAssign_createPaired now st staffID departmentID teamID)
  · intro softwareID staffList source
    exact AuditPaired.of_create (byUnit_createPaired now st softwareID staffList source)
  · intro hpk staffID
    exact AuditPaired.of_delete (revokeAll_deletePaired now st staffID hpk)
  · intro huniq softwareID staffList source
    exact AuditPaired.of_delete
      (autoRevoke_deletePaired now st softwareID staffList source huniq)
  · intro huniq staffID oldDeptID oldTeamID newDeptID newTeamID
    obtain ⟨h1, hu1⟩ :=
      revokeSoftwareFromSource_deletePaired now st staffID oldDeptID SourceDepartment huniq
    obtain ⟨h2, -⟩ := revokeSoftwareFromSource_deletePaired now
      (revokeSoftwareFromSource noFaults now st staffID oldDeptID SourceDepartment)
      staffID oldTeamID SourceTeam hu1
    exact AuditPaired.of_delete_create (h1.thenPaired h2)
      (autoAssign_createPaired now _ staffID newDeptID newTeamID)

/-- C12, amended, at `scopedRevokeStore`, whose table has a valid primary key
and one edge per (staff, software, source): the sync that moves staff member 1
from department 3 to department 4 is audit-paired. -/
theorem C12_audit_pairing_amended_witness :
    PrimaryKeyValid scopedRevokeStore.assigned ∧
    OneEdgePerTriple scopedRevokeStore.assigned ∧
    AuditPaired scopedRevokeStore
      (SyncSoftwareAssignmentsForStaff noFaults 100 scopedRevokeStore 1 3 0 4 0).1 :=
  ⟨by decide, by decide,
   (C12_audit_pairing_amended 100 scopedRevokeStore).2.2.2.2 (by decide) 1 3 0 4 0⟩

/-! ## Software deletion -/

/-- The loop of `DeleteSoftware` over rows with a non-zero key, the store not
failing: it runs to its end, deletes the rows whose key is the key of a row of
the list and appends one `Unassigned` system row per row of the list. -/
theorem deleteSoftwareLoop_noFaults (now : Nat) (rows : List AssignedSoftware) (st : Store)
    (hkey : ∀ a ∈ rows, a.ID ≠ 0) :
    ∃ st1, deleteSoftwareLoop noFaults now st rows = (st1, true) ∧
      st1.assigned = (st.assigned.filter fun e => decide (e.ID ∉ rows.map (·.ID))) ∧
      st1.software = st.software ∧
      ∃ newLogs, st1.logs = st.logs ++ newLogs ∧
        (∀ l ∈ newLogs, l.Action = "Unassigned" ∧ l.ChangedBy = 0) ∧
        newLogs.map logKey = rows.map (fun a => (a.StaffID, a.SoftwareID, "Unassigned")) := by
  induction rows generalizing st with
  | nil => exact ⟨st, rfl, by simp, rfl, [], by simp, by simp, rfl⟩
  | cons a rows ih =>
    have ha0 : a.ID ≠ 0 := hkey a (List.mem_cons_self _ _)
    have herr : deleteAssignedByIDErr noFaults a = false := by
      simp [deleteAssignedByIDErr, noFaults, ha0]
    have hstep : createLog noFaults now (deleteAssignedByID noFaults st a)
        a.StaffID a.SoftwareID "Unassigned" 0 now now =
        { st with
          assigned := st.assigned.filter fun e => !(e.ID == a.ID)
          logs := st.logs ++
            [{ ID := nextID (st.logs.map (·.ID)), StaffID := a.StaffID,
               SoftwareID := a.SoftwareID, Action := "Unassigned", ChangedBy := 0,
               ChangedAt := now, UpdatedAt := if now = 0 then now else now }] } := by
      simp [createLog, deleteAssignedByID, noFaults, ha0]
    obtain ⟨st1, hloop, hA, hS, newLogs, hL, hB, hK⟩ :=
      ih (createLog noFaults now (deleteAssignedByID noFaults st a)
        a.StaffID a.SoftwareID "Unassigned" 0 now now)
        fun x hx => hkey x (List.mem_cons_of_mem _ hx)
    refine ⟨st1, ?_, ?_, ?_, ?_⟩
    · rw [deleteSoftwareLoop, herr]
      simpa using hloop
    · rw [hA, hstep]
      dsimp only
      rw [List.filter_filter]
      apply List.filter_congr
      intro e _
      rw [Bool.eq_iff_iff]
      simp only [List.map_cons, List.mem_cons, Bool.and_eq_true, decide_eq_true_eq,
        Bool.not_eq_true', beq_eq_false_iff_ne, ne_eq]
      tauto
    · rw [hS, hstep]
    · refine ⟨
        ({ ID := nextID (st.logs.map (·.ID)), StaffID := a.StaffID,
           SoftwareID := a.SoftwareID, Action := "Unassigned", ChangedBy := 0,
           ChangedAt := now,
           UpdatedAt := (if now = 0 then now else now) } : SoftwareAssignmentLog) :: newLogs,
        ?_, ?_, ?_⟩
      · rw [hL, hstep]
        simp
      · intro l hl
        rcases List.mem_cons.1 hl with h | h
        · rw [h]
          exact ⟨rfl, rfl⟩
        · exact hB l h
      · simp only [List.map_cons, hK]
        rfl

theorem firstSoftware_noFaults_of_mem (st : Store) (X : Nat)
    (hex : ∃ sw ∈ st.software, sw.ID = X) :
    ∃ sw, firstSoftware noFaults st X = some sw ∧ sw.ID = X := by
  cases hfind : st.software.find? (fun r => r.ID == X) with
  | none =>
    obtain ⟨sw, hmem, hid⟩ := hex
    have := List.find?_eq_none.1 hfind sw hmem
    simp [hid] at this
  | some sw =>
    refine ⟨sw, by simp [firstSoftware, noFaults, hfind], ?_⟩
    have := List.find?_some hfind
    simpa using this

/-! ## C11: software deletion revokes every assignment -/

/-- C11: for a store whose `assigned_software` primary key is valid, an existing
software with the non-zero key X and every store operation succeeding,
`DeleteSoftware X` answers 200; afterwards no edge references X, whatever its
source, and the edges of other software are unchanged; one log row with action
`Unassigned`, `ChangedBy` 0 and the staff and software of the edge is appended
per deleted edge; and the software record X is removed. -/
theorem C11_deleteSoftware_revokes_all (now : Nat) (st : Store) (X : Nat)
    (hpk : PrimaryKeyValid st.assigned) (hX : X ≠ 0)
    (hex : ∃ sw ∈ st.software, sw.ID = X) :
    (DeleteSoftware noFaults now st (some X)).2 = 200 ∧
    (DeleteSoftware noFaults now st (some X)).1.assigned =
      (st.assigned.filter fun e => !(e.SoftwareID == X)) ∧
    (∀ e ∈ (DeleteSoftware noFaults now st (some X)).1.assigned, e.SoftwareID ≠ X) ∧
    (∃ newLogs,
      (DeleteSoftware noFaults now st (some X)).1.logs = st.logs ++ newLogs ∧
      (∀ l ∈ newLogs, l.Action = "Unassigned" ∧ l.ChangedBy = 0) ∧
      newLogs.map logKey =
        (st.assigned.filter fun e => e.SoftwareID == X).map
          (fun e => (e.StaffID, e.SoftwareID, "Unassigned"))) ∧
    (DeleteSoftware noFaults now st (some X)).1.software =
      (st.software.filter fun r => !(r.ID == X)) ∧
    (∀ r ∈ (DeleteSoftware noFaults now st (some X)).1.software, r.ID ≠ X) := by
  obtain ⟨sw, hfirst, hid⟩ := firstSoftware_noFaults_of_mem st X hex
  obtain ⟨st1, hloop, hA, hS, newLogs, hL, hB, hK⟩ := deleteSoftwareLoop_noFaults now
    (st.assigned.filter fun e => e.SoftwareID == X) st
    (fun a ha => hpk.2 a (List.mem_filter.1 ha).1)
  have hres : DeleteSoftware noFaults now st (some X) =
      ({ st1 with software := st1.software.filter fun r => !(r.ID == X) }, 200) := by
    simp [DeleteSoftware, hfirst, hloop, noFaults, hid, hX]
  have hinj := List.inj_on_of_nodup_map hpk.1
  have hassigned : st1.assigned = st.assigned.filter fun e => !(e.SoftwareID == X) := by
    rw [hA]
    apply List.filter_congr
    intro e he
    rw [Bool.eq_iff_iff]
    simp only [decide_eq_true_eq, List.mem_map, List.mem_filter, beq_iff_eq,
      Bool.not_eq_true', beq_eq_false_iff_ne, ne_eq]
    constructor
    · intro h hc
      exact h ⟨e, ⟨he, hc⟩, rfl⟩
    · rintro h ⟨a, ⟨ha, hax⟩, haid⟩
      have : a = e := hinj ha he haid
      subst this
      exact h hax
  rw [hres]
  refine ⟨rfl, hassigned, ?_, ⟨newLogs, hL, hB, hK⟩, ?_, ?_⟩
  · intro e he
    have he' : e ∈ st1.assigned := he
    rw [hassigned] at he'
    have := (List.mem_filter.1 he').2
    simpa using this
  · show st1.software.filter _ = _
    rw [hS]
  · intro r hr
    have hr' : r ∈ st1.software.filter fun r => !(r.ID == X) := hr
    have := (List.mem_filter.1 hr').2
    simpa using this

/-- C11 at `ruleDeletedStore` with the software record 7: after its deletion
only the edge for software 8 is left. -/
theorem C11_deleteSoftware_revokes_all_witness :
    PrimaryKeyValid ruleDeletedStore.assigned ∧
    ((DeleteSoftware noFaults 100
        { ruleDeletedStore with software := [{ ID := 7, Name := "ClickUp" }] }
        (some 7)).1.assigned.map edgeKey = [(1, 8, "department")]) ∧
    (DeleteSoftware noFaults 100
        { ruleDeletedStore with software := [{ ID := 7, Name := "ClickUp" }] }
        (some 7)).2 = 200 :=
  ⟨by decide, by decide,
   (C11_deleteSoftware_revokes_all 100
     { ruleDeletedStore with software := [{ ID := 7, Name := "ClickUp" }] } 7
     (by decide) (by decide) (by decide)).1⟩

/-! ## The software catalogue -/

theorem nameUnique_append (tbl : List Software) (row : Software) (h : NameUnique tbl)
    (hnew : ∀ r ∈ tbl, r.Name ≠ row.Name) : NameUnique (tbl ++ [row]) := by
  unfold NameUnique at h ⊢
  rw [List.map_append, List.nodup_append]
  refine ⟨h, List.nodup_singleton _, ?_⟩
  intro x hx hx'
  obtain ⟨r, hr, rfl⟩ := List.mem_map.1 hx
  simp only [List.map_cons, List.map_nil, List.mem_singleton] at hx'
  exact hnew r hr hx'

/-- An insert into `software` that succeeds appends one row, with the name of
the body, and that name was not in the table. -/
theorem createSoftwareRow_some (f : Faults) (now : Nat) (st st1 : Store) (sw : Software)
    (h : createSoftwareRow f now st sw = some st1) :
    (∃ row : Software, st1.software = st.software ++ [row] ∧ row.Name = sw.Name) ∧
    (∀ r ∈ st.software, r.Name ≠ sw.Name) := by
  unfold createSoftwareRow at h
  split at h
  · cases h
  · split at h
    · cases h
    · rename_i hname
      split at h
      · cases h
      · injection h with h
        subst h
        refine ⟨⟨_, rfl, rfl⟩, ?_⟩
        intro r hr hc
        exact hname (List.any_eq_true.2 ⟨r, hr, by simpa using hc⟩)

theorem createSoftwareRow_of_name_taken (f : Faults) (now : Nat) (st : Store) (sw : Software)
    (h : ∃ r ∈ st.software, r.Name = sw.Name) : createSoftwareRow f now st sw = none := by
  obtain ⟨r, hr, hn⟩ := h
  have hany : (st.software.any fun r => r.Name == sw.Name) = true :=
    List.any_eq_true.2 ⟨r, hr, by simpa using hn⟩
  unfold createSoftwareRow
  split
  · rfl
  · rfl

/-- A save into `software` that succeeds keeps the names of the table pairwise
distinct, when the keys of the table are pairwise distinct. -/
theorem saveSoftware_nameUnique (f : Faults) (now : Nat) (st st1 : Store) (sw : Software)
    (hu : NameUnique st.software) (hid : (st.software.map (·.ID)).Nodup)
    (h : saveSoftware f now st sw = some st1) : NameUnique st1.software := by
  unfold saveSoftware at h
  split at h
  · cases h
  · split at h
    · obtain ⟨⟨row, hrow, hname⟩, hnew⟩ := createSoftwareRow_some f now st st1 sw h
      rw [hrow]
      exact nameUnique_append _ _ hu (fun r hr => by rw [hname]; exact hnew r hr)
    · split at h
      · cases h
      · rename_i hconf
        have hother : ∀ r ∈ st.software, r.Name = sw.Name → r.ID = sw.ID := by
          intro r hr hn
          by_contra hne
          exact hconf (List.any_eq_true.2 ⟨r, hr, by simp [hn, hne]⟩)
        split at h
        · injection h with h
          subst h
          show ((st.software.map fun r =>
            if r.ID == sw.ID then { sw with UpdatedAt := now } else r).map (·.Name)).Nodup
          rw [List.map_map]
          have hnodup : st.software.Nodup := List.Nodup.of_map _ hid
          refine List.Nodup.map_on ?_ hnodup
          intro x hx y hy hxy
          simp only [Function.comp] at hxy
          by_cases h1 : x.ID = sw.ID
          · by_cases h2 : y.ID = sw.ID
            · exact List.inj_on_of_nodup_map hid hx hy (h1.trans h2.symm)
            · simp only [h1, h2, beq_self_eq_true, if_true, beq_iff_eq, if_false] at hxy
              exact absurd (hother y hy hxy.symm) h2
          · by_cases h2 : y.ID = sw.ID
            · simp only [h1, h2, beq_self_eq_true, if_true, beq_iff_eq, if_false] at hxy
              exact absurd (hother x hx hxy) h1
            · simp only [h1, h2, beq_iff_eq, if_false] at hxy
              exact List.inj_on_of_nodup_map hu hx hy hxy
        · rename_i hnone
          injection h with h
          subst h
          refine nameUnique_append _ _ hu ?_
          intro r hr hn
          have hrid := hother r hr hn
          exact hnone (List.any_eq_true.2 ⟨r, hr, by simpa using hrid⟩)

theorem saveSoftware_of_name_taken (f : Faults) (now : Nat) (st : Store) (sw : Software)
    (h : ∃ r ∈ st.software, r.Name = sw.Name ∧ r.ID ≠ sw.ID) :
    saveSoftware f now st sw = none := by
  obtain ⟨r, hr, hn, hne⟩ := h
  unfold saveSoftware
  split
  · rfl
  · split
    · exact createSoftwareRow_of_name_taken f now st sw ⟨r, hr, hn⟩
    · have hany : (st.software.any fun r => r.Name == sw.Name && r.ID != sw.ID) = true :=
        List.any_eq_true.2 ⟨r, hr, by simp [hn, hne]⟩
      first
        | rfl
        | rw [if_pos hany]

/-- The loop of `DeleteSoftware` leaves the `software` table alone, whatever
store call fails. -/
theorem deleteSoftwareLoop_software (f : Faults) (now : Nat) (rows : List AssignedSoftware)
    (st : Store) : (deleteSoftwareLoop f now st rows).1.software = st.software := by
  induction rows generalizing st with
  | nil => rfl
  | cons a rows ih =>
    rw [deleteSoftwareLoop]
    split
    · rfl
    · rw [ih]
      unfold createLog deleteAssignedByID
      split <;> split <;> try split
      all_goals rfl

theorem firstSoftware_some (f : Faults) (st : Store) (id : Nat) (sw : Software)
    (h : firstSoftware f st id = some sw) : sw ∈ st.software ∧ sw.ID = id := by
  unfold firstSoftware at h
  split at h
  · cases h
  · exact ⟨List.mem_of_find?_eq_some h, by simpa using List.find?_some h⟩

/-! ## C19: software is unique by name -/

/-- C19: when no two software records share a name (and none share a key),
whatever store call fails, none share a name after `CreateSoftware`,
`UpdateSoftware` or `DeleteSoftware`. `CreateSoftware` with a name that a
record already has, and `UpdateSoftware` with a name that a record other than
the updated one already has, leave the store as it was and do not answer with
their success status; when the duplicate lookup itself succeeds they answer
400. -/
theorem C19_software_unique_by_name (f : Faults) (now : Nat) (st : Store)
    (hu : NameUnique st.software) (hid : (st.software.map (·.ID)).Nodup) :
    (∀ body, NameUnique (CreateSoftware f now st body).1.software) ∧
    (∀ id body, NameUnique (UpdateSoftware f now st id body).1.software) ∧
    (∀ idParam, NameUnique (DeleteSoftware f now st idParam).1.software) ∧
    (∀ input : Software, (∃ r ∈ st.software, r.Name = input.Name) →
      (CreateSoftware f now st (some input)).1 = st ∧
      (CreateSoftware f now st (some input)).2 ≠ 201 ∧
      (f (.firstSoftwareByName input.Name) = false →
        (CreateSoftware f now st (some input)).2 = 400)) ∧
    (∀ (id : Nat) (input : Software),
      (∃ r ∈ st.software, r.Name = input.Name ∧ r.ID ≠ id) →
      (UpdateSoftware f now st id (some input)).1 = st ∧
      (UpdateSoftware f now st id (some input)).2 ≠ 200 ∧
      (f (.firstSoftwareByNameExcept input.Name id) = false →
        (∃ r ∈ st.software, r.ID = id) → f (.firstSoftware id) = false →
        (UpdateSoftware f now st id (some input)).2 = 400)) := by
  refine ⟨?_, ?_, ?_, ?_, ?_⟩
  · intro body
    unfold CreateSoftware
    split
    · exact hu
    · split
      · exact hu
      · split
        · exact hu
        · rename_i st1 hcreate
          obtain ⟨⟨row, hrow, hname⟩, hnew⟩ := createSoftwareRow_some f now st st1 _ hcreate
          show NameUnique st1.software
          rw [hrow]
          exact nameUnique_append _ _ hu (fun r hr => by rw [hname]; exact hnew r hr)
  · intro id body
    unfold UpdateSoftware
    split
    · exact hu
    · split
      · exact hu
      · split
        · exact hu
        · split
          · exact hu
          · rename_i st1 hsave
            exact saveSoftware_nameUnique f now st st1 _ hu hid hsave
  · intro idParam
    cases idParam with
    | none => exact hu
    | some X =>
      have hsw := deleteSoftwareLoop_software f now
        (st.assigned.filter fun e => e.SoftwareID == X) st
      unfold DeleteSoftware
      dsimp only
      split
      · exact hu
      · split
        · exact hu
        · split
          · rename_i st1 hloop
            rw [hloop] at hsw
            show NameUnique st1.software
            rw [show st1.software = st.software from hsw]
            exact hu
          · rename_i st1 hloop
            rw [hloop] at hsw
            have hsw1 : st1.software = st.software := hsw
            split
            · show NameUnique st1.software
              rw [hsw1]
              exact hu
            · show NameUnique (st1.software.filter _)
              rw [hsw1]
              exact List.Nodup.sublist ((List.filter_sublist _).map _) hu
  · intro input hex
    have hnone := createSoftwareRow_of_name_taken f now st input hex
    obtain ⟨r, hr, hn⟩ := hex
    have hany : (st.software.any fun r => r.Name == input.Name) = true :=
      List.any_eq_true.2 ⟨r, hr, by simpa using hn⟩
    refine ⟨?_, ?_, ?_⟩
    · unfold CreateSoftware
      dsimp only
      split
      · rfl
      · rw [hnone]
    · unfold CreateSoftware
      dsimp only
      split
      · simp
      · rw [hnone]
        simp
    · intro hf
      simp [CreateSoftware, hf, hany]
  · intro id input hex
    obtain ⟨r, hr, hn, hne⟩ := hex
    have hany : (st.software.any fun r => r.Name == input.Name && r.ID != id) = true :=
      List.any_eq_true.2 ⟨r, hr, by simp [hn, hne]⟩
    have hbody : ∀ sw : Software, firstSoftware f st id = some sw →
        saveSoftware f now st
          { sw with Name := input.Name, Description := input.Description } = none := by
      intro sw hsw
      have hswid := (firstSoftware_some f st id sw hsw).2
      apply saveSoftware_of_name_taken
      exact ⟨r, hr, hn, by rw [hswid]; exact hne⟩
    refine ⟨?_, ?_, ?_⟩
    · unfold UpdateSoftware
      split
      · rfl
      · rename_i sw hsw
        dsimp only
        split
        · rfl
        · rw [hbody sw hsw]
    · unfold UpdateSoftware
      split
      · simp
      · rename_i sw hsw
        dsimp only
        split
        · simp
        · rw [hbody sw hsw]
          simp
    · intro hf hexid hff
      obtain ⟨r0, hr0, hr0id⟩ := hexid
      cases hfind : st.software.find? (fun r => r.ID == id) with
      | none =>
        have := List.find?_eq_none.1 hfind r0 hr0
        simp [hr0id] at this
      | some sw =>
        simp [UpdateSoftware, firstSoftware, hff, hfind, hf, hany]

/-- C19 at `catalogueStore`: creating a second Slack and renaming ClickUp to
Slack are both answered with 400 and change nothing. -/
theorem C19_software_unique_by_name_witness :
    NameUnique catalogueStore.software ∧
    (catalogueStore.software.map (·.ID)).Nodup ∧
    CreateSoftware noFaults 100 catalogueStore (some { ID := 0, Name := "Slack" }) =
      (catalogueStore, 400) ∧
    UpdateSoftware noFaults 100 catalogueStore 1 (some { ID := 0, Name := "Slack" }) =
      (catalogueStore, 400) ∧
    NameUnique (UpdateSoftware noFaults 100 catalogueStore 1
      (some { ID := 0, Name := "Notion" })).1.software :=
  ⟨by decide, by decide, by decide, by decide,
   (C19_software_unique_by_name noFaults 100 catalogueStore (by decide) (by decide)).2.1 1
     (some { ID := 0, Name := "Notion" })⟩

/-! ## C13: a duplicate rule is rejected -/

/-- C13: when a rule for the same (software, department) exists and the
duplicate lookup succeeds, `CreateSoftwareDepartmentMatchWithAutoAssignment`
answers 409 and `CreateSoftwareDepartmentMatch` answers 400, and both leave the
whole store, hence the rule, `assigned_software` and log tables, as it was; the
same holds for a team rule with the same (software, team) and an organization
rule with the same software. -/
theorem C13_duplicate_rule_rejected (f : Faults) (now : Nat) (st : Store) :
    (∀ m : SoftwareDepartmentMatch,
      f (.firstDepartmentMatchByPair m.SoftwareID m.DepartmentID) = false →
      (∃ r ∈ st.deptMatches, r.SoftwareID = m.SoftwareID ∧ r.DepartmentID = m.DepartmentID) →
      CreateSoftwareDepartmentMatchWithAutoAssignment f now st (some m) = (st, 409) ∧
      CreateSoftwareDepartmentMatch f now st (some m) = (st, 400)) ∧
    (∀ m : SoftwareTeamMatch,
      f (.firstTeamMatchByPair m.SoftwareID m.TeamID) = false →
      (∃ r ∈ st.teamMatches, r.SoftwareID = m.SoftwareID ∧ r.TeamID = m.TeamID) →
      CreateSoftwareTeamMatchWithAutoAssignment f now st (some m) = (st, 409) ∧
      CreateSoftwareTeamMatch f now st (some m) = (st, 400)) ∧
    (∀ m : SoftwareOrganizationMatch,
      f (.firstOrganizationMatchBySoftware m.SoftwareID) = false →
      (∃ r ∈ st.orgMatches, r.SoftwareID = m.SoftwareID) →
      CreateSoftwareOrganizationMatchWithAutoAssignment f now st (some m) = (st, 409) ∧
      CreateSoftwareOrganizationMatch f now st (some m) = (st, 400)) := by
  refine ⟨?_, ?_, ?_⟩
  · intro m hf hex
    have hdup : departmentMatchExists f st m.SoftwareID m.DepartmentID = true := by
      obtain ⟨r, hr, h1, h2⟩ := hex
      simp only [departmentMatchExists, hf, Bool.not_false, Bool.true_and]
      exact List.any_eq_true.2 ⟨r, hr, by simp [h1, h2]⟩
    simp [CreateSoftwareDepartmentMatchWithAutoAssignment, CreateSoftwareDepartmentMatch, hdup]
  · intro m hf hex
    have hdup : teamMatchExists f st m.SoftwareID m.TeamID = true := by
      obtain ⟨r, hr, h1, h2⟩ := hex
      simp only [teamMatchExists, hf, Bool.not_false, Bool.true_and]
      exact List.any_eq_true.2 ⟨r, hr, by simp [h1, h2]⟩
    simp [CreateSoftwareTeamMatchWithAutoAssignment, CreateSoftwareTeamMatch, hdup]
  · intro m hf hex
    have hdup : organizationMatchExists f st m.SoftwareID = true := by
      obtain ⟨r, hr, h1⟩ := hex
      simp only [organizationMatchExists, hf, Bool.not_false, Bool.true_and]
      exact List.any_eq_true.2 ⟨r, hr, by simp [h1]⟩
    simp [CreateSoftwareOrganizationMatchWithAutoAssignment, CreateSoftwareOrganizationMatch,
      hdup]

/-- C13 at `twoRulesStore`: a second rule for software 7 and department 3 is
answered with 409 and changes nothing. -/
theorem C13_duplicate_rule_rejected_witness :
    noFaults (.firstDepartmentMatchByPair 7 3) = false ∧
    (∃ r ∈ twoRulesStore.deptMatches, r.SoftwareID = 7 ∧ r.DepartmentID = 3) ∧
    CreateSoftwareDepartmentMatchWithAutoAssignment noFaults 100 twoRulesStore
      (some { ID := 0, SoftwareID := 7, DepartmentID := 3 }) = (twoRulesStore, 409) :=
  ⟨rfl, by decide,
   ((C13_duplicate_rule_rejected noFaults 100 twoRulesStore).1
     { ID := 0, SoftwareID := 7, DepartmentID := 3 } rfl (by decide)).1⟩

/-! ## C18: uniqueness of the rules -/

/-- C18: in `twoRulesStore` no two department rules share a (software,
department) pair. `UpdateSoftwareDepartmentMatch` on rule 2 with a body that
sets `department_id` to 3 answers 200 and leaves two rules for (7, 3): the
update path has no duplicate check. -/
theorem C18_update_department_match_creates_duplicate :
    DepartmentMatchesUnique twoRulesStore.deptMatches ∧
    (UpdateSoftwareDepartmentMatch noFaults 100 twoRulesStore 2
      (some { DepartmentID := some 3 })).2 = 200 ∧
    (UpdateSoftwareDepartmentMatch noFaults 100 twoRulesStore 2
      (some { DepartmentID := some 3 })).1.deptMatches.map
        (fun m => (m.ID, m.SoftwareID, m.DepartmentID)) = [(1, 7, 3), (2, 7, 3)] ∧
    ¬ DepartmentMatchesUnique (UpdateSoftwareDepartmentMatch noFaults 100 twoRulesStore 2
      (some { DepartmentID := some 3 })).1.deptMatches := by
  decide

theorem createAssignedSoftware_deptMatches (f : Faults) (now : Nat) (st : Store)
    (staffID softwareID : Nat) (source : String) :
    (createAssignedSoftware f now st staffID softwareID source).deptMatches =
      st.deptMatches := by
  unfold createAssignedSoftware
  split <;> rfl

theorem byUnit_deptMatches (f : Faults) (now : Nat) (st : Store) (X : Nat) (L : List Staff)
    (σ : String) :
    (AutoAssignSoftwareToStaffByUnit f now st X L σ).deptMatches = st.deptMatches := by
  rw [byUnit_eq]
  refine foldl_keeps (fun s => s.deptMatches = st.deptMatches) _ ?_ L st rfl
  intro s p hs
  show (assignUnitStep f now X σ s p).deptMatches = st.deptMatches
  unfold assignUnitStep
  split
  · rw [(logAssignmentChange_rules f now _ p.ID X "Assigned").1,
      createAssignedSoftware_deptMatches, hs]
  · exact hs

theorem autoRevoke_deptMatches (f : Faults) (now : Nat) (st : Store) (X : Nat)
    (L : List Staff) (σ : String) :
    (AutoRevokeSoftwareFromStaff f now st X L σ).deptMatches = st.deptMatches := by
  rw [autoRevoke_eq]
  refine foldl_keeps (fun s => s.deptMatches = st.deptMatches) _ ?_ _ st rfl
  intro s p hs
  show (revokeStep f now σ s p.1 p.2).deptMatches = st.deptMatches
  rw [(revokeStep_rules f now σ s p.1 p.2).1, hs]

/-- An insert into the department rules that succeeds appends one row, with
the software and the department of the body. -/
theorem createDepartmentMatchRow_some (f : Faults) (now : Nat) (st st1 : Store)
    (m : SoftwareDepartmentMatch) (h : createDepartmentMatchRow f now st m = some st1) :
    ∃ row : SoftwareDepartmentMatch, st1.deptMatches = st.deptMatches ++ [row] ∧
      row.SoftwareID = m.SoftwareID ∧ row.DepartmentID = m.DepartmentID := by
  unfold createDepartmentMatchRow at h
  split at h
  · cases h
  · split at h
    · cases h
    · injection h with h
      subst h
      exact ⟨_, rfl, rfl, rfl⟩

theorem departmentMatchesUnique_append (tbl : List SoftwareDepartmentMatch)
    (row : SoftwareDepartmentMatch) (h : DepartmentMatchesUnique tbl)
    (hnew : ∀ r ∈ tbl, ¬ (r.SoftwareID = row.SoftwareID ∧ r.DepartmentID = row.DepartmentID)) :
    DepartmentMatchesUnique (tbl ++ [row]) := by
  unfold DepartmentMatchesUnique at h ⊢
  rw [List.map_append, List.nodup_append]
  refine ⟨h, List.nodup_singleton _, ?_⟩
  intro x hx hx'
  obtain ⟨r, hr, rfl⟩ := List.mem_map.1 hx
  simp only [List.map_cons, List.map_nil, List.mem_singleton, Prod.mk.injEq] at hx'
  exact hnew r hr hx'

theorem not_departmentMatchExists (f : Faults) (st : Store) (X d : Nat)
    (hf : f (.firstDepartmentMatchByPair X d) = false)
    (h : ¬ departmentMatchExists f st X d = true) :
    ∀ r ∈ st.deptMatches, ¬ (r.SoftwareID = X ∧ r.DepartmentID = d) := by
  intro r hr hc
  apply h
  simp only [departmentMatchExists, hf, Bool.not_false, Bool.true_and]
  exact List.any_eq_true.2 ⟨r, hr, by simp [hc.1, hc.2]⟩

/-- The department-rule operations other than the update keep the rules unique
per (software, department): the two creates when their duplicate lookup
succeeds, the two deletes always. -/
theorem departmentMatchesUnique_kept (f : Faults) (now : Nat) (st : Store)
    (hu : DepartmentMatchesUnique st.deptMatches) :
    (∀ m : SoftwareDepartmentMatch,
      f (.firstDepartmentMatchByPair m.SoftwareID m.DepartmentID) = false →
      DepartmentMatchesUnique (CreateSoftwareDepartmentMatch f now st (some m)).1.deptMatches ∧
      DepartmentMatchesUnique
        (CreateSoftwareDepartmentMatchWithAutoAssignment f now st (some m)).1.deptMatches) ∧
    (∀ id, DepartmentMatchesUnique (DeleteSoftwareDepartmentMatch f st id).1.deptMatches) ∧
    (∀ id, DepartmentMatchesUnique
      (DeleteSoftwareDepartmentMatchAndRevokeAssignment f now st id).1.deptMatches) := by
  have hfilter : ∀ id : Nat, DepartmentMatchesUnique
      (st.deptMatches.filter fun r => !(r.ID == id)) :=
    fun id => List.Nodup.sublist ((List.filter_sublist _).map _) hu
  refine ⟨?_, ?_, ?_⟩
  · intro m hf
    constructor
    · unfold CreateSoftwareDepartmentMatch
      dsimp only
      split
      · exact hu
      · rename_i hdup
        split
        · exact hu
        · rename_i st1 hcreate
          obtain ⟨row, hrow, h1, h2⟩ := createDepartmentMatchRow_some f now st st1 m hcreate
          show DepartmentMatchesUnique st1.deptMatches
          rw [hrow]
          refine departmentMatchesUnique_append _ _ hu ?_
          rw [h1, h2]
          exact not_departmentMatchExists f st _ _ hf hdup
    · unfold CreateSoftwareDepartmentMatchWithAutoAssignment
      dsimp only
      split
      · exact hu
      · rename_i hdup
        split
        · exact hu
        · rename_i st1 hcreate
          obtain ⟨row, hrow, h1, h2⟩ := createDepartmentMatchRow_some f now st st1 m hcreate
          have hst1 : DepartmentMatchesUnique st1.deptMatches := by
            rw [hrow]
            refine departmentMatchesUnique_append _ _ hu ?_
            rw [h1, h2]
            exact not_departmentMatchExists f st _ _ hf hdup
          split
          · exact hst1
          · show DepartmentMatchesUnique (AutoAssignSoftwareToStaffByUnit f now st1 _ _ _).deptMatches
            rw [byUnit_deptMatches]
            exact hst1
  · intro id
    unfold DeleteSoftwareDepartmentMatch
    split
    · exact hu
    · exact hfilter id
  · intro id
    unfold DeleteSoftwareDepartmentMatchAndRevokeAssignment
    split
    · exact hu
    · dsimp only
      split
      · exact hu
      · split
        · exact hfilter _
        · show DepartmentMatchesUnique (AutoRevokeSoftwareFromStaff f now _ _ _ _).deptMatches
          rw [autoRevoke_deptMatches]
          exact hfilter _

/-! ## C15: deactivation and a unit change in one update -/

/-- C15: in `deactivationStore`, `UpdateStaffWithSoftwareMatch` on staff member
1 with a body that sets the status to `inactive` and the department to 4
answers 200 and stores the new status and department; the revocation removes
the edge (1, 7, organization), and the sync that follows, run because the
department changed, assigns software 7 again by the organization rule: the
deactivated staff member holds an edge tagged `organization`. -/
theorem C15_deactivation_with_unit_change_reassigns :
    (UpdateStaffWithSoftwareMatch noFaults 100 deactivationStore 1
      (some deactivateAndMove)).2 = 200 ∧
    (UpdateStaffWithSoftwareMatch noFaults 100 deactivationStore 1
      (some deactivateAndMove)).1.staff.map (fun p => (p.ID, p.DepartmentID, p.Status)) =
      [(1, 4, "inactive")] ∧
    (UpdateStaffWithSoftwareMatch noFaults 100 deactivationStore 1
      (some deactivateAndMove)).1.assigned.map edgeKey = [(1, 7, "organization")] ∧
    (UpdateStaffWithSoftwareMatch noFaults 100 deactivationStore 1
      (some deactivateAndMove)).1.logs.map logKey =
      [(1, 7, "Unassigned"), (1, 7, "Assigned")] := by
  decide

/-! ## C17: the action labels of system rows -/

/-- C17: in `scopedRuleStore`, `DeleteSoftwareAssignment 1` answers 200 and
appends a log row with `ChangedBy` 0 whose action is
`Unassigned (Rule Deleted)`, which is neither `Assigned` nor `Unassigned`. -/
theorem C17_deleteSoftwareAssignment_writes_other_label :
    (DeleteSoftwareAssignment noFaults 100 scopedRuleStore 1).2 = 200 ∧
    (DeleteSoftwareAssignment noFaults 100 scopedRuleStore 1).1.logs.map
      (fun l => (l.StaffID, l.SoftwareID, l.Action, l.ChangedBy)) =
      [(1, 7, "Unassigned (Rule Deleted)", 0)] ∧
    ¬ (∀ l ∈ (DeleteSoftwareAssignment noFaults 100 scopedRuleStore 1).1.logs,
      l.ChangedBy = 0 → l.Action = "Assigned" ∨ l.Action = "Unassigned") := by
  decide

/-! ## The paths that write one of the two action labels -/

theorem SystemRowsLabelled.of_logs_eq {st1 st2 : Store} (h : st2.logs = st1.logs) :
    SystemRowsLabelled st1 st2 :=
  ⟨[], by simp [h], by simp⟩

theorem SystemRowsLabelled.thenLabelled {st1 st2 st3 : Store} (h1 : SystemRowsLabelled st1 st2)
    (h2 : SystemRowsLabelled st2 st3) : SystemRowsLabelled st1 st3 := by
  obtain ⟨l1, e1, a1⟩ := h1
  obtain ⟨l2, e2, a2⟩ := h2
  refine ⟨l1 ++ l2, by rw [e2, e1, List.append_assoc], ?_⟩
  intro l hl
  rcases List.mem_append.1 hl with h | h
  · exact a1 l h
  · exact a2 l h

theorem systemRowsLabelled_foldl {α : Type} (g : Store → α → Store)
    (hg : ∀ s x, SystemRowsLabelled s (g s x)) (xs : List α) (st : Store) :
    SystemRowsLabelled st (xs.foldl g st) :=
  foldl_keeps (fun s => SystemRowsLabelled st s) g (fun s x h => h.thenLabelled (hg s x)) xs st
    (SystemRowsLabelled.of_logs_eq rfl)

theorem logAssignmentChange_labelled (f : Faults) (now : Nat) (st : Store)
    (staffID softwareID : Nat) (action : String)
    (hact : action = "Assigned" ∨ action = "Unassigned") :
    SystemRowsLabelled st (logAssignmentChange f now st staffID softwareID action) := by
  unfold logAssignmentChange
  split
  · exact SystemRowsLabelled.of_logs_eq rfl
  · refine ⟨_, rfl, ?_⟩
    intro l hl
    rw [List.mem_singleton] at hl
    subst hl
    exact ⟨rfl, hact⟩

theorem createLog_labelled (f : Faults) (now : Nat) (st : Store)
    (staffID softwareID : Nat) (action : String) (changedAt updatedAt : Nat)
    (hact : action = "Assigned" ∨ action = "Unassigned") :
    SystemRowsLabelled st
      (createLog f now st staffID softwareID action 0 changedAt updatedAt) := by
  unfold createLog
  split
  · exact SystemRowsLabelled.of_logs_eq rfl
  · refine ⟨_, rfl, ?_⟩
    intro l hl
    rw [List.mem_singleton] at hl
    subst hl
    exact ⟨rfl, hact⟩

theorem createAssignedSoftware_logs (f : Faults) (now : Nat) (st : Store)
    (staffID softwareID : Nat) (source : String) :
    (createAssignedSoftware f now st staffID softwareID source).logs = st.logs := by
  unfold createAssignedSoftware
  split <;> rfl

theorem deleteAssignedWhere_logs (f : Faults) (st : Store) (staffID softwareID : Nat)
    (source : String) :
    (deleteAssignedWhere f st staffID softwareID source).1.logs = st.logs := by
  unfold deleteAssignedWhere
  split <;> rfl

theorem deleteAssignedByID_logs (f : Faults) (st : Store) (a : AssignedSoftware) :
    (deleteAssignedByID f st a).logs = st.logs := by
  unfold deleteAssignedByID
  split
  · rfl
  · split <;> rfl

theorem assignIfNotExists_labelled (f : Faults) (now staffID : Nat) (existing : List Nat)
    (st : Store) (softwareID : Nat) (source : String) :
    SystemRowsLabelled st (assignIfNotExists f now staffID existing st softwareID source) := by
  unfold assignIfNotExists
  split
  · exact SystemRowsLabelled.of_logs_eq rfl
  · exact (SystemRowsLabelled.of_logs_eq (createAssignedSoftware_logs f now st _ _ _)).thenLabelled
      (logAssignmentChange_labelled f now _ _ _ _ (Or.inl rfl))

theorem revokeStep_labelled (f : Faults) (now : Nat) (source : String) (st : Store)
    (staffID softwareID : Nat) :
    SystemRowsLabelled st (revokeStep f now source st staffID softwareID) := by
  unfold revokeStep
  dsimp only
  split
  · exact (SystemRowsLabelled.of_logs_eq (deleteAssignedWhere_logs f st _ _ _)).thenLabelled
      (logAssignmentChange_labelled f now _ _ _ _ (Or.inr rfl))
  · exact SystemRowsLabelled.of_logs_eq (deleteAssignedWhere_logs f st _ _ _)

theorem offboardStep_labelled (f : Faults) (now : Nat) (st : Store) (a : AssignedSoftware) :
    SystemRowsLabelled st (offboardStep f now st a) := by
  unfold offboardStep
  split
  · exact (SystemRowsLabelled.of_logs_eq (deleteAssignedByID_logs f st a)).thenLabelled
      (logAssignmentChange_labelled f now _ _ _ _ (Or.inr rfl))
  · exact SystemRowsLabelled.of_logs_eq rfl

theorem assignUnitStep_labelled (f : Faults) (now X : Nat) (σ : String) (st : Store)
    (p : Staff) : SystemRowsLabelled st (assignUnitStep f now X σ st p) := by
  unfold assignUnitStep
  split
  · exact (SystemRowsLabelled.of_logs_eq (createAssignedSoftware_logs f now st _ _ _)).thenLabelled
      (logAssignmentChange_labelled f now _ _ _ _ (Or.inl rfl))
  · exact SystemRowsLabelled.of_logs_eq rfl

theorem deleteSoftwareLoop_labelled (f : Faults) (now : Nat) (rows : List AssignedSoftware)
    (st : Store) : SystemRowsLabelled st (deleteSoftwareLoop f now st rows).1 := by
  induction rows generalizing st with
  | nil => exact SystemRowsLabelled.of_logs_eq rfl
  | cons a rows ih =>
    rw [deleteSoftwareLoop]
    split
    · exact SystemRowsLabelled.of_logs_eq rfl
    · exact ((SystemRowsLabelled.of_logs_eq (deleteAssignedByID_logs f st a)).thenLabelled
        (createLog_labelled f now _ _ _ _ now now (Or.inr rfl))).thenLabelled (ih _)

/-- Whatever store call fails, every log row appended by an engine function, by
`DeleteSoftware` and by `DeleteAssignedSoftwareWithLogging` has `ChangedBy` 0
and the action `Assigned` or `Unassigned`. -/
theorem system_rows_labelled (f : Faults) (now : Nat) (st : Store) :
    (∀ staffID departmentID teamID, SystemRowsLabelled st
      (AutoAssignSoftwareToStaff f now st staffID departmentID teamID).1) ∧
    (∀ staffID oldDeptID oldTeamID newDeptID newTeamID, SystemRowsLabelled st
      (SyncSoftwareAssignmentsForStaff f now st staffID oldDeptID oldTeamID
        newDeptID newTeamID).1) ∧
    (∀ staffID, SystemRowsLabelled st (RevokeSoftwareAssignmentsForStaff f now st staffID).1) ∧
    (∀ softwareID staffList source, SystemRowsLabelled st
      (AutoAssignSoftwareToStaffByUnit f now st softwareID staffList source)) ∧
    (∀ softwareID staffList source, SystemRowsLabelled st
      (AutoRevokeSoftwareFromStaff f now st softwareID staffList source)) ∧
    (∀ idParam, SystemRowsLabelled st (DeleteSoftware f now st idParam).1) ∧
    (∀ id, SystemRowsLabelled st (DeleteAssignedSoftwareWithLogging f now st id).1) := by
  have hauto : ∀ (s0 : Store) (staffID departmentID teamID : Nat), SystemRowsLabelled s0
      (AutoAssignSoftwareToStaff f now s0 staffID departmentID teamID).1 := by
    intro s0 staffID departmentID teamID
    exact autoAssign_keeps (fun s => SystemRowsLabelled s0 s) f now s0 staffID departmentID
      teamID (fun existing s c source hs =>
        hs.thenLabelled (assignIfNotExists_labelled f now staffID existing s c source))
      (SystemRowsLabelled.of_logs_eq rfl)
  have hrevoke : ∀ (s0 : Store) (staffID id : Nat) (source : String), SystemRowsLabelled s0
      (revokeSoftwareFromSource f now s0 staffID id source) := by
    intro s0 staffID id source
    exact revokeSoftwareFromSource_keeps (fun s => SystemRowsLabelled s0 s) f now s0 staffID
      id source (fun s sid hs => hs.thenLabelled (revokeStep_labelled f now source s staffID sid))
      (SystemRowsLabelled.of_logs_eq rfl)
  refine ⟨hauto st, ?_, ?_, ?_, ?_, ?_, ?_⟩
  · intro staffID oldDeptID oldTeamID newDeptID newTeamID
    unfold SyncSoftwareAssignmentsForStaff
    dsimp only
    exact ((hrevoke st staffID oldDeptID SourceDepartment).thenLabelled
      (hrevoke _ staffID oldTeamID SourceTeam)).thenLabelled (hauto _ staffID newDeptID newTeamID)
  · intro staffID
    unfold RevokeSoftwareAssignmentsForStaff
    split
    · exact SystemRowsLabelled.of_logs_eq rfl
    · exact systemRowsLabelled_foldl (fun s a => offboardStep f now s a)
        (fun s a => offboardStep_labelled f now s a) _ st
  · intro softwareID staffList source
    rw [byUnit_eq]
    exact systemRowsLabelled_foldl _
      (fun s p => assignUnitStep_labelled f now softwareID source s p) _ st
  · intro softwareID staffList source
    rw [autoRevoke_eq]
    exact systemRowsLabelled_foldl _
      (fun s (p : Nat × Nat) => revokeStep_labelled f now source s p.1 p.2) _ st
  · intro idParam
    cases idParam with
    | none => exact SystemRowsLabelled.of_logs_eq rfl
    | some X =>
      have hloop := deleteSoftwareLoop_labelled f now
        (st.assigned.filter fun e => e.SoftwareID == X) st
      unfold DeleteSoftware
      dsimp only
      split
      · exact SystemRowsLabelled.of_logs_eq rfl
      · split
        · exact SystemRowsLabelled.of_logs_eq rfl
        · split
          · rename_i st1 heq
            rw [heq] at hloop
            exact hloop
          · rename_i st1 heq
            rw [heq] at hloop
            split
            · exact hloop
            · exact hloop.thenLabelled (SystemRowsLabelled.of_logs_eq rfl)
  · intro id
    unfold DeleteAssignedSoftwareWithLogging
    split
    · exact SystemRowsLabelled.of_logs_eq rfl
    · split
      · exact SystemRowsLabelled.of_logs_eq rfl
      · exact (SystemRowsLabelled.of_logs_eq (deleteAssignedByID_logs f st _)).thenLabelled
          (createLog_labelled f now _ _ _ _ now 0 (Or.inr rfl))

/-! ## C21: a failed lookup in `AutoAssignSoftwareToStaffByUnit` -/

/-- C21 fails: in `ruleCreatedStore` staff member 1 holds software 7 by a
manual grant. When the lookup of that edge fails, `AutoAssignSoftwareToStaffByUnit
7 [1] "department"` takes the error for a missing edge: it creates a second
edge for (1, 7), tagged `department`, and appends an `Assigned` log row. -/
theorem C21_byUnit_creates_after_failed_lookup :
    lookupFails (.firstAssigned 1 7) = true ∧
    ruleCreatedStore.assigned.map edgeKey = [(1, 7, "manual")] ∧
    (AutoAssignSoftwareToStaffByUnit lookupFails 100 ruleCreatedStore 7 [{ ID := 1 }]
      "department").assigned.map edgeKey = [(1, 7, "manual"), (1, 7, "department")] ∧
    (AutoAssignSoftwareToStaffByUnit lookupFails 100 ruleCreatedStore 7 [{ ID := 1 }]
      "department").logs.map logKey = [(1, 7, "Assigned")] := by
  decide

/-! ## C24: a software with an empty name -/

/-- C24 fails: on the empty store `CreateSoftware` with the body `name: ""`
answers 201 and inserts a record whose name is empty. -/
theorem C24_createSoftware_accepts_empty_name :
    (CreateSoftware noFaults 100 {} (some { ID := 0, Name := "" })).2 = 201 ∧
    (CreateSoftware noFaults 100 {} (some { ID := 0, Name := "" })).1.software.map
      (fun r => (r.ID, r.Name)) = [(1, "")] := by
  decide

/-! ## C23: posting the same assignment rule twice -/

/-- C23 fails: `CreateSoftwareAssignment` looks nothing up before it inserts.
Posting the body of `TestSoftwareAssignment` twice on the empty store is
answered with 201 both times and leaves two records for software 1; and for
every store and every body without a key the second post is answered with 201
and the table has two rows more. -/
theorem C23_createSoftwareAssignment_accepts_duplicate :
    (CreateSoftwareAssignment noFaults 100 {} (some testAssignmentPayload)).2 = 201 ∧
    (CreateSoftwareAssignment noFaults 101
      (CreateSoftwareAssignment noFaults 100 {} (some testAssignmentPayload)).1
      (some testAssignmentPayload)).2 = 201 ∧
    (CreateSoftwareAssignment noFaults 101
      (CreateSoftwareAssignment noFaults 100 {} (some testAssignmentPayload)).1
      (some testAssignmentPayload)).1.softwareAssignments.map
        (fun r => (r.ID, r.SoftwareID, r.ScopeType, r.ScopeID)) =
      [(1, 1, "", 0), (2, 1, "", 0)] ∧
    (∀ (st : Store) (softwareID scopeID : Nat) (scopeType : String) (now1 now2 : Nat),
      (CreateSoftwareAssignment noFaults now2
        (CreateSoftwareAssignment noFaults now1 st
          (some { ID := 0, SoftwareID := softwareID, ScopeType := scopeType,
                  ScopeID := scopeID })).1
        (some { ID := 0, SoftwareID := softwareID, ScopeType := scopeType,
                ScopeID := scopeID })).2 = 201 ∧
      (CreateSoftwareAssignment noFaults now2
        (CreateSoftwareAssignment noFaults now1 st
          (some { ID := 0, SoftwareID := softwareID, ScopeType := scopeType,
                  ScopeID := scopeID })).1
        (some { ID := 0, SoftwareID := softwareID, ScopeType := scopeType,
                ScopeID := scopeID })).1.softwareAssignments.length =
        st.softwareAssignments.length + 2) := by
  refine ⟨by decide, by decide, by decide, ?_⟩
  intro st softwareID scopeID scopeType now1 now2
  simp [CreateSoftwareAssignment, createSoftwareAssignmentRow, noFaults]

/-! ## C29: software deletion and the rules -/

theorem createLog_rules (f : Faults) (now : Nat) (st : Store) (staffID softwareID : Nat)
    (action : String) (changedBy changedAt updatedAt : Nat) :
    (createLog f now st staffID softwareID action changedBy changedAt updatedAt).deptMatches =
      st.deptMatches ∧
    (createLog f now st staffID softwareID action changedBy changedAt updatedAt).teamMatches =
      st.teamMatches ∧
    (createLog f now st staffID softwareID action changedBy changedAt updatedAt).orgMatches =
      st.orgMatches := by
  unfold createLog
  split <;> exact ⟨rfl, rfl, rfl⟩

theorem deleteAssignedByID_rules (f : Faults) (st : Store) (a : AssignedSoftware) :
    (deleteAssignedByID f st a).deptMatches = st.deptMatches ∧
    (deleteAssignedByID f st a).teamMatches = st.teamMatches ∧
    (deleteAssignedByID f st a).orgMatches = st.orgMatches := by
  unfold deleteAssignedByID
  split
  · exact ⟨rfl, rfl, rfl⟩
  · split <;> exact ⟨rfl, rfl, rfl⟩

theorem deleteSoftwareLoop_rules (f : Faults) (now : Nat) (rows : List AssignedSoftware)
    (st : Store) :
    (deleteSoftwareLoop f now st rows).1.deptMatches = st.deptMatches ∧
    (deleteSoftwareLoop f now st rows).1.teamMatches = st.teamMatches ∧
    (deleteSoftwareLoop f now st rows).1.orgMatches = st.orgMatches := by
  induction rows generalizing st with
  | nil => exact ⟨rfl, rfl, rfl⟩
  | cons a rows ih =>
    rw [deleteSoftwareLoop]
    split
    · exact ⟨rfl, rfl, rfl⟩
    · obtain ⟨h1, h2, h3⟩ := ih (createLog f now (deleteAssignedByID f st a)
        a.StaffID a.SoftwareID "Unassigned" 0 now now)
      obtain ⟨c1, c2, c3⟩ := createLog_rules f now (deleteAssignedByID f st a)
        a.StaffID a.SoftwareID "Unassigned" 0 now now
      obtain ⟨d1, d2, d3⟩ := deleteAssignedByID_rules f st a
      exact ⟨h1.trans (c1.trans d1), h2.trans (c2.trans d2), h3.trans (c3.trans d3)⟩

/-- C29: whatever store call fails, `DeleteSoftware` leaves the three rule
tables as they were, so the rules that reference the deleted software stay. In
`orphanRuleStore`, after `DeleteSoftware 7` has answered 200 and the record is
gone, `AutoAssignSoftwareToStaff` for staff member 1 of department 3 creates an
edge for software 7. -/
theorem C29_deleteSoftware_leaves_rules (f : Faults) (now : Nat) (st : Store)
    (idParam : Option Nat) :
    (DeleteSoftware f now st idParam).1.deptMatches = st.deptMatches ∧
    (DeleteSoftware f now st idParam).1.teamMatches = st.teamMatches ∧
    (DeleteSoftware f now st idParam).1.orgMatches = st.orgMatches ∧
    (DeleteSoftware noFaults 100 orphanRuleStore (some 7)).2 = 200 ∧
    (DeleteSoftware noFaults 100 orphanRuleStore (some 7)).1.software = [] ∧
    (DeleteSoftware noFaults 100 orphanRuleStore (some 7)).1.assigned = [] ∧
    (AutoAssignSoftwareToStaff noFaults 101
      (DeleteSoftware noFaults 100 orphanRuleStore (some 7)).1 1 3 0).1.assigned.map edgeKey =
      [(1, 7, "department")] := by
  have hrules : (DeleteSoftware f now st idParam).1.deptMatches = st.deptMatches ∧
      (DeleteSoftware f now st idParam).1.teamMatches = st.teamMatches ∧
      (DeleteSoftware f now st idParam).1.orgMatches = st.orgMatches := by
    cases idParam with
    | none => exact ⟨rfl, rfl, rfl⟩
    | some X =>
      have hloop := deleteSoftwareLoop_rules f now
        (st.assigned.filter fun e => e.SoftwareID == X) st
      unfold DeleteSoftware
      dsimp only
      split
      · exact ⟨rfl, rfl, rfl⟩
      · split
        · exact ⟨rfl, rfl, rfl⟩
        · split
          · rename_i st1 heq
            rw [heq] at hloop
            exact hloop
          · rename_i st1 heq
            rw [heq] at hloop
            split
            · exact hloop
            · exact hloop
  exact ⟨hrules.1, hrules.2.1, hrules.2.2, by decide, by decide, by decide, by decide⟩

/-! ## C27: `AutoAssignSoftwareToStaff` only adds -/

theorem OnlyAdds.of_unchanged_store (staffID : Nat) (st : Store) : OnlyAdds staffID st st :=
  ⟨[], [], by simp, by simp, by simp, rfl, rfl, rfl, rfl, rfl, rfl⟩

theorem OnlyAdds.thenAdds {staffID : Nat} {st1 st2 st3 : Store}
    (h1 : OnlyAdds staffID st1 st2) (h2 : OnlyAdds staffID st2 st3) :
    OnlyAdds staffID st1 st3 := by
  obtain ⟨c1, l1, a1, s1, g1, d1, t1, o1, p1, w1, r1⟩ := h1
  obtain ⟨c2, l2, a2, s2, g2, d2, t2, o2, p2, w2, r2⟩ := h2
  refine ⟨c1 ++ c2, l1 ++ l2, by rw [a2, a1, List.append_assoc], ?_,
    by rw [g2, g1, List.append_assoc], d2.trans d1, t2.trans t1, o2.trans o1, p2.trans p1,
    w2.trans w1, r2.trans r1⟩
  intro e he
  rcases List.mem_append.1 he with h | h
  · exact s1 e h
  · exact s2 e h

theorem assignIfNotExists_onlyAdds (f : Faults) (now staffID : Nat) (existing : List Nat)
    (st : Store) (softwareID : Nat) (source : String) :
    OnlyAdds staffID st (assignIfNotExists f now staffID existing st softwareID source) := by
  unfold assignIfNotExists
  split
  · exact OnlyAdds.of_unchanged_store staffID st
  · unfold logAssignmentChange createAssignedSoftware
    split <;> split
    · exact OnlyAdds.of_unchanged_store staffID st
    · refine ⟨_, [], rfl, ?_, by simp, rfl, rfl, rfl, rfl, rfl, rfl⟩
      intro e he
      rw [List.mem_singleton] at he
      rw [he]
    · exact ⟨[], _, by simp, by simp, rfl, rfl, rfl, rfl, rfl, rfl, rfl⟩
    · refine ⟨_, _, rfl, ?_, rfl, rfl, rfl, rfl, rfl, rfl, rfl⟩
      intro e he
      rw [List.mem_singleton] at he
      rw [he]

/-- C27: whatever store call fails, `AutoAssignSoftwareToStaff` keeps every
row of `assigned_software` and of the log as it was and in place, appends only
edges of `staffID`, and leaves the staff, software, rule and scoped-rule tables
unchanged. -/
theorem C27_autoAssign_only_adds (f : Faults) (now : Nat) (st : Store)
    (staffID departmentID teamID : Nat) :
    (∃ (created : List AssignedSoftware) (newLogs : List SoftwareAssignmentLog),
      (AutoAssignSoftwareToStaff f now st staffID departmentID teamID).1.assigned =
        st.assigned ++ created ∧
      (∀ e ∈ created, e.StaffID = staffID) ∧
      (AutoAssignSoftwareToStaff f now st staffID departmentID teamID).1.logs =
        st.logs ++ newLogs) ∧
    (∀ e ∈ st.assigned,
      e ∈ (AutoAssignSoftwareToStaff f now st staffID departmentID teamID).1.assigned) ∧
    (AutoAssignSoftwareToStaff f now st staffID departmentID teamID).1.staff = st.staff ∧
    (AutoAssignSoftwareToStaff f now st staffID departmentID teamID).1.software =
      st.software ∧
    (AutoAssignSoftwareToStaff f now st staffID departmentID teamID).1.deptMatches =
      st.deptMatches ∧
    (AutoAssignSoftwareToStaff f now st staffID departmentID teamID).1.teamMatches =
      st.teamMatches ∧
    (AutoAssignSoftwareToStaff f now st staffID departmentID teamID).1.orgMatches =
      st.orgMatches ∧
    (AutoAssignSoftwareToStaff f now st staffID departmentID teamID).1.softwareAssignments =
      st.softwareAssignments := by
  have h : OnlyAdds staffID st
      (AutoAssignSoftwareToStaff f now st staffID departmentID teamID).1 :=
    autoAssign_keeps (fun s => OnlyAdds staffID st s) f now st staffID departmentID teamID
      (fun existing s c source hs =>
        hs.thenAdds (assignIfNotExists_onlyAdds f now staffID existing s c source))
      (OnlyAdds.of_unchanged_store staffID st)
  obtain ⟨created, newLogs, ha, hs, hl, hd, ht, ho, hp, hw, hr⟩ := h
  refine ⟨⟨created, newLogs, ha, hs, hl⟩, ?_, hp, hw, hd, ht, ho, hr⟩
  intro e he
  rw [ha]
  exact List.mem_append_left _ he

/-! ## `AutoAssignSoftwareToStaff` when writes fail -/

/-- One step of the closure when the software is not in the map and the insert
of the log row succeeds: the log row is appended whether or not the insert of
the edge failed. -/
theorem assignIfNotExists_logs_anyway (f : Faults) (now staffID : Nat) (existing : List Nat)
    (st : Store) (softwareID : Nat) (source : String) (h : softwareID ∉ existing)
    (hlog : f (.createLog staffID softwareID "Assigned") = false) :
    ∃ created l,
      Appends st (assignIfNotExists f now staffID existing st softwareID source) created [l] ∧
      created.map edgeKey =
        (if f (.createAssigned staffID softwareID source) then []
         else [(staffID, softwareID, sourceOrDefault source)]) ∧
      logKey l = (staffID, softwareID, "Assigned") := by
  by_cases hc : f (.createAssigned staffID softwareID source) = true
  · refine ⟨[], ⟨nextID (st.logs.map (·.ID)), staffID, softwareID, "Assigned", 0, now, now⟩,
      ?_, by simp [hc], rfl⟩
    simp [assignIfNotExists, h, logAssignmentChange, createAssignedSoftware, hc, hlog, Appends]
  · have hc0 : f (.createAssigned staffID softwareID source) = false := by
      simpa using hc
    refine ⟨[⟨nextID (st.assigned.map (·.ID)), staffID, softwareID, sourceOrDefault source,
               now, now⟩],
            ⟨nextID (st.logs.map (·.ID)), staffID, softwareID, "Assigned", 0, now, now⟩,
            ?_, by simp [hc0, edgeKey], rfl⟩
    simp [assignIfNotExists, h, logAssignmentChange, createAssignedSoftware, hc0, hlog, Appends]

/-- A loop of the closure when the inserts of the log rows succeed: one log row
per id that is not in the map, and one edge per such id whose insert did not
fail. -/
theorem assignLoop_logs_anyway (f : Faults) (now staffID : Nat) (existing : List Nat)
    (source : String) (cs : List Nat) (st : Store)
    (hlog : ∀ X, f (.createLog staffID X "Assigned") = false) :
    ∃ created newLogs,
      Appends st
        (cs.foldl (fun s c => assignIfNotExists f now staffID existing s c source) st)
        created newLogs ∧
      created.map edgeKey =
        (cs.filter fun c =>
          decide (c ∉ existing) && !f (.createAssigned staffID c source)).map
          (fun c => (staffID, c, sourceOrDefault source)) ∧
      newLogs.map logKey =
        (cs.filter fun c => decide (c ∉ existing)).map
          (fun c => (staffID, c, "Assigned")) := by
  induction cs generalizing st with
  | nil => exact ⟨[], [], Appends.refl st, rfl, rfl⟩
  | cons c cs ih =>
    simp only [List.foldl_cons]
    by_cases h : c ∈ existing
    · rw [assignIfNotExists_of_mem _ _ _ _ _ _ _ h]
      obtain ⟨created, newLogs, ha, hc, hl⟩ := ih st
      refine ⟨created, newLogs, ha, ?_, ?_⟩
      · simpa [List.filter_cons, h] using hc
      · simpa [List.filter_cons, h] using hl
    · obtain ⟨c0, l, ha0, he, hl0⟩ :=
        assignIfNotExists_logs_anyway f now staffID existing st c source h (hlog c)
      obtain ⟨created, newLogs, ha, hc, hl⟩ :=
        ih (assignIfNotExists f now staffID existing st c source)
      refine ⟨c0 ++ created, [l] ++ newLogs, ha0.trans ha, ?_, ?_⟩
      · rw [List.map_append, he, hc]
        by_cases hcr : f (.createAssigned staffID c source) = true
        · simp [List.filter_cons, h, hcr]
        · have hcr0 : f (.createAssigned staffID c source) = false := by simpa using hcr
          simp [List.filter_cons, h, hcr0]
      · simp [List.filter_cons, h, hl0, hl]

/-- `AutoAssignSoftwareToStaff` when its four reads succeed is the three loops
one after the other, and it returns `nil`, whatever write fails. -/
theorem autoAssign_of_reads (f : Faults) (now : Nat) (st : Store)
    (staffID departmentID teamID : Nat)
    (h1 : f (.pluckAssignedSoftwareIDs staffID) = false)
    (h2 : f (.findDepartmentMatches departmentID) = false)
    (h3 : f (.findTeamMatches teamID) = false)
    (h4 : f .findOrganizationMatches = false) :
    AutoAssignSoftwareToStaff f now st staffID departmentID teamID =
      (let existing := heldBy st staffID
       let st1 := ((st.deptMatches.filter fun m => m.DepartmentID == departmentID).map
          (·.SoftwareID)).foldl
          (fun s c => assignIfNotExists f now staffID existing s c SourceDepartment) st
       let st2 := ((st1.teamMatches.filter fun m => m.TeamID == teamID).map
          (·.SoftwareID)).foldl
          (fun s c => assignIfNotExists f now staffID existing s c SourceTeam) st1
       let st3 := (st2.orgMatches.map (·.SoftwareID)).foldl
          (fun s c => assignIfNotExists f now staffID existing s c SourceOrganization) st2
       (st3, none)) := by
  simp [AutoAssignSoftwareToStaff, h1, h2, h3, h4, heldBy, List.foldl_map]

/-- The effect of `AutoAssignSoftwareToStaff` when its reads and the inserts of
its log rows succeed: one `Assigned` row per candidate whose software the staff
member did not hold, and one edge per such candidate whose insert did not
fail. -/
theorem autoAssign_logs_anyway (f : Faults) (now : Nat) (st : Store)
    (staffID departmentID teamID : Nat)
    (h1 : f (.pluckAssignedSoftwareIDs staffID) = false)
    (h2 : f (.findDepartmentMatches departmentID) = false)
    (h3 : f (.findTeamMatches teamID) = false)
    (h4 : f .findOrganizationMatches = false)
    (hlog : ∀ X, f (.createLog staffID X "Assigned") = false) :
    ∃ created newLogs,
      Appends st (AutoAssignSoftwareToStaff f now st staffID departmentID teamID).1
        created newLogs ∧
      created.map edgeKey =
        ((candidateList st departmentID teamID).filter fun c =>
          decide (c.1 ∉ heldBy st staffID) && !f (.createAssigned staffID c.1 c.2)).map
          (fun c => (staffID, c.1, c.2)) ∧
      newLogs.map logKey =
        ((candidateList st departmentID teamID).filter
          fun c => decide (c.1 ∉ heldBy st staffID)).map
            (fun c => (staffID, c.1, "Assigned")) := by
  rw [autoAssign_of_reads f now st staffID departmentID teamID h1 h2 h3 h4]
  dsimp only
  obtain ⟨c1, l1, ha1, hc1, hl1⟩ := assignLoop_logs_anyway f now staffID (heldBy st staffID)
    SourceDepartment
    ((st.deptMatches.filter fun m => m.DepartmentID == departmentID).map (·.SoftwareID)) st
    hlog
  generalize ((st.deptMatches.filter fun m => m.DepartmentID == departmentID).map
    (·.SoftwareID)).foldl
    (fun s c => assignIfNotExists f now staffID (heldBy st staffID) s c SourceDepartment)
    st = st1 at ha1 ⊢
  obtain ⟨c2, l2, ha2, hc2, hl2⟩ := assignLoop_logs_anyway f now staffID (heldBy st staffID)
    SourceTeam
    ((st1.teamMatches.filter fun m => m.TeamID == teamID).map (·.SoftwareID)) st1 hlog
  generalize ((st1.teamMatches.filter fun m => m.TeamID == teamID).map
    (·.SoftwareID)).foldl
    (fun s c => assignIfNotExists f now staffID (heldBy st staffID) s c SourceTeam)
    st1 = st2 at ha2 ⊢
  obtain ⟨c3, l3, ha3, hc3, hl3⟩ := assignLoop_logs_anyway f now staffID (heldBy st staffID)
    SourceOrganization (st2.orgMatches.map (·.SoftwareID)) st2 hlog
  refine ⟨c1 ++ c2 ++ c3, l1 ++ l2 ++ l3, (ha1.trans ha2).trans ha3, ?_, ?_⟩
  · rw [List.map_append, List.map_append, hc1, hc2, hc3, ha1.2.2.2.1, ha2.2.2.2.2,
      ha1.2.2.2.2, sourceOrDefault_department, sourceOrDefault_team,
      sourceOrDefault_organization]
    simp [candidateList, List.filter_map, Function.comp_def]
  · rw [List.map_append, List.map_append, hl1, hl2, hl3, ha1.2.2.2.1, ha2.2.2.2.2,
      ha1.2.2.2.2]
    simp [candidateList, List.filter_map, Function.comp_def]

/-! ## C28: write failures in `AutoAssignSoftwareToStaff` -/

theorem assignIfNotExists_of_creates_fail (f : Faults) (now staffID : Nat)
    (existing : List Nat) (st : Store) (softwareID : Nat) (source : String)
    (hfail : ∀ X σ, f (.createAssigned staffID X σ) = true) :
    (assignIfNotExists f now staffID existing st softwareID source).assigned = st.assigned := by
  unfold assignIfNotExists
  split
  · rfl
  · rw [logAssignmentChange_assigned]
    simp [createAssignedSoftware, hfail]

/-- C28: when the four reads of `AutoAssignSoftwareToStaff` succeed it returns
`nil`, whatever write fails. When moreover the inserts of the log rows succeed,
an `Assigned` row is appended for every candidate whose software the staff
member did not hold, while an edge is appended only for those of them whose
insert did not fail; and when every insert of an edge fails the table of edges
is as before. -/
theorem C28_autoAssign_swallows_write_failures (f : Faults) (now : Nat) (st : Store)
    (staffID departmentID teamID : Nat)
    (h1 : f (.pluckAssignedSoftwareIDs staffID) = false)
    (h2 : f (.findDepartmentMatches departmentID) = false)
    (h3 : f (.findTeamMatches teamID) = false)
    (h4 : f .findOrganizationMatches = false) :
    (AutoAssignSoftwareToStaff f now st staffID departmentID teamID).2 = none ∧
    ((∀ X, f (.createLog staffID X "Assigned") = false) →
      ∃ created newLogs,
        (AutoAssignSoftwareToStaff f now st staffID departmentID teamID).1.assigned =
          st.assigned ++ created ∧
        (AutoAssignSoftwareToStaff f now st staffID departmentID teamID).1.logs =
          st.logs ++ newLogs ∧
        created.map edgeKey =
          ((candidateList st departmentID teamID).filter fun c =>
            decide (c.1 ∉ heldBy st staffID) && !f (.createAssigned staffID c.1 c.2)).map
            (fun c => (staffID, c.1, c.2)) ∧
        newLogs.map logKey =
          ((candidateList st departmentID teamID).filter
            fun c => decide (c.1 ∉ heldBy st staffID)).map
              (fun c => (staffID, c.1, "Assigned"))) ∧
    ((∀ X σ, f (.createAssigned staffID X σ) = true) →
      (AutoAssignSoftwareToStaff f now st staffID departmentID teamID).1.assigned =
        st.assigned) := by
  refine ⟨?_, ?_, ?_⟩
  · rw [autoAssign_of_reads f now st staffID departmentID teamID h1 h2 h3 h4]
  · intro hlog
    obtain ⟨created, newLogs, ha, hc, hl⟩ :=
      autoAssign_logs_anyway f now st staffID departmentID teamID h1 h2 h3 h4 hlog
    exact ⟨created, newLogs, ha.1, ha.2.1, hc, hl⟩
  · intro hfail
    exact autoAssign_keeps (fun s => s.assigned = st.assigned) f now st staffID departmentID
      teamID (fun existing s c source hs =>
        (assignIfNotExists_of_creates_fail f now staffID existing s c source hfail).trans hs)
      rfl

/-- C28 at `partialWriteStore` when every insert of an edge fails: the call
returns `nil`, no edge is created, and the log says that software 7 was
assigned to staff member 1. -/
theorem C28_autoAssign_swallows_write_failures_witness :
    createsFail (.pluckAssignedSoftwareIDs 1) = false ∧
    createsFail (.findDepartmentMatches 3) = false ∧
    createsFail (.findTeamMatches 0) = false ∧
    createsFail .findOrganizationMatches = false ∧
    (AutoAssignSoftwareToStaff createsFail 100 partialWriteStore 1 3 0).2 = none ∧
    (AutoAssignSoftwareToStaff createsFail 100 partialWriteStore 1 3 0).1.assigned = [] ∧
    (AutoAssignSoftwareToStaff createsFail 100 partialWriteStore 1 3 0).1.logs.map logKey =
      [(1, 7, "Assigned")] :=
  ⟨rfl, rfl, rfl, rfl,
   (C28_autoAssign_swallows_write_failures createsFail 100 partialWriteStore 1 3 0
     rfl rfl rfl rfl).1,
   by decide, by decide⟩

/-! ## Staff deletion -/

theorem offboardStep_staff (f : Faults) (now : Nat) (st : Store) (a : AssignedSoftware) :
    (offboardStep f now st a).staff = st.staff := by
  unfold offboardStep logAssignmentChange deleteAssignedByID
  split
  · split <;> split <;> try split
    all_goals rfl
  · rfl

theorem revokeAll_staff (f : Faults) (now : Nat) (st : Store) (s : Nat) :
    (RevokeSoftwareAssignmentsForStaff f now st s).1.staff = st.staff := by
  unfold RevokeSoftwareAssignmentsForStaff
  split
  · rfl
  · exact foldl_keeps (fun x => x.staff = st.staff) (fun x a => offboardStep f now x a)
      (fun x a hx => (offboardStep_staff f now x a).trans hx) _ st rfl

/-- Offboarding when the store does not fail and the primary key is valid: the
edges of the staff member with a match-based source are removed, every other
edge stays. -/
theorem revokeAll_noFaults_assigned (now : Nat) (st : Store) (s : Nat)
    (hpk : PrimaryKeyValid st.assigned) :
    (RevokeSoftwareAssignmentsForStaff noFaults now st s).1.assigned =
      st.assigned.filter fun e => !(e.StaffID == s && isAutoAssigned e.Source) := by
  rw [revokeAll_noFaults_eq]
  dsimp only
  obtain ⟨hA, -⟩ := offboardLoop_noFaults now
    (st.assigned.filter fun e => e.StaffID == s) st
    (fun a ha => hpk.2 a (List.mem_filter.1 ha).1)
  have hinj := List.inj_on_of_nodup_map hpk.1
  rw [hA]
  apply List.filter_congr
  intro e he
  rw [Bool.eq_iff_iff]
  simp only [decide_eq_true_eq, List.mem_map, List.mem_filter, beq_iff_eq, Bool.not_eq_true',
    Bool.and_eq_false_iff, beq_eq_false_iff_ne, ne_eq]
  constructor
  · intro h
    by_cases hs : e.StaffID = s
    · right
      cases hauto : isAutoAssigned e.Source with
      | false => rfl
      | true => exact absurd ⟨e, ⟨⟨he, hs⟩, hauto⟩, rfl⟩ h
    · left
      exact hs
  · rintro h ⟨a, ⟨⟨ha, has⟩, hauto⟩, haid⟩
    have : a = e := hinj ha he haid
    subst this
    rcases h with h | h
    · exact h has
    · rw [h] at hauto
      cases hauto

theorem firstStaff_noFaults_of_mem (st : Store) (s : Nat)
    (hex : ∃ p ∈ st.staff, p.ID = s) :
    ∃ p, firstStaff noFaults st s = some p ∧ p.ID = s := by
  cases hfind : st.staff.find? (fun r => r.ID == s) with
  | none =>
    obtain ⟨p, hp, hid⟩ := hex
    have := List.find?_eq_none.1 hfind p hp
    simp [hid] at this
  | some p =>
    refine ⟨p, by simp [firstStaff, noFaults, hfind], ?_⟩
    have := List.find?_some hfind
    simpa using this

/-! ## C22: the edges left by a staff deletion -/

/-- C22, as stated, fails: in `deleteStaffStore` staff member 1 holds software
8 by a manual grant. `DeleteStaff 1` answers 200 and removes the staff record,
and the edge (1, 8, manual) is still in the table. -/
theorem C22_deleteStaff_keeps_manual_edges :
    (DeleteStaff noFaults 100 deleteStaffStore 1).2 = 200 ∧
    (DeleteStaff noFaults 100 deleteStaffStore 1).1.staff = [] ∧
    (DeleteStaff noFaults 100 deleteStaffStore 1).1.assigned.map edgeKey =
      [(1, 8, "manual"), (2, 7, "department")] ∧
    ¬ (∀ e ∈ (DeleteStaff noFaults 100 deleteStaffStore 1).1.assigned, e.StaffID ≠ 1) := by
  decide

/-- C22, amended: for a store whose `assigned_software` primary key is valid,
an existing staff member with the non-zero key `s` and every store operation
succeeding, `DeleteStaff s` answers 200; afterwards no staff record has the key
`s`, no edge of `s` tagged `department`, `team` or `organization` remains, and
every other edge, in particular an edge of `s` with another source, is still
in the table. -/
theorem C22_deleteStaff_amended (now : Nat) (st : Store) (s : Nat)
    (hpk : PrimaryKeyValid st.assigned) (hs : s ≠ 0)
    (hex : ∃ p ∈ st.staff, p.ID = s) :
    (DeleteStaff noFaults now st s).2 = 200 ∧
    (∀ p ∈ (DeleteStaff noFaults now st s).1.staff, p.ID ≠ s) ∧
    (DeleteStaff noFaults now st s).1.assigned =
      (st.assigned.filter fun e => !(e.StaffID == s && isAutoAssigned e.Source)) ∧
    (∀ e ∈ (DeleteStaff noFaults now st s).1.assigned, e.StaffID = s →
      e.Source ≠ "department" ∧ e.Source ≠ "team" ∧ e.Source ≠ "organization") ∧
    (∀ e ∈ st.assigned, e.StaffID ≠ s ∨ isAutoAssigned e.Source = false →
      e ∈ (DeleteStaff noFaults now st s).1.assigned) := by
  obtain ⟨p, hfirst, hid⟩ := firstStaff_noFaults_of_mem st s hex
  have hres : DeleteStaff noFaults now st s =
      ({ (RevokeSoftwareAssignmentsForStaff noFaults now st s).1 with
         staff := (RevokeSoftwareAssignmentsForStaff noFaults now st s).1.staff.filter
           fun r => !(r.ID == s) }, 200) := by
    simp [DeleteStaff, hfirst, noFaults, hid, hs]
  have hA := revokeAll_noFaults_assigned now st s hpk
  rw [hres]
  refine ⟨rfl, ?_, hA, ?_, ?_⟩
  · intro r hr
    have hr' : r ∈ (RevokeSoftwareAssignmentsForStaff noFaults now st s).1.staff.filter
        fun r => !(r.ID == s) := hr
    have := (List.mem_filter.1 hr').2
    simpa using this
  · intro e he hes
    have he' : e ∈ (RevokeSoftwareAssignmentsForStaff noFaults now st s).1.assigned := he
    rw [hA] at he'
    have h2 := (List.mem_filter.1 he').2
    have hauto : isAutoAssigned e.Source = false := by
      simpa [hes] using h2
    have hnot : ¬ (e.Source = "department" ∨ e.Source = "team" ∨ e.Source = "organization") := by
      rw [← isAutoAssigned_iff, hauto]
      simp
    exact ⟨fun h => hnot (Or.inl h), fun h => hnot (Or.inr (Or.inl h)),
      fun h => hnot (Or.inr (Or.inr h))⟩
  · intro e he hcase
    show e ∈ (RevokeSoftwareAssignmentsForStaff noFaults now st s).1.assigned
    rw [hA]
    refine List.mem_filter.2 ⟨he, ?_⟩
    rcases hcase with h | h
    · have hb : (e.StaffID == s) = false := beq_eq_false_iff_ne.2 h
      simp [hb]
    · simp [h]

/-- C22, amended, at `deleteStaffStore`: the deletion of staff member 1 leaves
the manual edge for software 8 and the edge of staff member 2. -/
theorem C22_deleteStaff_amended_witness :
    PrimaryKeyValid deleteStaffStore.assigned ∧
    (∃ p ∈ deleteStaffStore.staff, p.ID = 1) ∧
    (DeleteStaff noFaults 100 deleteStaffStore 1).1.assigned =
      (deleteStaffStore.assigned.filter fun e =>
        !(e.StaffID == 1 && isAutoAssigned e.Source)) :=
  ⟨by decide, by decide,
   (C22_deleteStaff_amended 100 deleteStaffStore 1 (by decide) (by decide)
     (by decide)).2.2.1⟩

/-! ## Deletion of a scoped rule -/

/-- The loop of `DeleteSoftwareAssignment` over rows with a non-zero key, the
store not failing: it deletes the rows whose key is the key of a row of the
list and appends one system row per row of the list. -/
theorem ruleDeletedLoop_noFaults (now : Nat) (rows : List AssignedSoftware) (st : Store)
    (hkey : ∀ a ∈ rows, a.ID ≠ 0) :
    (rows.foldl (fun s a => ruleDeletedStep noFaults now s a) st).assigned =
      (st.assigned.filter fun e => decide (e.ID ∉ rows.map (·.ID))) ∧
    (rows.foldl (fun s a => ruleDeletedStep noFaults now s a) st).softwareAssignments =
      st.softwareAssignments ∧
    ∃ newLogs,
      (rows.foldl (fun s a => ruleDeletedStep noFaults now s a) st).logs = st.logs ++ newLogs ∧
      (∀ l ∈ newLogs, l.ChangedBy = 0) ∧
      newLogs.map logKey =
        rows.map (fun a => (a.StaffID, a.SoftwareID, "Unassigned (Rule Deleted)")) := by
  induction rows generalizing st with
  | nil => exact ⟨by simp, rfl, [], by simp, by simp, rfl⟩
  | cons a rows ih =>
    simp only [List.foldl_cons]
    have ha0 : a.ID ≠ 0 := hkey a (List.mem_cons_self _ _)
    have hstep : ruleDeletedStep noFaults now st a =
        { st with
          assigned := st.assigned.filter fun e => !(e.ID == a.ID)
          logs := st.logs ++
            [⟨nextID (st.logs.map (·.ID)), a.StaffID, a.SoftwareID,
              "Unassigned (Rule Deleted)", 0, now, now⟩] } := by
      simp [ruleDeletedStep, createLog, deleteAssignedByID, noFaults, ha0]
    obtain ⟨hA, hR, newLogs, hL, hB, hK⟩ :=
      ih (ruleDeletedStep noFaults now st a) fun x hx => hkey x (List.mem_cons_of_mem _ hx)
    refine ⟨?_, ?_, ?_⟩
    · rw [hA, hstep]
      dsimp only
      rw [List.filter_filter]
      apply List.filter_congr
      intro e _
      rw [Bool.eq_iff_iff]
      simp only [List.map_cons, List.mem_cons, Bool.and_eq_true, decide_eq_true_eq,
        Bool.not_eq_true', beq_eq_false_iff_ne, ne_eq]
      tauto
    · rw [hR, hstep]
    · refine ⟨⟨nextID (st.logs.map (·.ID)), a.StaffID, a.SoftwareID,
          "Unassigned (Rule Deleted)", 0, now, now⟩ :: newLogs, ?_, ?_, ?_⟩
      · rw [hL, hstep]
        simp
      · intro l hl
        rcases List.mem_cons.1 hl with h | h
        · rw [h]
        · exact hB l h
      · simp only [List.map_cons, hK]
        rfl

/-! ## C30: deleting a scoped rule revokes the software from everyone -/

/-- C30: for a store whose `assigned_software` primary key is valid and with
every store operation succeeding, `DeleteSoftwareAssignment` on an existing
rule deletes every edge whose software is the rule's software, whatever the
rule's scope, the staff member and the edge's source, keeps every other edge,
and appends one log row, with the staff and software of the edge, per deleted
edge; it answers 200 and the rule is gone. -/
theorem C30_deleteSoftwareAssignment_revokes_from_everyone (now : Nat) (st : Store)
    (id : Nat) (rule : SoftwareAssignment)
    (hpk : PrimaryKeyValid st.assigned) (hid : id ≠ 0)
    (hrule : firstSoftwareAssignment noFaults st id = some rule) :
    (DeleteSoftwareAssignment noFaults now st id).2 = 200 ∧
    (DeleteSoftwareAssignment noFaults now st id).1.assigned =
      (st.assigned.filter fun e => !(e.SoftwareID == rule.SoftwareID)) ∧
    (∀ e ∈ (DeleteSoftwareAssignment noFaults now st id).1.assigned,
      e.SoftwareID ≠ rule.SoftwareID) ∧
    (∃ newLogs,
      (DeleteSoftwareAssignment noFaults now st id).1.logs = st.logs ++ newLogs ∧
      (∀ l ∈ newLogs, l.ChangedBy = 0) ∧
      newLogs.map logKey =
        (st.assigned.filter fun e => e.SoftwareID == rule.SoftwareID).map
          (fun e => (e.StaffID, e.SoftwareID, "Unassigned (Rule Deleted)"))) ∧
    (∀ r ∈ (DeleteSoftwareAssignment noFaults now st id).1.softwareAssignments, r.ID ≠ id) := by
  have hrid : rule.ID = id := by
    unfold firstSoftwareAssignment at hrule
    simp only [noFaults, Bool.false_eq_true, if_false] at hrule
    simpa using List.find?_some hrule
  obtain ⟨hA, hR, newLogs, hL, hB, hK⟩ := ruleDeletedLoop_noFaults now
    (st.assigned.filter fun e => e.SoftwareID == rule.SoftwareID) st
    (fun a ha => hpk.2 a (List.mem_filter.1 ha).1)
  have hres : DeleteSoftwareAssignment noFaults now st id =
      ({ ((st.assigned.filter fun e => e.SoftwareID == rule.SoftwareID).foldl
            (fun s a => ruleDeletedStep noFaults now s a) st) with
         softwareAssignments :=
           ((st.assigned.filter fun e => e.SoftwareID == rule.SoftwareID).foldl
             (fun s a => ruleDeletedStep noFaults now s a) st).softwareAssignments.filter
               fun r => !(r.ID == id) }, 200) := by
    simp [DeleteSoftwareAssignment, hrule, noFaults, hrid, hid, ruleDeletedStep]
  have hinj := List.inj_on_of_nodup_map hpk.1
  have hassigned : ((st.assigned.filter fun e => e.SoftwareID == rule.SoftwareID).foldl
      (fun s a => ruleDeletedStep noFaults now s a) st).assigned =
      st.assigned.filter fun e => !(e.SoftwareID == rule.SoftwareID) := by
    rw [hA]
    apply List.filter_congr
    intro e he
    rw [Bool.eq_iff_iff]
    simp only [decide_eq_true_eq, List.mem_map, List.mem_filter, beq_iff_eq,
      Bool.not_eq_true', beq_eq_false_iff_ne, ne_eq]
    constructor
    · intro h hc
      exact h ⟨e, ⟨he, hc⟩, rfl⟩
    · rintro h ⟨a, ⟨ha, hax⟩, haid⟩
      have : a = e := hinj ha he haid
      subst this
      exact h hax
  rw [hres]
  refine ⟨rfl, hassigned, ?_, ⟨newLogs, hL, hB, hK⟩, ?_⟩
  · intro e he
    have he' : e ∈ ((st.assigned.filter fun e => e.SoftwareID == rule.SoftwareID).foldl
        (fun s a => ruleDeletedStep noFaults now s a) st).assigned := he
    rw [hassigned] at he'
    have := (List.mem_filter.1 he').2
    simpa using this
  · intro r hr
    have hr' : r ∈ ((st.assigned.filter fun e => e.SoftwareID == rule.SoftwareID).foldl
        (fun s a => ruleDeletedStep noFaults now s a) st).softwareAssignments.filter
          fun r => !(r.ID == id) := hr
    have := (List.mem_filter.1 hr').2
    simpa using this

/-- C30 at `scopedRuleStore`: the rule for software 7 is scoped to team 5, and
its deletion removes the manual edge of staff member 1 for software 7. -/
theorem C30_deleteSoftwareAssignment_revokes_from_everyone_witness :
    PrimaryKeyValid scopedRuleStore.assigned ∧
    firstSoftwareAssignment noFaults scopedRuleStore 1 =
      some { ID := 1, SoftwareID := 7, ScopeType := "Team", ScopeID := 5 } ∧
    scopedRuleStore.assigned.map edgeKey = [(1, 7, "manual")] ∧
    (DeleteSoftwareAssignment noFaults 100 scopedRuleStore 1).1.assigned =
      (scopedRuleStore.assigned.filter fun e => !(e.SoftwareID == 7)) :=
  ⟨by decide, by decide, by decide,
   (C30_deleteSoftwareAssignment_revokes_from_everyone 100 scopedRuleStore 1
     { ID := 1, SoftwareID := 7, ScopeType := "Team", ScopeID := 5 }
     (by decide) (by decide) (by decide)).2.1⟩

/-! ## C26: department and team id zero -/

/-- C26, as stated, fails: the engine compares the ids and gives zero no
special meaning. In `zeroUnitStore`, whose department rule and team rule have
the unit id 0, `AutoAssignSoftwareToStaff 1 0 0` creates an edge tagged
`department` and an edge tagged `team`. Such a rule can be created:
`CreateSoftwareDepartmentMatch` with a body without `department_id` answers 201
and stores a rule for department 0. -/
theorem C26_zero_unit_rules_are_applied :
    (AutoAssignSoftwareToStaff noFaults 100 zeroUnitStore 1 0 0).1.assigned.map edgeKey =
      [(1, 7, "department"), (1, 8, "team"), (1, 9, "organization")] ∧
    (CreateSoftwareDepartmentMatch noFaults 100 {}
      (some { ID := 0, SoftwareID := 7, DepartmentID := 0 })).2 = 201 ∧
    (CreateSoftwareDepartmentMatch noFaults 100 {}
      (some { ID := 0, SoftwareID := 7, DepartmentID := 0 })).1.deptMatches.map
        (fun m => (m.SoftwareID, m.DepartmentID)) = [(7, 0)] ∧
    (AutoAssignSoftwareToStaff noFaults 101
      (CreateSoftwareDepartmentMatch noFaults 100 {}
        (some { ID := 0, SoftwareID := 7, DepartmentID := 0 })).1 1 0 0).1.assigned.map
        edgeKey = [(1, 7, "department")] := by
  decide

theorem assignIfNotExists_organization (f : Faults) (now staffID : Nat) (existing : List Nat)
    (st0 st : Store) (softwareID : Nat)
    (h : ∃ created, st.assigned = st0.assigned ++ created ∧
      ∀ e ∈ created, e.Source = "organization") :
    ∃ created,
      (assignIfNotExists f now staffID existing st softwareID SourceOrganization).assigned =
        st0.assigned ++ created ∧
      ∀ e ∈ created, e.Source = "organization" := by
  obtain ⟨created, ha, hs⟩ := h
  unfold assignIfNotExists
  split
  · exact ⟨created, ha, hs⟩
  · rw [logAssignmentChange_assigned]
    unfold createAssignedSoftware
    split
    · exact ⟨created, ha, hs⟩
    · refine ⟨created ++ [⟨nextID (st.assigned.map (·.ID)), staffID, softwareID,
        sourceOrDefault SourceOrganization, now, now⟩], ?_, ?_⟩
      · show st.assigned ++ _ = _
        rw [ha, List.append_assoc]
      · intro e he
        rcases List.mem_append.1 he with h | h
        · exact hs e h
        · rw [List.mem_singleton] at h
          rw [h]
          rfl

/-- C26, amended: when no department rule has the department id 0 and no team
rule has the team id 0, every edge `AutoAssignSoftwareToStaff staffID 0 0`
creates is tagged `organization`, whatever store call fails. -/
theorem C26_zero_units_amended (f : Faults) (now : Nat) (st : Store) (staffID : Nat)
    (hd : ∀ m ∈ st.deptMatches, m.DepartmentID ≠ 0)
    (ht : ∀ m ∈ st.teamMatches, m.TeamID ≠ 0) :
    ∃ created,
      (AutoAssignSoftwareToStaff f now st staffID 0 0).1.assigned = st.assigned ++ created ∧
      ∀ e ∈ created, e.Source = "organization" := by
  have hdl : (st.deptMatches.filter fun m => m.DepartmentID == 0) = [] :=
    List.filter_eq_nil_iff.2 fun m hm => by simpa using hd m hm
  have htl : (st.teamMatches.filter fun m => m.TeamID == 0) = [] :=
    List.filter_eq_nil_iff.2 fun m hm => by simpa using ht m hm
  have hsame : ∃ created : List AssignedSoftware, st.assigned = st.assigned ++ created ∧
      ∀ e ∈ created, e.Source = "organization" := ⟨[], by simp, by simp⟩
  unfold AutoAssignSoftwareToStaff
  simp only [hdl, htl, List.foldl_nil]
  split
  · exact hsame
  · split
    · exact hsame
    · split
      · exact hsame
      · split
        · exact hsame
        · exact foldl_keeps
            (fun s => ∃ created, s.assigned = st.assigned ++ created ∧
              ∀ e ∈ created, e.Source = "organization") _
            (fun s m hs => assignIfNotExists_organization f now staffID _ st s m.SoftwareID hs)
            _ st hsame

/-- C26, amended, at `movedStaffStore`, whose rules are for department 3 and the
organization: staff member 2 without department and team gets the software of
the organization rule only. -/
theorem C26_zero_units_amended_witness :
    (∀ m ∈ movedStaffStore.deptMatches, m.DepartmentID ≠ 0) ∧
    (∀ m ∈ movedStaffStore.teamMatches, m.TeamID ≠ 0) ∧
    (AutoAssignSoftwareToStaff noFaults 100 movedStaffStore 2 0 0).1.assigned.map edgeKey =
      movedStaffStore.assigned.map edgeKey ++ [(2, 7, "organization")] ∧
    ∃ created,
      (AutoAssignSoftwareToStaff noFaults 100 movedStaffStore 2 0 0).1.assigned =
        movedStaffStore.assigned ++ created ∧
      ∀ e ∈ created, e.Source = "organization" :=
  ⟨by decide, by decide, by decide,
   C26_zero_units_amended noFaults 100 movedStaffStore 2 (by decide) (by decide)⟩

/-! ## The engine does not read the `staff` table -/

theorem foldl_withStaff {α : Type} (g : Store → α → Store) (tbl : List Staff)
    (hg : ∀ s x, g (withStaff s tbl) x = withStaff (g s x) tbl) (xs : List α) (st : Store) :
    xs.foldl g (withStaff st tbl) = withStaff (xs.foldl g st) tbl := by
  induction xs generalizing st with
  | nil => rfl
  | cons x xs ih =>
    simp only [List.foldl_cons]
    rw [hg, ih]

theorem createAssignedSoftware_withStaff (f : Faults) (now : Nat) (st : Store)
    (tbl : List Staff) (staffID softwareID : Nat) (source : String) :
    createAssignedSoftware f now (withStaff st tbl) staffID softwareID source =
      withStaff (createAssignedSoftware f now st staffID softwareID source) tbl := by
  unfold createAssignedSoftware
  split <;> rfl

theorem logAssignmentChange_withStaff (f : Faults) (now : Nat) (st : Store)
    (tbl : List Staff) (staffID softwareID : Nat) (action : String) :
    logAssignmentChange f now (withStaff st tbl) staffID softwareID action =
      withStaff (logAssignmentChange f now st staffID softwareID action) tbl := by
  unfold logAssignmentChange
  split <;> rfl

theorem assignIfNotExists_withStaff (f : Faults) (now staffID : Nat) (existing : List Nat)
    (st : Store) (tbl : List Staff) (softwareID : Nat) (source : String) :
    assignIfNotExists f now staffID existing (withStaff st tbl) softwareID source =
      withStaff (assignIfNotExists f now staffID existing st softwareID source) tbl := by
  unfold assignIfNotExists
  split
  · rfl
  · rw [createAssignedSoftware_withStaff, logAssignmentChange_withStaff]

theorem revokeStep_withStaff (f : Faults) (now : Nat) (source : String) (st : Store)
    (tbl : List Staff) (staffID softwareID : Nat) :
    revokeStep f now source (withStaff st tbl) staffID softwareID =
      withStaff (revokeStep f now source st staffID softwareID) tbl := by
  have hdel : deleteAssignedWhere f (withStaff st tbl) staffID softwareID source =
      (withStaff (deleteAssignedWhere f st staffID softwareID source).1 tbl,
       (deleteAssignedWhere f st staffID softwareID source).2) := by
    unfold deleteAssignedWhere
    split <;> rfl
  unfold revokeStep
  rw [hdel]
  dsimp only
  split
  · exact logAssignmentChange_withStaff f now _ tbl _ _ _
  · rfl

theorem offboardStep_withStaff (f : Faults) (now : Nat) (st : Store) (tbl : List Staff)
    (a : AssignedSoftware) :
    offboardStep f now (withStaff st tbl) a = withStaff (offboardStep f now st a) tbl := by
  unfold offboardStep
  split
  · have hdel : deleteAssignedByID f (withStaff st tbl) a =
        withStaff (deleteAssignedByID f st a) tbl := by
      unfold deleteAssignedByID
      split
      · rfl
      · split <;> rfl
    rw [hdel, logAssignmentChange_withStaff]
  · rfl

theorem autoAssign_withStaff (f : Faults) (now : Nat) (st : Store) (tbl : List Staff)
    (staffID departmentID teamID : Nat) :
    AutoAssignSoftwareToStaff f now (withStaff st tbl) staffID departmentID teamID =
      (withStaff (AutoAssignSoftwareToStaff f now st staffID departmentID teamID).1 tbl,
       (AutoAssignSoftwareToStaff f now st staffID departmentID teamID).2) := by
  have hloop : ∀ (source : String) (β : Type) (sel : β → Nat) (xs : List β) (s : Store),
      xs.foldl (fun s m => assignIfNotExists f now staffID
          ((st.assigned.filter fun e => e.StaffID == staffID).map (·.SoftwareID))
          s (sel m) source) (withStaff s tbl) =
        withStaff (xs.foldl (fun s m => assignIfNotExists f now staffID
          ((st.assigned.filter fun e => e.StaffID == staffID).map (·.SoftwareID))
          s (sel m) source) s) tbl := by
    intro source β sel xs s
    exact foldl_withStaff _ tbl
      (fun s m => assignIfNotExists_withStaff f now staffID _ s tbl (sel m) source) xs s
  have ha : (withStaff st tbl).assigned = st.assigned := rfl
  have hd : (withStaff st tbl).deptMatches = st.deptMatches := rfl
  have ht : ∀ s : Store, (withStaff s tbl).teamMatches = s.teamMatches := fun _ => rfl
  have ho : ∀ s : Store, (withStaff s tbl).orgMatches = s.orgMatches := fun _ => rfl
  unfold AutoAssignSoftwareToStaff
  simp only [ha, hd]
  split
  · rfl
  · split
    · rfl
    · simp only [hloop, ht, ho]
      split
      · rfl
      · split <;> rfl

theorem revokeSoftwareFromSource_withStaff (f : Faults) (now : Nat) (st : Store)
    (tbl : List Staff) (staffID id : Nat) (source : String) :
    revokeSoftwareFromSource f now (withStaff st tbl) staffID id source =
      withStaff (revokeSoftwareFromSource f now st staffID id source) tbl := by
  rw [revokeSoftwareFromSource_eq, revokeSoftwareFromSource_eq]
  exact foldl_withStaff _ tbl
    (fun s sid => revokeStep_withStaff f now source s tbl staffID sid) _ st

theorem sync_withStaff (f : Faults) (now : Nat) (st : Store) (tbl : List Staff)
    (staffID oldDeptID oldTeamID newDeptID newTeamID : Nat) :
    SyncSoftwareAssignmentsForStaff f now (withStaff st tbl) staffID oldDeptID oldTeamID
        newDeptID newTeamID =
      (withStaff (SyncSoftwareAssignmentsForStaff f now st staffID oldDeptID oldTeamID
          newDeptID newTeamID).1 tbl,
       (SyncSoftwareAssignmentsForStaff f now st staffID oldDeptID oldTeamID
          newDeptID newTeamID).2) := by
  unfold SyncSoftwareAssignmentsForStaff
  dsimp only
  rw [revokeSoftwareFromSource_withStaff, revokeSoftwareFromSource_withStaff,
    autoAssign_withStaff]

theorem revokeAll_withStaff (f : Faults) (now : Nat) (st : Store) (tbl : List Staff)
    (staffID : Nat) :
    RevokeSoftwareAssignmentsForStaff f now (withStaff st tbl) staffID =
      (withStaff (RevokeSoftwareAssignmentsForStaff f now st staffID).1 tbl,
       (RevokeSoftwareAssignmentsForStaff f now st staffID).2) := by
  unfold RevokeSoftwareAssignmentsForStaff
  split
  · rfl
  · dsimp only
    congr 1
    exact foldl_withStaff (fun s a => offboardStep f now s a) tbl
      (fun s a => offboardStep_withStaff f now s tbl a) _ st

theorem saveStaff_some (f : Faults) (now : Nat) (st st1 : Store) (p : Staff)
    (h : saveStaff f now st p = some st1) : ∃ tbl, st1 = withStaff st tbl := by
  unfold saveStaff at h
  split at h
  · cases h
  · split at h
    · cases h
    · split at h
      · exact ⟨_, (Option.some.inj h).symm⟩
      · split at h
        · exact ⟨_, (Option.some.inj h).symm⟩
        · exact ⟨_, (Option.some.inj h).symm⟩

/-! ## C25: when the staff update runs the sync -/

theorem firstStaff_some (f : Faults) (st : Store) (id : Nat) (p : Staff)
    (h : firstStaff f st id = some p) : p ∈ st.staff ∧ p.ID = id := by
  unfold firstStaff at h
  split at h
  · cases h
  · exact ⟨List.mem_of_find?_eq_some h, by simpa using List.find?_some h⟩

/-- A successful `UpdateStaffWithSoftwareMatch` is the save of the staff row,
then the revocation when the status changed to `inactive`, then the sync when
the department or the team changed. -/
theorem updateStaff_of_ok (f : Faults) (now : Nat) (st : Store) (id : Nat)
    (input existing : Staff)
    (hfirst : firstStaff f st id = some existing)
    (hok : (UpdateStaffWithSoftwareMatch f now st id (some input)).2 = 200) :
    ∃ tbl, (UpdateStaffWithSoftwareMatch f now st id (some input)).1 =
      if (input.DepartmentID != existing.DepartmentID ||
          input.TeamID != existing.TeamID) = true then
        (SyncSoftwareAssignmentsForStaff f now
          (if (input.Status != existing.Status && input.Status == "inactive") = true then
            (RevokeSoftwareAssignmentsForStaff f now (withStaff st tbl) existing.ID).1
           else withStaff st tbl)
          existing.ID existing.DepartmentID existing.TeamID input.DepartmentID
          input.TeamID).1
      else
        (if (input.Status != existing.Status && input.Status == "inactive") = true then
          (RevokeSoftwareAssignmentsForStaff f now (withStaff st tbl) existing.ID).1
         else withStaff st tbl) := by
  unfold UpdateStaffWithSoftwareMatch at hok ⊢
  simp only [hfirst] at hok ⊢
  split at hok
  · simp at hok
  · rename_i hdup
    simp only [hdup]
    generalize hsave : saveStaff f now st _ = r at hok ⊢
    cases r with
    | none => simp at hok
    | some st1 =>
      obtain ⟨tbl, rfl⟩ := saveStaff_some f now st st1 _ hsave
      exact ⟨tbl, rfl⟩

/-- C25: let `UpdateStaffWithSoftwareMatch` answer 200 for the staff member
`existing` with the key `id`, whatever store call fails. When the body carries
the department and the team the staff member has and does not change the
status to `inactive`, the `assigned_software` and log tables are as before.
When the department or the team differs, the two tables are those that
`SyncSoftwareAssignmentsForStaff id oldDept oldTeam newDept newTeam` leaves:
run on the tables as they were when the status does not change to `inactive`,
and run after `RevokeSoftwareAssignmentsForStaff id` when it does. -/
theorem C25_sync_runs_exactly_on_unit_change (f : Faults) (now : Nat) (st : Store)
    (id : Nat) (input existing : Staff)
    (hfirst : firstStaff f st id = some existing)
    (hok : (UpdateStaffWithSoftwareMatch f now st id (some input)).2 = 200) :
    (input.DepartmentID = existing.DepartmentID → input.TeamID = existing.TeamID →
      ¬ (input.Status ≠ existing.Status ∧ input.Status = "inactive") →
      (UpdateStaffWithSoftwareMatch f now st id (some input)).1.assigned = st.assigned ∧
      (UpdateStaffWithSoftwareMatch f now st id (some input)).1.logs = st.logs) ∧
    (input.DepartmentID ≠ existing.DepartmentID ∨ input.TeamID ≠ existing.TeamID →
      ¬ (input.Status ≠ existing.Status ∧ input.Status = "inactive") →
      (UpdateStaffWithSoftwareMatch f now st id (some input)).1.assigned =
        (SyncSoftwareAssignmentsForStaff f now st id existing.DepartmentID existing.TeamID
          input.DepartmentID input.TeamID).1.assigned ∧
      (UpdateStaffWithSoftwareMatch f now st id (some input)).1.logs =
        (SyncSoftwareAssignmentsForStaff f now st id existing.DepartmentID existing.TeamID
          input.DepartmentID input.TeamID).1.logs) ∧
    (input.DepartmentID ≠ existing.DepartmentID ∨ input.TeamID ≠ existing.TeamID →
      input.Status ≠ existing.Status ∧ input.Status = "inactive" →
      (UpdateStaffWithSoftwareMatch f now st id (some input)).1.assigned =
        (SyncSoftwareAssignmentsForStaff f now
          (RevokeSoftwareAssignmentsForStaff f now st id).1 id existing.DepartmentID
          existing.TeamID input.DepartmentID input.TeamID).1.assigned ∧
      (UpdateStaffWithSoftwareMatch f now st id (some input)).1.logs =
        (SyncSoftwareAssignmentsForStaff f now
          (RevokeSoftwareAssignmentsForStaff f now st id).1 id existing.DepartmentID
          existing.TeamID input.DepartmentID input.TeamID).1.logs) := by
  obtain ⟨tbl, hR⟩ := updateStaff_of_ok f now st id input existing hfirst hok
  have hid : existing.ID = id := (firstStaff_some f st id existing hfirst).2
  rw [hR, hid]
  refine ⟨?_, ?_, ?_⟩
  · intro hd ht hna
    have hunit : (input.DepartmentID != existing.DepartmentID ||
        input.TeamID != existing.TeamID) = false := by simp [hd, ht]
    have hdeact : (input.Status != existing.Status && input.Status == "inactive") = false := by
      rw [Bool.and_eq_false_iff]
      by_cases hs : input.Status = existing.Status
      · left
        simp [hs]
      · right
        have : input.Status ≠ "inactive" := fun h => hna ⟨hs, h⟩
        simpa using this
    simp only [hunit, hdeact, Bool.false_eq_true, if_false]
    exact ⟨rfl, rfl⟩
  · intro hchange hna
    have hunit : (input.DepartmentID != existing.DepartmentID ||
        input.TeamID != existing.TeamID) = true := by
      rcases hchange with h | h
      · simp [h]
      · simp [h]
    have hdeact : (input.Status != existing.Status && input.Status == "inactive") = false := by
      rw [Bool.and_eq_false_iff]
      by_cases hs : input.Status = existing.Status
      · left
        simp [hs]
      · right
        have : input.Status ≠ "inactive" := fun h => hna ⟨hs, h⟩
        simpa using this
    simp only [hunit, hdeact, Bool.false_eq_true, if_true, if_false]
    rw [sync_withStaff]
    exact ⟨rfl, rfl⟩
  · intro hchange hde
    have hunit : (input.DepartmentID != existing.DepartmentID ||
        input.TeamID != existing.TeamID) = true := by
      rcases hchange with h | h
      · simp [h]
      · simp [h]
    have hdeact : (input.Status != existing.Status && input.Status == "inactive") = true := by
      rw [Bool.and_eq_true]
      exact ⟨bne_iff_ne.2 hde.1, beq_iff_eq.2 hde.2⟩
    simp only [hunit, hdeact, if_true]
    rw [revokeAll_withStaff]
    dsimp only
    rw [sync_withStaff]
    exact ⟨rfl, rfl⟩

/-- C25 at `unitChangeStore`: the update that moves staff member 1 from
department 3 to department 4 answers 200; the edge for software 7 is replaced
by an edge for software 8, as the sync does. -/
theorem C25_sync_runs_exactly_on_unit_change_witness :
    firstStaff noFaults unitChangeStore 1 =
      some { ID := 1, Email := "john.doe@shuttlers.co", DepartmentID := 3, TeamID := 5,
             Status := "active" } ∧
    (UpdateStaffWithSoftwareMatch noFaults 100 unitChangeStore 1
      (some moveToDepartment4)).2 = 200 ∧
    (UpdateStaffWithSoftwareMatch noFaults 100 unitChangeStore 1
      (some moveToDepartment4)).1.assigned.map edgeKey = [(1, 8, "department")] ∧
    (UpdateStaffWithSoftwareMatch noFaults 100 unitChangeStore 1
      (some moveToDepartment4)).1.assigned =
      (SyncSoftwareAssignmentsForStaff noFaults 100 unitChangeStore 1 3 5 4 5).1.assigned :=
  ⟨by decide, by decide, by decide,
   ((C25_sync_runs_exactly_on_unit_change noFaults 100 unitChangeStore 1 moveToDepartment4
      { ID := 1, Email := "john.doe@shuttlers.co", DepartmentID := 3, TeamID := 5,
        Status := "active" } (by decide) (by decide)).2.1
      (Or.inl (by decide)) (by decide)).1⟩

end SoftwareManagement
